import Mathlib

/-!
# Maelstrom: a persistent, dependency-aware task scheduler

A shallow embedding of the scheduler core of `kivisade/Maelstrom`
(`task.go`, `task_bsonable.go`, `core.go`, `worker.go`, `mongo_task.go`) and theorems
about it.

Conventions of the embedding:

* Go `int`, `uint` and `time.Duration` are 64-bit; they are embedded in `Int`
  and `Nat` with the wrap-around written out where the source computes on them
  (`NextRunTime`, `task.Attempts++`).
* A `time.Time` is an instant counted in nanoseconds; `Time.Add` is exact. The
  readings of `time.Now()` are arguments of the function that takes them.
* A Go `error` is the text of its `Error()`; a nil error is `none`.
* The MongoDB collection is the list of its records, each with the fields of
  its document, as a `Task`. A query answers on these fields; an iterator
  decodes the document of each record it yields with `SetBSON`, and ends at
  the first record that does not decode. The lock service is a state machine
  over a state of its own. The
  packages that are not among the sources (`mongo/lock`, `common/types`, the
  BSON library) are parameters or are modelled from the specification, as the
  comment of each such definition says.
* Code that acts on the collection, on the lock service, on the registered
  handlers or on the dispatch callback passes their state along explicitly and
  returns, next to its result, the list of the calls it made, in order.
* A handler is called with a pointer to the task of `Worker`: it is a function
  from the task it is given to the task it leaves, its error and its flag.
  What a handler does elsewhere on its own account is not among the calls of
  `Worker`.
* Logging is left out.
-/

namespace Maelstrom

/-! ## Machine arithmetic -/

/-- The value of an integer after conversion to Go's `int64` (two's complement wrap). -/
def wrapInt64 (x : Int) : Int := (x + 9223372036854775808) % 18446744073709551616 - 9223372036854775808

/-- The value of an integer after conversion to Go's 64-bit `uint`. -/
def wrapUint64 (x : Int) : Nat := (x % 18446744073709551616).toNat

/-- Go's `1 << s` where the constant takes the type `time.Duration` (an `int64`) and
`s` is an unsigned shift count: the bit shifted out of the 64-bit word is lost. -/
def shiftLeftOne (s : Nat) : Int := if 64 ≤ s then 0 else wrapInt64 (2 ^ s)

/-! ## Time -/

/-- An instant (`time.Time`), as a count of nanoseconds. -/
structure Time where
  ns : Int
  deriving DecidableEq, Repr

/-- The constant `time.Minute`, a `time.Duration` in nanoseconds. -/
def Minute : Int := 60000000000

/-- Go's `Time.Add`: the instant `d` nanoseconds later. -/
def Time.Add (t : Time) (d : Int) : Time := ⟨t.ns + d⟩

/-- The backoff schedule of `worker.go`:
`lastRunTime.Add(time.Minute * time.Duration(1<<(uint(attempts)+1)))`. -/
def NextRunTime (lastRunTime : Time) (attempts : Int) : Time :=
  lastRunTime.Add (wrapInt64 (Minute * shiftLeftOne (wrapUint64 (wrapUint64 attempts + 1))))

/-! ## The task model (`task.go`) -/

/-- A `bson.ObjectId`: a string of bytes. -/
abbrev ObjectId := List (Fin 256)

/-- One lower-case hexadecimal digit. -/
def hexDigit (n : Nat) : Char := "0123456789abcdef".toList.getD n '0'

/-- Go's `ObjectId.Hex`: two hexadecimal digits for each byte. -/
def Hex (id : ObjectId) : String :=
  String.mk (id.flatMap fun b => [hexDigit (b.val / 16), hexDigit (b.val % 16)])

/-- The type `TaskStatus` is an `int`. -/
abbrev TaskStatus := Int

/-- The type `TaskDependStatus` is an `int`. -/
abbrev TaskDependStatus := Int

def TASK_STATUS_CANCELLED : TaskStatus := -2
def TASK_STATUS_FAILED : TaskStatus := -1
def TASK_STATUS_PENDING : TaskStatus := 0
def TASK_STATUS_COMPLETE : TaskStatus := 1
def TASK_STATUS_PAUSED : TaskStatus := 2
def TASK_STATUS_RUNNING : TaskStatus := 3

def TASK_DEPENDS_FAILED : TaskDependStatus := -1
def TASK_DEPENDS_NONE : TaskDependStatus := 0
def TASK_DEPENDS_CLEAR : TaskDependStatus := 1
def TASK_DEPENDS_WAIT : TaskDependStatus := 2

/-- One entry of a task's history, `TaskHistoryRecord`. -/
structure TaskHistoryRecord where
  StartedAt : Time
  FinishedAt : Time
  Error : Option String
  deriving DecidableEq, Repr

/-- The zero value of `TaskHistoryRecord` (`var logEntry TaskHistoryRecord`). -/
def TaskHistoryRecord.zero : TaskHistoryRecord := ⟨⟨0⟩, ⟨0⟩, none⟩

/-- The method `Start`, with the reading of `time.Now()` passed in. -/
def TaskHistoryRecord.Start (r : TaskHistoryRecord) (now : Time) : TaskHistoryRecord :=
  { r with StartedAt := now }

/-- The method `Finish`, with the reading of `time.Now()` passed in. -/
def TaskHistoryRecord.Finish (r : TaskHistoryRecord) (now : Time) (err : Option String) :
    TaskHistoryRecord :=
  match err with
  | some e => { r with FinishedAt := now, Error := some e }
  | none => { r with FinishedAt := now }

/-- The struct `Task`. `Body` is an `interface{}` that the scheduler never looks into;
it is carried as text. The field `Type` is named `TaskType`. -/
structure Task where
  Id : ObjectId
  Client : ObjectId
  RequestId : Option ObjectId
  Depends : List ObjectId
  Locks : List ObjectId
  TaskType : String
  Body : String
  CreatedAt : Time
  Status : TaskStatus
  Attempts : Int
  LastRunAt : Option Time
  NextRunAt : Option Time
  Log : List TaskHistoryRecord
  deriving DecidableEq, Repr

/-- The method `String` of `Task`: `"<hex-id> (<type>)"`. It is named `Task.render` here,
since `Task.String` would hide the type of strings inside the namespace `Task`. -/
def Task.render (t : Task) : String := Hex t.Id ++ " (" ++ t.TaskType ++ ")"

/-- The constructor `NewTask`; the fresh id of `bson.NewObjectId()` and the two readings
of the clock (`time.Now()` and `utils.NowPtr()`) are passed in. -/
def NewTask (newId : ObjectId) (now nowPtr : Time) (client : ObjectId) (taskType : String)
    (body : String) : Task :=
  { Id := newId, Client := client, RequestId := none, Depends := [], Locks := [],
    TaskType := taskType, Body := body, CreatedAt := now, Status := 0, Attempts := 0,
    LastRunAt := none, NextRunAt := some nowPtr, Log := [] }

/-- The struct `TaskList`. -/
structure TaskList where
  tasks : List Task
  deriving DecidableEq

/-- The zero value of `TaskList`. -/
def TaskList.zero : TaskList := ⟨[]⟩

/-- The method `AddCopy`. -/
def TaskList.AddCopy (tl : TaskList) (task : Task) : TaskList := ⟨tl.tasks ++ [task]⟩

/-- The method `Count`. -/
def TaskList.Count (tl : TaskList) : Int := tl.tasks.length

/-! ## The collection `tasks` (`mgoTasks`) -/

/-- The MongoDB collection, as the list of its records: each is the `Task` whose fields
are the fields of the stored document. -/
abbrev Collection := List Task

/-- The query `Find({_id: {$in: ids}})`. -/
def Collection.FindIdIn (c : Collection) (ids : List ObjectId) : List Task :=
  c.filter fun d => decide (d.Id ∈ ids)

/-- The call `UpdateId(id, doc)`: the document with that `_id` is replaced by `doc`; with no
such document the call changes nothing (its error is dropped by every caller). -/
def Collection.UpdateId : Collection → ObjectId → Task → Collection
  | [], _, _ => []
  | d :: ds, id, doc => if d.Id = id then doc :: ds else d :: Collection.UpdateId ds id doc

/-- The call `UpdateId(id, {$set: {Status: status}})`. -/
def Collection.SetStatus : Collection → ObjectId → TaskStatus → Collection
  | [], _, _ => []
  | d :: ds, id, status =>
    if d.Id = id then { d with Status := status } :: ds
    else d :: Collection.SetStatus ds id status

/-- The call `UpsertId(id, doc)`: as `UpdateId`, and with no such document `doc` is inserted. -/
def Collection.UpsertId : Collection → ObjectId → Task → Collection
  | [], _, doc => [doc]
  | d :: ds, id, doc => if d.Id = id then doc :: ds else d :: Collection.UpsertId ds id doc

/-- The document stored under an `_id`. -/
def Collection.FindId (c : Collection) (id : ObjectId) : Option Task :=
  c.find? fun d => decide (d.Id = id)

/-- Byte-wise comparison of two ids, the order MongoDB gives to `_id`. -/
def ObjectId.le : ObjectId → ObjectId → Bool
  | [], _ => true
  | _ :: _, [] => false
  | a :: as, b :: bs => decide (a < b) || (decide (a = b) && ObjectId.le as bs)

/-- The order of `Sort("NextRunAt", "_id")`; a null `NextRunAt` sorts first. -/
def sortsBefore (a b : Task) : Bool :=
  match a.NextRunAt, b.NextRunAt with
  | none, none => ObjectId.le a.Id b.Id
  | none, some _ => true
  | some _, none => false
  | some x, some y => decide (x.ns < y.ns) || (decide (x.ns = y.ns) && ObjectId.le a.Id b.Id)

/-- The filter of the query in `RunTasks`:
`Status = PENDING`, `Attempts < maxAttempts`, `NextRunAt <= now` (a null never matches). -/
def isRunnable (maxAttempts : Int) (now : Time) (d : Task) : Bool :=
  decide (d.Status = TASK_STATUS_PENDING) && decide (d.Attempts < maxAttempts) &&
    (match d.NextRunAt with
     | some n => decide (n.ns ≤ now.ns)
     | none => false)

/-- The query of `RunTasks`: the runnable tasks in the order `(NextRunAt, _id)`. -/
def Collection.FindRunnable (c : Collection) (maxAttempts : Int) (now : Time) : List Task :=
  (c.filter (isRunnable maxAttempts now)).insertionSort fun a b => sortsBefore a b = true

/-! ## The world outside the scheduler -/

/-- One call that the scheduler makes on the collection, on the lock service, on a
registered handler or on the dispatch callback. -/
inductive Event where
  | findRunnable (now : Time)
  | findIdIn (ids : List ObjectId)
  | updateId (id : ObjectId) (doc : Task)
  | setStatus (id : ObjectId) (status : TaskStatus)
  | upsertId (id : ObjectId) (doc : Task)
  | getLock (name : String) (obtained : Bool)
  | releaseLock (name : String) (err : Option String)
  | taskHandler (taskType : String) (task : Task)
  | taskFatalHandler (taskType : String) (task : Task) (taskError : String)
  | sendWork (task : Task)
  deriving DecidableEq, Repr

/-- The package `mongo/lock`, as a state machine over its own state `σ`:
`GetLock(name, timeout)` answers whether the lock was obtained, `ReleaseLock(name)` answers
with an error or nil. -/
structure LockService (σ : Type) where
  GetLock : String → Int → σ → Bool × σ
  ReleaseLock : String → σ → Option String × σ

/-- What a task handler (`TaskHandlerF`) leaves behind: it is given `*Task`, so the task
as the handler leaves it is part of its result. -/
structure HandlerResult where
  task : Task
  workerError : Option String
  fatal : Bool

/-- What a fatal handler (`TaskFatalHandlerF`) leaves behind: the task, which it is given
as `*Task` too, and its own error, which `Worker` only logs. -/
structure FatalHandlerResult where
  task : Task
  postMortem : Option String

/-- The type `TaskHandlerF`, `func (task *Task) (workerError error, fatal bool)`. -/
abbrev TaskHandlerF := Task → HandlerResult

/-- The type `TaskFatalHandlerF`, `func (task *Task, taskError error) error`. -/
abbrev TaskFatalHandlerF := Task → String → FatalHandlerResult

/-- The package-level variables that are set once at start-up: `maxAttempts`, the two
handler maps (a Go map, as a lookup that may find nothing) and the lock service. -/
structure Env (σ : Type) where
  maxAttempts : Int
  taskHandlerMap : String → Option TaskHandlerF
  taskFatalHandlerMap : String → Option TaskFatalHandlerF
  lock : LockService σ

/-- The state outside the process: the collection and the lock service. -/
structure World (σ : Type) where
  tasks : Collection
  locks : σ

/-- The duration `3*time.Second` in nanoseconds. -/
def lockTimeout : Int := 3 * 1000000000

/-! ## Locks (`task.go`) -/

/-- The first loop of `GetAllLocks`: the array `obtained`, the error, the lock service
after the calls, and the calls. -/
def GetAllLocks.acquire {σ : Type} (svc : LockService σ) :
    List ObjectId → σ → List Bool × Option String × σ × List Event
  | [], s => ([], none, s, [])
  | lockId :: rest, s =>
    let r := svc.GetLock (Hex lockId) lockTimeout s
    if r.1 = false then
      (false :: List.replicate rest.length false,
        some ("Failed to obtain MongoDB lock " ++ Hex lockId ++ "."), r.2,
        [Event.getLock (Hex lockId) false])
    else
      let next := GetAllLocks.acquire svc rest r.2
      (true :: next.1, next.2.1, next.2.2.1, Event.getLock (Hex lockId) true :: next.2.2.2)

/-- The second loop of `GetAllLocks`: release where `obtained[i]` holds; the error of
`ReleaseLock` is dropped. -/
def GetAllLocks.release {σ : Type} (svc : LockService σ) :
    List Bool → List ObjectId → σ → σ × List Event
  | true :: obtained, lockId :: locks, s =>
    let r := svc.ReleaseLock (Hex lockId) s
    let next := GetAllLocks.release svc obtained locks r.2
    (next.1, Event.releaseLock (Hex lockId) r.1 :: next.2)
  | false :: obtained, _ :: locks, s => GetAllLocks.release svc obtained locks s
  | _, _, s => (s, [])

/-- The method `Task.GetAllLocks`. -/
def Task.GetAllLocks {σ : Type} (svc : LockService σ) (t : Task) (s : σ) :
    Option String × σ × List Event :=
  let a := GetAllLocks.acquire svc t.Locks s
  match a.2.1 with
  | some err =>
    let r := GetAllLocks.release svc a.1 t.Locks a.2.2.1
    (some err, r.1, a.2.2.2 ++ r.2)
  | none => (none, a.2.2.1, a.2.2.2)

/-- The loop of `ReleaseAllLocks`: the errors gathered in the multi-error (the message of
`fmt.Errorf` paired with its cause), the lock service after the calls, and the calls. -/
def ReleaseAllLocks.loop {σ : Type} (svc : LockService σ) :
    List ObjectId → σ → List (String × String) × σ × List Event
  | [], s => ([], s, [])
  | lockId :: rest, s =>
    let r := svc.ReleaseLock (Hex lockId) s
    let next := ReleaseAllLocks.loop svc rest r.2
    match r.1 with
    | some err =>
      (("Failed to release MongoDB lock " ++ Hex lockId ++ ".", err) :: next.1, next.2.1,
        Event.releaseLock (Hex lockId) (some err) :: next.2.2)
    | none => (next.1, next.2.1, Event.releaseLock (Hex lockId) none :: next.2.2)

/-- Modelled from the spec: the package `common/types` with `MultiError` is not among the
sources. The multi-error accumulates the errors added to it, one entry for each, and
`Return` hands all of them back; it is the nil error when nothing was added. -/
def MultiError.Return (entries : List (String × String)) : Option (List (String × String)) :=
  if entries = [] then none else some entries

/-- The method `Task.ReleaseAllLocks`: the result of `muerr.Return()`, the lock service
after the calls, and the calls. -/
def Task.ReleaseAllLocks {σ : Type} (svc : LockService σ) (t : Task) (s : σ) :
    Option (List (String × String)) × σ × List Event :=
  let r := ReleaseAllLocks.loop svc t.Locks s
  (MultiError.Return r.1, r.2.1, r.2.2)

/-! ## Decoding a task (`task_bsonable.go`) and reading the collection -/

/-- A `bson.Raw`: the kind of a value and its bytes. -/
structure Raw where
  Kind : Nat
  Data : List Nat
  deriving DecidableEq, Repr

/-- The struct `taskBsonUnmarshalT`: the fields of `Task`, with `Body` still raw. -/
structure taskBsonUnmarshalT where
  Id : ObjectId
  Client : ObjectId
  RequestId : Option ObjectId
  Depends : List ObjectId
  Locks : List ObjectId
  TaskType : String
  Body : Raw
  CreatedAt : Time
  Status : TaskStatus
  Attempts : Int
  LastRunAt : Option Time
  NextRunAt : Option Time
  Log : List TaskHistoryRecord
  deriving DecidableEq, Repr

/-- The type `TaskBodyUnmarshalF`, `func(raw bson.Raw) (body interface{}, err error)`:
the body and the error are both returned. -/
abbrev TaskBodyUnmarshalF := Raw → String × Option String

/-- What decoding needs from outside `SetBSON`: the generic `raw.Unmarshal(&tt)` of the
BSON library, which fails or fills `tt`, and the map `taskBodyUnmarshalMap`. -/
structure Codec where
  Unmarshal : Raw → Except String taskBsonUnmarshalT
  taskBodyUnmarshalMap : String → Option TaskBodyUnmarshalF

/-- The error of `SetBSON`, by the statement that produced it: the generic decode, the
body decoder of the type, or the `fmt.Errorf` for a type without a decoder. -/
inductive SetBSONError where
  | unmarshal (text : String)
  | body (text : String)
  | unknownTaskType (text : String)
  deriving DecidableEq, Repr

/-- The method `SetBSON`: the error, if any, and the target `*t` after the call. -/
def Task.SetBSON (codec : Codec) (t : Task) (raw : Raw) : Option SetBSONError × Task :=
  match codec.Unmarshal raw with
  | Except.error e => (some (SetBSONError.unmarshal e), t)
  | Except.ok tt =>
    match codec.taskBodyUnmarshalMap tt.TaskType with
    | none =>
      (some (SetBSONError.unknownTaskType
        ("Cannot unmarshal BSON data for Task: unknown task type '" ++ tt.TaskType ++ "'.")), t)
    | some f =>
      match (f tt.Body).2 with
      | some e => (some (SetBSONError.body e), t)
      | none =>
        (none,
          { Id := tt.Id, Client := tt.Client, RequestId := tt.RequestId, Depends := tt.Depends,
            Locks := tt.Locks, TaskType := tt.TaskType, Body := (f tt.Body).1,
            CreatedAt := tt.CreatedAt, Status := tt.Status, Attempts := tt.Attempts,
            LastRunAt := tt.LastRunAt, NextRunAt := tt.NextRunAt, Log := tt.Log })

/-- The zero value of `Task` (`new(Task)`). -/
def Task.zero : Task :=
  { Id := [], Client := [], RequestId := none, Depends := [], Locks := [], TaskType := "",
    Body := "", CreatedAt := ⟨0⟩, Status := 0, Attempts := 0, LastRunAt := none,
    NextRunAt := none, Log := [] }

/-- What the process reads the collection with: the document of a stored record, as the
driver hands it to `SetBSON`, and the codec. -/
structure Reader where
  codec : Codec
  document : Task → Raw

/-- The loop `for iter.Next(task)` over the records that a query found, in their order:
`Next` decodes the document of the next record into `*task` with `SetBSON` and answers
`true`; it answers `false`, which ends the loop, when no record is left and when a record
does not decode. The values of `*task` that the body of the loop is run with, in order.
What the body of the loop writes into `*task` is not passed to the next call: a call of
`SetBSON` that succeeds overwrites every field, and one that fails ends the loop. -/
def Iter.Next (rd : Reader) : Task → List Task → List Task
  | _, [] => []
  | task, d :: rest =>
    let r := task.SetBSON rd.codec (rd.document d)
    match r.1 with
    | some _ => []
    | none => r.2 :: Iter.Next rd r.2 rest

/-! ## The dependency resolver and the scheduler tick (`core.go`) -/

/-- The body of the loop of `CheckTaskDepends`: the switch on `depend.Status`, acting on
the pair `(waiting, fatal)`. -/
def CheckTaskDepends.classify (lists : TaskList × TaskList) (depend : Task) :
    TaskList × TaskList :=
  if depend.Status = TASK_STATUS_PENDING ∨ depend.Status = TASK_STATUS_PAUSED ∨
      depend.Status = TASK_STATUS_RUNNING then
    (lists.1.AddCopy depend, lists.2)
  else if depend.Status = TASK_STATUS_FAILED ∨ depend.Status = TASK_STATUS_CANCELLED then
    (lists.1, lists.2.AddCopy depend)
  else lists

/-- The function `CheckTaskDepends`: the classification and the calls made on the
collection. The loop runs over the dependencies that the iterator yields. -/
def CheckTaskDepends (rd : Reader) (c : Collection) (task : Task) :
    TaskDependStatus × List Event :=
  if task.Depends.length = 0 then (TASK_DEPENDS_NONE, [])
  else
    let lists := (Iter.Next rd Task.zero (c.FindIdIn task.Depends)).foldl
      CheckTaskDepends.classify (TaskList.zero, TaskList.zero)
    (if lists.2.Count > 0 then TASK_DEPENDS_FAILED
      else if lists.1.Count > 0 then TASK_DEPENDS_WAIT
      else TASK_DEPENDS_CLEAR,
     [Event.findIdIn task.Depends])

/-- The state of a tick of `RunTasks`: the collection, the calls made so far and
`tasksCount`. -/
structure TickState where
  tasks : Collection
  calls : List Event
  tasksCount : Int
  deriving DecidableEq

/-- The body of the loop of `RunTasks` for one task read from the iterator. -/
def RunTasks.visit (rd : Reader) (st : TickState) (task : Task) : TickState :=
  let dep := CheckTaskDepends rd st.tasks task
  if dep.1 = TASK_DEPENDS_NONE ∨ dep.1 = TASK_DEPENDS_CLEAR then
    { st with calls := st.calls ++ dep.2 ++ [Event.sendWork task],
              tasksCount := st.tasksCount + 1 }
  else if dep.1 = TASK_DEPENDS_FAILED then
    let failed : Task := { task with Status := TASK_STATUS_FAILED }
    { tasks := st.tasks.UpdateId failed.Id failed,
      calls := st.calls ++ dep.2 ++ [Event.updateId failed.Id failed],
      tasksCount := st.tasksCount + 1 }
  else
    { st with calls := st.calls ++ dep.2, tasksCount := st.tasksCount + 1 }

/-- The state of `RunTasks` when its loop starts: the query has been sent. -/
def RunTasks.start (now : Time) (c : Collection) : TickState :=
  { tasks := c, calls := [Event.findRunnable now], tasksCount := 0 }

/-- The function `RunTasks`: one tick over the runnable tasks that the iterator yields,
with the reading of `time.Now()` in the query passed in. The dispatch `go sendWork(*task)`
is recorded as the call `sendWork` on the value of the task. -/
def RunTasks (rd : Reader) (maxAttempts : Int) (now : Time) (c : Collection) : TickState :=
  (Iter.Next rd Task.zero (c.FindRunnable maxAttempts now)).foldl (RunTasks.visit rd)
    (RunTasks.start now c)

/-! ## The worker (`worker.go`, `mongo_task.go`) -/

/-- The method `SaveStatus` of `MongoTask`: the task with the new status, the collection
after the partial update, and the call. -/
def MongoTask.SaveStatus (t : Task) (status : TaskStatus) (c : Collection) :
    Task × Collection × List Event :=
  ({ t with Status := status }, c.SetStatus t.Id status, [Event.setStatus t.Id status])

/-- The method `Save` of `MongoTask`. -/
def MongoTask.Save (t : Task) (c : Collection) : Collection × List Event :=
  (c.UpsertId t.Id t, [Event.upsertId t.Id t])

/-- How a call of `Worker` ends: `return nil`, `return false`, or the run-time panic of
dereferencing a nil `LastRunAt`. -/
inductive WorkerReturn where
  | retNil
  | retFalse
  | nilDereference
  deriving DecidableEq, Repr

/-- The result of a call of `Worker`: the world after it, the local variable `task` when
it ends, how it ended, and the calls it made, in order. -/
structure WorkerResult (σ : Type) where
  world : World σ
  task : Task
  returned : WorkerReturn
  calls : List Event

/-- Lines 59 to 63 of `worker.go`: the call of the handler registered for the type, or the
error of an unknown type with `fatal = true`. -/
def Worker.handle {σ : Type} (env : Env σ) (task : Task) : HandlerResult × List Event :=
  match env.taskHandlerMap task.TaskType with
  | some taskHandler => (taskHandler task, [Event.taskHandler task.TaskType task])
  | none =>
    (⟨task, some ("Failed to run task " ++ task.render ++ ": unknown task type."), true⟩, [])

/-- Lines 65 to 67 of `worker.go`: `logEntry.Finish(taskError)`, `task.Attempts++` (on a
64-bit `int`) and the append to `task.Log`. -/
def Worker.record (finishedAt : Time) (logEntry : TaskHistoryRecord) (h : HandlerResult) :
    Task :=
  { h.task with Attempts := wrapInt64 (h.task.Attempts + 1),
                Log := h.task.Log ++ [logEntry.Finish finishedAt h.workerError] }

/-- Lines 69 to 91 of `worker.go`: the outcome of the attempt. The result is `none` when
`*task.LastRunAt` dereferences nil. -/
def Worker.settle {σ : Type} (env : Env σ) (task : Task) (taskError : Option String)
    (fatal : Bool) : Option (Task × List Event) :=
  match taskError with
  | none => some ({ task with Status := TASK_STATUS_COMPLETE, NextRunAt := none }, [])
  | some err =>
    if fatal = true ∨ task.Attempts ≥ env.maxAttempts then
      let failed : Task := { task with Status := TASK_STATUS_FAILED, NextRunAt := none }
      match env.taskFatalHandlerMap failed.TaskType with
      | some taskFatalHandler =>
        some ((taskFatalHandler failed err).task,
          [Event.taskFatalHandler failed.TaskType failed err])
      | none => some (failed, [])
    else
      match task.LastRunAt with
      | none => none
      | some lastRunAt =>
        some ({ task with Status := TASK_STATUS_PENDING,
                          NextRunAt := some (NextRunTime lastRunAt task.Attempts) }, [])

/-- The function `Worker` on a value of type `Task`, with the two readings of `time.Now()`
(in `logEntry.Start()` and in `logEntry.Finish`) passed in. -/
def Worker {σ : Type} (env : Env σ) (startedAt finishedAt : Time) (w : World σ)
    (task : Task) : WorkerResult σ :=
  if task.Status ≠ TASK_STATUS_PENDING then ⟨w, task, WorkerReturn.retFalse, []⟩
  else
    let got := task.GetAllLocks env.lock w.locks
    match got.1 with
    | some _ => ⟨{ w with locks := got.2.1 }, task, WorkerReturn.retFalse, got.2.2⟩
    | none =>
      let running := MongoTask.SaveStatus task TASK_STATUS_RUNNING w.tasks
      let logEntry := TaskHistoryRecord.zero.Start startedAt
      let started : Task := { running.1 with LastRunAt := some logEntry.StartedAt }
      let handled := Worker.handle env started
      let recorded := Worker.record finishedAt logEntry handled.1
      match Worker.settle env recorded handled.1.workerError handled.1.fatal with
      | none =>
        ⟨{ tasks := running.2.1, locks := got.2.1 }, recorded, WorkerReturn.nilDereference,
          got.2.2 ++ running.2.2 ++ handled.2⟩
      | some settled =>
        let saved := MongoTask.Save settled.1 running.2.1
        let released := settled.1.ReleaseAllLocks env.lock got.2.1
        ⟨{ tasks := saved.1, locks := released.2.1 }, settled.1, WorkerReturn.retNil,
          got.2.2 ++ running.2.2 ++ handled.2 ++ settled.2 ++ saved.2 ++ released.2.2⟩

/-! ## More of the task model (`task.go`) -/

/-- The delay that `NextRunTime` adds to the last run:
`time.Minute * time.Duration(1<<(uint(attempts)+1))`, a 64-bit product. -/
def backoffDelay (attempts : Int) : Int :=
  wrapInt64 (Minute * shiftLeftOne (wrapUint64 (wrapUint64 attempts + 1)))

/-- The method `NewDependentTask`: the new task and the parent after the append to its
`Depends`; the fresh id and the readings of the clock are passed on to `NewTask`. -/
def Task.NewDependentTask (t : Task) (newId : ObjectId) (now nowPtr : Time)
    (taskType : String) (body : String) : Task × Task :=
  let depend := NewTask newId now nowPtr t.Client taskType body
  (depend, { t with Depends := t.Depends ++ [depend.Id] })

/-- The method `SetRequestId`. -/
def Task.SetRequestId (t : Task) (requestId : ObjectId) : Task :=
  { t with RequestId := some requestId }

/-- The method `AddLock`. -/
def Task.AddLock (t : Task) (lockId : ObjectId) : Task :=
  { t with Locks := t.Locks ++ [lockId] }

/-! ## Vocabulary of the statements and concrete scenarios -/

/-- The stored record `d` decodes: `SetBSON` returns nil on its document. -/
def Reader.decodes (rd : Reader) (d : Task) : Bool :=
  (Task.zero.SetBSON rd.codec (rd.document d)).1.isNone

/-- The task that `SetBSON` leaves when it is given the document of the record `d`. -/
def Reader.decoded (rd : Reader) (d : Task) : Task :=
  (Task.zero.SetBSON rd.codec (rd.document d)).2

/-- The fields of a stored record as the generic decode fills them in, around a raw body. -/
def Task.fields (d : Task) (body : Raw) : taskBsonUnmarshalT :=
  { Id := d.Id, Client := d.Client, RequestId := d.RequestId, Depends := d.Depends,
    Locks := d.Locks, TaskType := d.TaskType, Body := body, CreatedAt := d.CreatedAt,
    Status := d.Status, Attempts := d.Attempts, LastRunAt := d.LastRunAt,
    NextRunAt := d.NextRunAt, Log := d.Log }

/-- The document of every record holds the fields of the record: when the generic decode
of the document succeeds, what it fills in are the fields of the record, around a body. -/
def Reader.faithful (rd : Reader) : Prop :=
  ∀ d tt, rd.codec.Unmarshal (rd.document d) = Except.ok tt → tt = d.fields tt.Body

/-- The dependencies of `t` that are read from the collection: the stored records whose
ids are in `t.Depends`, up to the first one that does not decode, each as it decodes. -/
def readDepends (rd : Reader) (c : Collection) (t : Task) : List Task :=
  ((c.FindIdIn t.Depends).takeWhile rd.decodes).map rd.decoded

/-- The tasks that a tick at `now` visits: the runnable records in the order of the
query, up to the first one that does not decode, each as it decodes. -/
def visited (rd : Reader) (maxAttempts : Int) (now : Time) (c : Collection) : List Task :=
  ((c.FindRunnable maxAttempts now).takeWhile rd.decodes).map rd.decoded

/-- Some dependency of `t` that is read is `FAILED` or `CANCELLED`. -/
def hasFatalDepend (rd : Reader) (c : Collection) (t : Task) : Prop :=
  ∃ d ∈ readDepends rd c t,
    d.Status = TASK_STATUS_FAILED ∨ d.Status = TASK_STATUS_CANCELLED

/-- Some dependency of `t` that is read is `PENDING`, `PAUSED` or `RUNNING`. -/
def hasWaitingDepend (rd : Reader) (c : Collection) (t : Task) : Prop :=
  ∃ d ∈ readDepends rd c t,
    d.Status = TASK_STATUS_PENDING ∨ d.Status = TASK_STATUS_PAUSED ∨
      d.Status = TASK_STATUS_RUNNING

/-- Some stored record of a dependency of `t` is `FAILED` or `CANCELLED`. -/
def hasFatalRecord (c : Collection) (t : Task) : Prop :=
  ∃ d ∈ c, d.Id ∈ t.Depends ∧
    (d.Status = TASK_STATUS_FAILED ∨ d.Status = TASK_STATUS_CANCELLED)

/-- Some stored record of a dependency of `t` is `PENDING`, `PAUSED` or `RUNNING`. -/
def hasWaitingRecord (c : Collection) (t : Task) : Prop :=
  ∃ d ∈ c, d.Id ∈ t.Depends ∧
    (d.Status = TASK_STATUS_PENDING ∨ d.Status = TASK_STATUS_PAUSED ∨
      d.Status = TASK_STATUS_RUNNING)

/-- A reader over a table of records, for the task types `types`. The document of a
record is its place in the table, followed by the characters of its body; the generic
decode looks the record up and fails for a place outside the table; the body decoder of a
type in `types` reads the characters back, and the other types have no decoder. -/
def tableReader (table : List Task) (types : List String) : Reader :=
  { codec :=
      { Unmarshal := fun raw =>
          match table.get? raw.Data.headI with
          | some d => Except.ok (d.fields ⟨2, raw.Data.tail⟩)
          | none => Except.error "no such document",
        taskBodyUnmarshalMap := fun ty =>
          if ty ∈ types then some fun raw => (String.mk (raw.Data.map Char.ofNat), none)
          else none },
    document := fun d => ⟨3, table.indexOf d :: d.Body.data.map Char.toNat⟩ }

/-- A task of type `noop` with the given id, status and dependencies, due at instant 0. -/
def sampleTask (id : ObjectId) (status : TaskStatus) (depends : List ObjectId) : Task :=
  { Id := id, Client := [0], RequestId := none, Depends := depends, Locks := [],
    TaskType := "noop", Body := "", CreatedAt := ⟨0⟩, Status := status, Attempts := 0,
    LastRunAt := none, NextRunAt := some ⟨0⟩, Log := [] }

/-- The task that `Worker` hands to the handler: the status is `RUNNING` (set by
`SaveStatus`) and `LastRunAt` is the start of the attempt. -/
def Worker.started (startedAt : Time) (task : Task) : Task :=
  { task with Status := TASK_STATUS_RUNNING, LastRunAt := some startedAt }

/-- The calls on the lock service. -/
def Event.isLockCall (e : Event) : Bool :=
  match e with
  | Event.getLock _ _ => true
  | Event.releaseLock _ _ => true
  | _ => false

/-- The documents written by the full upserts among some calls, in order. -/
def persisted (calls : List Event) : List Task :=
  calls.filterMap fun e =>
    match e with
    | Event.upsertId _ doc => some doc
    | _ => none

/-- The number of calls of a fatal handler among some calls. -/
def fatalHandlerCalls (calls : List Event) : Nat :=
  (calls.filter fun e =>
    match e with
    | Event.taskFatalHandler _ _ _ => true
    | _ => false).length

/-- Both kinds of handler hand the task back with `Attempts` and `Log` as they got them. -/
def Env.keepsHistory {σ : Type} (env : Env σ) : Prop :=
  (∀ ty f, env.taskHandlerMap ty = some f →
    ∀ t, (f t).task.Attempts = t.Attempts ∧ (f t).task.Log = t.Log) ∧
  (∀ ty g, env.taskFatalHandlerMap ty = some g →
    ∀ t e, (g t e).task.Attempts = t.Attempts ∧ (g t e).task.Log = t.Log)

/-- Successive calls of `Worker` on one task, each with its own clock readings and world:
the task that a call leaves is the task of the next call. -/
def workerCycles {σ : Type} (env : Env σ) : List (Time × Time × World σ) → Task → Task
  | [], t => t
  | cycle :: rest, t =>
    workerCycles env rest (Worker env cycle.1 cycle.2.1 cycle.2.2 t).task

/-- A lock service in which every lock is free: each call succeeds. -/
def freeLocks : LockService Unit :=
  { GetLock := fun _ _ s => (true, s), ReleaseLock := fun _ s => (none, s) }

/-- An environment with at most one handler and one fatal handler, both for the type
`noop`, over the lock service `freeLocks`. -/
def sampleEnv (maxAttempts : Int) (handler : Option TaskHandlerF)
    (fatalHandler : Option TaskFatalHandlerF) : Env Unit :=
  { maxAttempts := maxAttempts,
    taskHandlerMap := fun ty => if ty = "noop" then handler else none,
    taskFatalHandlerMap := fun ty => if ty = "noop" then fatalHandler else none,
    lock := freeLocks }

/-- The store of the dependency-failure scenario: `A` is `FAILED`, `B` is `PENDING`, due,
and depends on `A`. -/
def failedDependStore : Collection :=
  [sampleTask [1] TASK_STATUS_FAILED [], sampleTask [2] TASK_STATUS_PENDING [[1]]]

/-- Modelled from the spec: the package `mongo/lock` is not among the sources. By the spec
an `Acquire` that answers `true` means that the caller holds the lock, and `Release` gives
the lock up unless it answers with an error. The names of the locks that the caller
holds after one call, from the names it held before it. -/
def heldStep (held : List String) (e : Event) : List String :=
  match e with
  | Event.getLock name true => if name ∈ held then held else name :: held
  | Event.releaseLock name none => held.filter fun n => n ≠ name
  | _ => held

/-- The names of the locks that the caller holds after some calls, in order, from the
names it held before them (see `heldStep`). -/
def heldAfter (held : List String) (calls : List Event) : List String :=
  calls.foldl heldStep held

/-- The status that a call writes to the collection, if it is a write. -/
def Event.writtenStatus (e : Event) : Option TaskStatus :=
  match e with
  | Event.updateId _ doc => some doc.Status
  | Event.setStatus _ status => some status
  | Event.upsertId _ doc => some doc.Status
  | _ => none

/-- The statuses written to the collection by some calls, in order. -/
def writtenStatuses (calls : List Event) : List TaskStatus :=
  calls.filterMap Event.writtenStatus

/-- The calls of `ReleaseLock` on some locks, in order, with the given answers. -/
def releaseCalls (locks : List ObjectId) (answers : List (Option String)) : List Event :=
  List.zipWith (fun lockId answer => Event.releaseLock (Hex lockId) answer) locks answers

/-- Every call of `Worker` in the run `workerCycles` ran to its end (`return nil`). -/
def allCompleted {σ : Type} (env : Env σ) : List (Time × Time × World σ) → Task → Bool
  | [], _ => true
  | cycle :: rest, t =>
    decide ((Worker env cycle.1 cycle.2.1 cycle.2.2 t).returned = WorkerReturn.retNil) &&
      allCompleted env rest (Worker env cycle.1 cycle.2.1 cycle.2.2 t).task

/-- The answers of the lock service when `GetLock` is called for each of some locks, in
order, each call on the state that the call before it left; and the state after the last
call. -/
def getLockRun {σ : Type} (svc : LockService σ) : List ObjectId → σ → List Bool × σ
  | [], s => ([], s)
  | lockId :: rest, s =>
    ((svc.GetLock (Hex lockId) lockTimeout s).1 ::
        (getLockRun svc rest (svc.GetLock (Hex lockId) lockTimeout s).2).1,
      (getLockRun svc rest (svc.GetLock (Hex lockId) lockTimeout s).2).2)

/-- The answers of the lock service when `ReleaseLock` is called for each of some locks, in
order, each call on the state that the call before it left; and the state after the last
call. -/
def releaseLockRun {σ : Type} (svc : LockService σ) :
    List ObjectId → σ → List (Option String) × σ
  | [], s => ([], s)
  | lockId :: rest, s =>
    ((svc.ReleaseLock (Hex lockId) s).1 ::
        (releaseLockRun svc rest (svc.ReleaseLock (Hex lockId) s).2).1,
      (releaseLockRun svc rest (svc.ReleaseLock (Hex lockId) s).2).2)

/-- One entry for each lock whose release was answered with an error, in order: the
message that names the lock, and the error of the lock service. -/
def failedReleases : List ObjectId → List (Option String) → List (String × String)
  | lockId :: locks, some err :: answers =>
    ("Failed to release MongoDB lock " ++ Hex lockId ++ ".", err) ::
      failedReleases locks answers
  | _ :: locks, none :: answers => failedReleases locks answers
  | _, _ => []

/-- A lock service whose state is the list of the locks that are held: a lock in `busy`
cannot be obtained, and `ReleaseLock` fails for a lock in `stuck`, which stays held. -/
def listLocks (busy stuck : List String) : LockService (List String) :=
  { GetLock := fun name _ held => if name ∈ busy then (false, held) else (true, name :: held),
    ReleaseLock := fun name held =>
      if name ∈ stuck then (some "cannot release", held)
      else (none, held.filter fun n => n ≠ name) }

/-- The environment `sampleEnv` over the lock service `listLocks`. -/
def sampleEnvLocks (busy stuck : List String) (maxAttempts : Int)
    (handler : Option TaskHandlerF) (fatalHandler : Option TaskFatalHandlerF) :
    Env (List String) :=
  { maxAttempts := maxAttempts,
    taskHandlerMap := fun ty => if ty = "noop" then handler else none,
    taskFatalHandlerMap := fun ty => if ty = "noop" then fatalHandler else none,
    lock := listLocks busy stuck }

/-- The reader of the concrete scenarios: `tableReader` over the given records, with a body
decoder for the type `noop` only. -/
def sampleReader (table : List Task) : Reader := tableReader table ["noop"]

/-- A task as `sampleTask`, of the type `mystery`, which has no body decoder in
`sampleReader`: its record does not decode. -/
def mysteryTask (id : ObjectId) (status : TaskStatus) (depends : List ObjectId) : Task :=
  { sampleTask id status depends with TaskType := "mystery" }

end Maelstrom

/-! # Theorems -/

namespace Maelstrom

/-! ## Machine arithmetic -/

theorem wrapInt64_lt (x : Int) : wrapInt64 x < 9223372036854775808 := by
  unfold wrapInt64; omega

theorem wrapInt64_of_range (x : Int) (h1 : -9223372036854775808 ≤ x)
    (h2 : x < 9223372036854775808) : wrapInt64 x = x := by
  unfold wrapInt64; omega

/-! ## The backoff schedule -/

theorem backoffDelay_exact : ∀ k : Nat, k < 27 →
    wrapInt64 (Minute * shiftLeftOne (wrapUint64 (wrapUint64 (k : Int) + 1))) =
      2 ^ (k + 1) * Minute := by
  decide

theorem NextRunTime_exact_upto_26 (lastRun : Time) (k : Nat) (hk : k ≤ 26) :
    NextRunTime lastRun k = lastRun.Add (2 ^ (k + 1) * Minute) := by
  unfold NextRunTime
  rw [backoffDelay_exact k (by omega)]

/-- C1, as the code has it: `NextRunTime lastRun k` is `lastRun` plus `2^(k+1)` minutes
exactly for the attempt counts `k ≤ 26` (so for every `k` from 1 to 26); from `k = 27` on
the 64-bit product has wrapped and the equality fails. -/
theorem NextRunTime_backoff_law (lastRun : Time) (k : Nat) :
    NextRunTime lastRun k = lastRun.Add (2 ^ (k + 1) * Minute) ↔ k ≤ 26 := by
  constructor
  · intro h
    by_contra hk
    have hlt := wrapInt64_lt (Minute * shiftLeftOne (wrapUint64 (wrapUint64 (k : Int) + 1)))
    have h2 : (2 : Int) ^ 28 ≤ 2 ^ (k + 1) := pow_le_pow_right₀ (by norm_num) (by omega)
    simp only [NextRunTime, Time.Add, Time.mk.injEq, add_right_inj] at h
    rw [h] at hlt
    unfold Minute at hlt
    norm_num at h2
    omega
  · exact NextRunTime_exact_upto_26 lastRun k

/-- C1 fails as stated: after attempt 27 the next run is not `2^28` minutes after the
last one (it is before it). -/
theorem NextRunTime_backoff_law_fails_at_27 :
    (27 : Int) ≥ 1 ∧
      NextRunTime ⟨0⟩ 27 ≠ (⟨0⟩ : Time).Add (2 ^ (27 + 1) * Minute) ∧
      (NextRunTime ⟨0⟩ 27).ns < 0 := by
  decide

/-! ## Reading the collection -/

theorem SetBSON_error_target (codec : Codec) (t t' : Task) (raw : Raw) :
    (t.SetBSON codec raw).1 = (t'.SetBSON codec raw).1 := by
  unfold Task.SetBSON
  cases codec.Unmarshal raw with
  | error e => rfl
  | ok tt =>
    dsimp only
    cases codec.taskBodyUnmarshalMap tt.TaskType with
    | none => rfl
    | some f =>
      dsimp only
      cases (f tt.Body).2 <;> rfl

theorem SetBSON_task_target (codec : Codec) (t t' : Task) (raw : Raw)
    (h : (t.SetBSON codec raw).1 = none) :
    (t.SetBSON codec raw).2 = (t'.SetBSON codec raw).2 := by
  unfold Task.SetBSON at h ⊢
  cases hu : codec.Unmarshal raw with
  | error e => rw [hu] at h; cases h
  | ok tt =>
    rw [hu] at h
    dsimp only at h ⊢
    cases hm : codec.taskBodyUnmarshalMap tt.TaskType with
    | none => rw [hm] at h; cases h
    | some f =>
      rw [hm] at h
      dsimp only at h ⊢
      cases hb : (f tt.Body).2 with
      | none => rfl
      | some e => rw [hb] at h; cases h

theorem Iter_Next_eq (rd : Reader) (task : Task) (ds : List Task) :
    Iter.Next rd task ds = (ds.takeWhile rd.decodes).map rd.decoded := by
  induction ds generalizing task with
  | nil => rfl
  | cons d ds ih =>
    unfold Iter.Next
    dsimp only
    cases h : (task.SetBSON rd.codec (rd.document d)).1 with
    | some e =>
      have hd : rd.decodes d = false := by
        unfold Reader.decodes
        rw [SetBSON_error_target rd.codec Task.zero task, h]
        rfl
      simp [List.takeWhile_cons, hd]
    | none =>
      have hd : rd.decodes d = true := by
        unfold Reader.decodes
        rw [SetBSON_error_target rd.codec Task.zero task, h]
        rfl
      have hv : (task.SetBSON rd.codec (rd.document d)).2 = rd.decoded d :=
        SetBSON_task_target rd.codec task Task.zero _ h
      simp only [List.takeWhile_cons, hd, if_true, List.map_cons, ih, hv]

theorem decoded_eq (rd : Reader) (hfaith : rd.faithful) (d : Task)
    (h : rd.decodes d = true) : ∃ body, rd.decoded d = { d with Body := body } := by
  unfold Reader.decodes at h
  unfold Reader.decoded
  unfold Task.SetBSON at h ⊢
  cases hu : rd.codec.Unmarshal (rd.document d) with
  | error e => rw [hu] at h; cases h
  | ok tt =>
    have hf := hfaith d tt hu
    rw [hu] at h
    dsimp only at h ⊢
    cases hm : rd.codec.taskBodyUnmarshalMap tt.TaskType with
    | none => rw [hm] at h; cases h
    | some f =>
      rw [hm] at h
      dsimp only at h ⊢
      cases hb : (f tt.Body).2 with
      | some e => rw [hb] at h; cases h
      | none =>
        refine ⟨(f tt.Body).1, ?_⟩
        dsimp only
        rw [congrArg taskBsonUnmarshalT.Id hf, congrArg taskBsonUnmarshalT.Client hf,
          congrArg taskBsonUnmarshalT.RequestId hf, congrArg taskBsonUnmarshalT.Depends hf,
          congrArg taskBsonUnmarshalT.Locks hf, congrArg taskBsonUnmarshalT.TaskType hf,
          congrArg taskBsonUnmarshalT.CreatedAt hf, congrArg taskBsonUnmarshalT.Status hf,
          congrArg taskBsonUnmarshalT.Attempts hf, congrArg taskBsonUnmarshalT.LastRunAt hf,
          congrArg taskBsonUnmarshalT.NextRunAt hf, congrArg taskBsonUnmarshalT.Log hf]
        rfl

theorem decoded_Id (rd : Reader) (hfaith : rd.faithful) (d : Task)
    (h : rd.decodes d = true) : (rd.decoded d).Id = d.Id := by
  obtain ⟨body, hb⟩ := decoded_eq rd hfaith d h
  rw [hb]

theorem decoded_Status (rd : Reader) (hfaith : rd.faithful) (d : Task)
    (h : rd.decodes d = true) : (rd.decoded d).Status = d.Status := by
  obtain ⟨body, hb⟩ := decoded_eq rd hfaith d h
  rw [hb]

theorem mem_Iter_Next (rd : Reader) (task : Task) (ds : List Task) (t : Task)
    (h : t ∈ Iter.Next rd task ds) : ∃ d ∈ ds, rd.decodes d = true ∧ rd.decoded d = t := by
  rw [Iter_Next_eq, List.mem_map] at h
  obtain ⟨d, hd, hdt⟩ := h
  exact ⟨d, (List.takeWhile_sublist _).subset hd, List.mem_takeWhile_imp hd, hdt⟩

theorem Iter_Next_of_all (rd : Reader) (task : Task) (ds : List Task)
    (h : ∀ d ∈ ds, rd.decodes d = true) : Iter.Next rd task ds = ds.map rd.decoded := by
  rw [Iter_Next_eq, List.takeWhile_eq_self_iff.2 h]

theorem Iter_Next_map_Id (rd : Reader) (hfaith : rd.faithful) (task : Task) (ds : List Task) :
    (Iter.Next rd task ds).map Task.Id = (ds.takeWhile rd.decodes).map Task.Id := by
  rw [Iter_Next_eq, List.map_map]
  apply List.map_congr_left
  intro d hd
  exact decoded_Id rd hfaith d (List.mem_takeWhile_imp hd)

theorem tableReader_faithful (table : List Task) (types : List String) :
    (tableReader table types).faithful := by
  intro d tt h
  simp only [tableReader, List.headI_cons] at h
  split at h
  · next x hx =>
    have hlt : List.indexOf d table < table.length := by
      rw [List.get?_eq_some] at hx
      exact hx.1
    have hxd : x = d := by
      rw [List.get?_eq_some] at hx
      obtain ⟨hl, hg⟩ := hx
      rw [← hg]
      exact List.indexOf_get hl
    cases h
    rw [hxd]
    rfl
  · cases h

/-! ## The dependency resolver -/

theorem classify_fold_fatal (ds : List Task) (lists : TaskList × TaskList) :
    0 < (ds.foldl CheckTaskDepends.classify lists).2.Count ↔
      0 < lists.2.Count ∨
        ∃ d ∈ ds, d.Status = TASK_STATUS_FAILED ∨ d.Status = TASK_STATUS_CANCELLED := by
  induction ds generalizing lists with
  | nil => simp
  | cons d ds ih =>
    rw [List.foldl_cons, ih]
    unfold CheckTaskDepends.classify
    simp only [TASK_STATUS_PENDING, TASK_STATUS_PAUSED, TASK_STATUS_RUNNING,
      TASK_STATUS_FAILED, TASK_STATUS_CANCELLED, TaskList.Count, TaskList.AddCopy,
      List.mem_cons, exists_eq_or_imp]
    split_ifs with h1 h2
    · have : ¬ (d.Status = -1 ∨ d.Status = -2) := by
        rcases h1 with h | h | h <;> rw [h] <;> decide
      simp [this]
    · simp [h2]
    · simp [h2]

theorem classify_fold_waiting (ds : List Task) (lists : TaskList × TaskList) :
    0 < (ds.foldl CheckTaskDepends.classify lists).1.Count ↔
      0 < lists.1.Count ∨
        ∃ d ∈ ds, d.Status = TASK_STATUS_PENDING ∨ d.Status = TASK_STATUS_PAUSED ∨
          d.Status = TASK_STATUS_RUNNING := by
  induction ds generalizing lists with
  | nil => simp
  | cons d ds ih =>
    rw [List.foldl_cons, ih]
    unfold CheckTaskDepends.classify
    simp only [TASK_STATUS_PENDING, TASK_STATUS_PAUSED, TASK_STATUS_RUNNING,
      TASK_STATUS_FAILED, TASK_STATUS_CANCELLED, TaskList.Count, TaskList.AddCopy,
      List.mem_cons, exists_eq_or_imp]
    split_ifs with h1 h2
    · simp [h1]
    · simp [h1]
    · simp [h1]

theorem mem_FindIdIn (c : Collection) (ids : List ObjectId) (d : Task) :
    d ∈ c.FindIdIn ids ↔ d ∈ c ∧ d.Id ∈ ids := by
  simp [Collection.FindIdIn]

theorem CheckTaskDepends_of_empty (rd : Reader) (c : Collection) (t : Task)
    (h : t.Depends = []) : CheckTaskDepends rd c t = (TASK_DEPENDS_NONE, []) := by
  simp [CheckTaskDepends, h]

theorem fatal_count_iff (rd : Reader) (c : Collection) (t : Task) :
    0 < ((Iter.Next rd Task.zero (c.FindIdIn t.Depends)).foldl CheckTaskDepends.classify
      (TaskList.zero, TaskList.zero)).2.Count ↔ hasFatalDepend rd c t := by
  rw [classify_fold_fatal, Iter_Next_eq]
  unfold hasFatalDepend readDepends
  simp [TaskList.zero, TaskList.Count]

theorem waiting_count_iff (rd : Reader) (c : Collection) (t : Task) :
    0 < ((Iter.Next rd Task.zero (c.FindIdIn t.Depends)).foldl CheckTaskDepends.classify
      (TaskList.zero, TaskList.zero)).1.Count ↔ hasWaitingDepend rd c t := by
  rw [classify_fold_waiting, Iter_Next_eq]
  unfold hasWaitingDepend readDepends
  simp [TaskList.zero, TaskList.Count]

theorem CheckTaskDepends_fatal (rd : Reader) (c : Collection) (t : Task) (h : t.Depends ≠ [])
    (hf : hasFatalDepend rd c t) : (CheckTaskDepends rd c t).1 = TASK_DEPENDS_FAILED := by
  have hcount := (fatal_count_iff rd c t).2 hf
  simp [CheckTaskDepends, h, hcount]

theorem CheckTaskDepends_waiting (rd : Reader) (c : Collection) (t : Task)
    (h : t.Depends ≠ []) (hf : ¬ hasFatalDepend rd c t) (hw : hasWaitingDepend rd c t) :
    (CheckTaskDepends rd c t).1 = TASK_DEPENDS_WAIT := by
  have hfatal := (not_congr (fatal_count_iff rd c t)).2 hf
  have hcount := (waiting_count_iff rd c t).2 hw
  simp [CheckTaskDepends, h, hfatal, hcount]

theorem CheckTaskDepends_clear (rd : Reader) (c : Collection) (t : Task) (h : t.Depends ≠ [])
    (hf : ¬ hasFatalDepend rd c t) (hw : ¬ hasWaitingDepend rd c t) :
    (CheckTaskDepends rd c t).1 = TASK_DEPENDS_CLEAR := by
  have hfatal := (not_congr (fatal_count_iff rd c t)).2 hf
  have hwait := (not_congr (waiting_count_iff rd c t)).2 hw
  simp [CheckTaskDepends, h, hfatal, hwait]

theorem CheckTaskDepends_calls (rd : Reader) (c : Collection) (t : Task) :
    ∀ e ∈ (CheckTaskDepends rd c t).2, e = Event.findIdIn t.Depends := by
  unfold CheckTaskDepends
  split_ifs <;> simp

theorem readDepends_of_all (rd : Reader) (c : Collection) (t : Task)
    (hall : ∀ d ∈ c.FindIdIn t.Depends, rd.decodes d = true) :
    readDepends rd c t = (c.FindIdIn t.Depends).map rd.decoded := by
  unfold readDepends
  rw [List.takeWhile_eq_self_iff.2 hall]

theorem hasFatalDepend_of_all (rd : Reader) (hfaith : rd.faithful) (c : Collection) (t : Task)
    (hall : ∀ d ∈ c.FindIdIn t.Depends, rd.decodes d = true) :
    hasFatalDepend rd c t ↔ hasFatalRecord c t := by
  unfold hasFatalDepend hasFatalRecord
  rw [readDepends_of_all rd c t hall]
  constructor
  · rintro ⟨x, hx, hs⟩
    obtain ⟨d, hd, hdx⟩ := List.mem_map.1 hx
    rw [← hdx, decoded_Status rd hfaith d (hall d hd)] at hs
    exact ⟨d, ((mem_FindIdIn c t.Depends d).1 hd).1, ((mem_FindIdIn c t.Depends d).1 hd).2, hs⟩
  · rintro ⟨d, hd, hid, hs⟩
    have hmem := (mem_FindIdIn c t.Depends d).2 ⟨hd, hid⟩
    refine ⟨rd.decoded d, List.mem_map_of_mem _ hmem, ?_⟩
    rw [decoded_Status rd hfaith d (hall d hmem)]
    exact hs

theorem hasWaitingDepend_of_all (rd : Reader) (hfaith : rd.faithful) (c : Collection)
    (t : Task) (hall : ∀ d ∈ c.FindIdIn t.Depends, rd.decodes d = true) :
    hasWaitingDepend rd c t ↔ hasWaitingRecord c t := by
  unfold hasWaitingDepend hasWaitingRecord
  rw [readDepends_of_all rd c t hall]
  constructor
  · rintro ⟨x, hx, hs⟩
    obtain ⟨d, hd, hdx⟩ := List.mem_map.1 hx
    rw [← hdx, decoded_Status rd hfaith d (hall d hd)] at hs
    exact ⟨d, ((mem_FindIdIn c t.Depends d).1 hd).1, ((mem_FindIdIn c t.Depends d).1 hd).2, hs⟩
  · rintro ⟨d, hd, hid, hs⟩
    have hmem := (mem_FindIdIn c t.Depends d).2 ⟨hd, hid⟩
    refine ⟨rd.decoded d, List.mem_map_of_mem _ hmem, ?_⟩
    rw [decoded_Status rd hfaith d (hall d hmem)]
    exact hs

/-- C2, as the code has it: for a task with a non-empty `Depends`, some id of which has no
record in the store, and no dependency read by the resolver `FAILED` or `CANCELLED`, the
resolver returns `WAIT` exactly when some dependency that it reads is `PENDING`, `PAUSED`
or `RUNNING`, and `CLEAR` otherwise. The dependencies that it reads are the stored records
with an id in `Depends`, up to the first one that does not decode: the missing record
plays no part, and neither does a record that is not read. -/
theorem CheckTaskDepends_missing_record (rd : Reader) (c : Collection) (t : Task)
    (hne : t.Depends ≠ []) (_hmissing : ∃ id ∈ t.Depends, c.FindId id = none)
    (hnofatal : ¬ hasFatalDepend rd c t) :
    ((CheckTaskDepends rd c t).1 = TASK_DEPENDS_WAIT ↔ hasWaitingDepend rd c t) ∧
      ((CheckTaskDepends rd c t).1 = TASK_DEPENDS_CLEAR ↔ ¬ hasWaitingDepend rd c t) := by
  by_cases hw : hasWaitingDepend rd c t
  · have := CheckTaskDepends_waiting rd c t hne hnofatal hw
    simp [this, hw, TASK_DEPENDS_WAIT, TASK_DEPENDS_CLEAR]
  · have := CheckTaskDepends_clear rd c t hne hnofatal hw
    simp [this, hw, TASK_DEPENDS_WAIT, TASK_DEPENDS_CLEAR]

/-- C2 at a concrete store: the dependency `[1]` is `RUNNING` and decodes, the dependency
`[2]` has no record, and the resolver answers `WAIT`. -/
theorem CheckTaskDepends_missing_record_witness :
    (∃ id ∈ (sampleTask [3] TASK_STATUS_PENDING [[1], [2]]).Depends,
        Collection.FindId [sampleTask [1] TASK_STATUS_RUNNING []] id = none) ∧
      (CheckTaskDepends (sampleReader [sampleTask [1] TASK_STATUS_RUNNING []])
        [sampleTask [1] TASK_STATUS_RUNNING []]
        (sampleTask [3] TASK_STATUS_PENDING [[1], [2]])).1 = TASK_DEPENDS_WAIT :=
  have hmissing : ∃ id ∈ (sampleTask [3] TASK_STATUS_PENDING [[1], [2]]).Depends,
      Collection.FindId [sampleTask [1] TASK_STATUS_RUNNING []] id = none := by decide
  ⟨hmissing,
    ((CheckTaskDepends_missing_record (sampleReader [sampleTask [1] TASK_STATUS_RUNNING []])
      [sampleTask [1] TASK_STATUS_RUNNING []]
      (sampleTask [3] TASK_STATUS_PENDING [[1], [2]]) (by decide) hmissing
      (by unfold hasFatalDepend readDepends; decide)).1).2
      (by unfold hasWaitingDepend readDepends; decide)⟩

/-- C2 fails as stated. A task whose dependency `[2]` has no record in the store, and whose
only found dependency is `COMPLETE`, is classified `CLEAR`, not `WAIT`. And so is a task
whose dependency `[2]` has no record and whose only found dependency is `PENDING` but of a
type without a body decoder, so that its record is not read. -/
theorem CheckTaskDepends_missing_record_not_wait :
    ((sampleTask [3] TASK_STATUS_PENDING [[1], [2]]).Depends ≠ [] ∧
      Collection.FindId [sampleTask [1] TASK_STATUS_COMPLETE []] [2] = none ∧
      (∀ d ∈ Collection.FindIdIn [sampleTask [1] TASK_STATUS_COMPLETE []] [[1], [2]],
        d.Status ≠ TASK_STATUS_FAILED ∧ d.Status ≠ TASK_STATUS_CANCELLED) ∧
      (CheckTaskDepends (sampleReader [sampleTask [1] TASK_STATUS_COMPLETE []])
        [sampleTask [1] TASK_STATUS_COMPLETE []]
        (sampleTask [3] TASK_STATUS_PENDING [[1], [2]])).1 = TASK_DEPENDS_CLEAR ∧
      (CheckTaskDepends (sampleReader [sampleTask [1] TASK_STATUS_COMPLETE []])
        [sampleTask [1] TASK_STATUS_COMPLETE []]
        (sampleTask [3] TASK_STATUS_PENDING [[1], [2]])).1 ≠ TASK_DEPENDS_WAIT) ∧
    (Collection.FindId [mysteryTask [1] TASK_STATUS_PENDING []] [2] = none ∧
      (∀ d ∈ Collection.FindIdIn [mysteryTask [1] TASK_STATUS_PENDING []] [[1], [2]],
        d.Status ≠ TASK_STATUS_FAILED ∧ d.Status ≠ TASK_STATUS_CANCELLED) ∧
      (CheckTaskDepends (sampleReader [mysteryTask [1] TASK_STATUS_PENDING []])
        [mysteryTask [1] TASK_STATUS_PENDING []]
        (sampleTask [3] TASK_STATUS_PENDING [[1], [2]])).1 = TASK_DEPENDS_CLEAR ∧
      (CheckTaskDepends (sampleReader [mysteryTask [1] TASK_STATUS_PENDING []])
        [mysteryTask [1] TASK_STATUS_PENDING []]
        (sampleTask [3] TASK_STATUS_PENDING [[1], [2]])).1 ≠ TASK_DEPENDS_WAIT) := by
  decide

/-- C3, as the code has it: the resolver returns `NONE` exactly for an empty `Depends`;
otherwise, over the dependencies that it reads (the stored records whose ids are in
`Depends`, decoded, up to the first one that does not decode), it returns `FAILED` if one
is `FAILED` or `CANCELLED`, else `WAIT` if one is `PENDING`, `PAUSED` or `RUNNING`, else
`CLEAR`; the only call it makes on the collection is the query by ids, a read; and when
the documents hold the fields of their records and every stored record with an id in
`Depends` decodes, the dependencies that it reads have the statuses of these stored
records. -/
theorem CheckTaskDepends_classification (rd : Reader) (c : Collection) (t : Task) :
    ((CheckTaskDepends rd c t).1 = TASK_DEPENDS_NONE ↔ t.Depends = []) ∧
      (t.Depends ≠ [] →
        (hasFatalDepend rd c t → (CheckTaskDepends rd c t).1 = TASK_DEPENDS_FAILED) ∧
        (¬ hasFatalDepend rd c t → hasWaitingDepend rd c t →
          (CheckTaskDepends rd c t).1 = TASK_DEPENDS_WAIT) ∧
        (¬ hasFatalDepend rd c t → ¬ hasWaitingDepend rd c t →
          (CheckTaskDepends rd c t).1 = TASK_DEPENDS_CLEAR)) ∧
      (∀ e ∈ (CheckTaskDepends rd c t).2, e = Event.findIdIn t.Depends) ∧
      (rd.faithful → (∀ d ∈ c.FindIdIn t.Depends, rd.decodes d = true) →
        (hasFatalDepend rd c t ↔ hasFatalRecord c t) ∧
        (hasWaitingDepend rd c t ↔ hasWaitingRecord c t)) := by
  refine ⟨?_, fun hne => ⟨CheckTaskDepends_fatal rd c t hne,
    CheckTaskDepends_waiting rd c t hne, CheckTaskDepends_clear rd c t hne⟩,
    CheckTaskDepends_calls rd c t,
    fun hfaith hall => ⟨hasFatalDepend_of_all rd hfaith c t hall,
      hasWaitingDepend_of_all rd hfaith c t hall⟩⟩
  constructor
  · intro h
    by_contra hne
    by_cases hf : hasFatalDepend rd c t
    · rw [CheckTaskDepends_fatal rd c t hne hf] at h; exact absurd h (by decide)
    · by_cases hw : hasWaitingDepend rd c t
      · rw [CheckTaskDepends_waiting rd c t hne hf hw] at h; exact absurd h (by decide)
      · rw [CheckTaskDepends_clear rd c t hne hf hw] at h; exact absurd h (by decide)
  · intro h
    rw [CheckTaskDepends_of_empty rd c t h]

/-- C3 at a concrete store: the dependency `[1]` is `RUNNING`, the record of the dependency
`[2]` does not decode, and the dependency `[3]`, stored after it, is `FAILED`. The resolver
reads `[1]` only and answers `WAIT`. -/
theorem CheckTaskDepends_classification_witness :
    (sampleTask [4] TASK_STATUS_PENDING [[1], [2], [3]]).Depends ≠ [] ∧
      readDepends
        (sampleReader [sampleTask [1] TASK_STATUS_RUNNING [],
          mysteryTask [2] TASK_STATUS_COMPLETE [], sampleTask [3] TASK_STATUS_FAILED []])
        [sampleTask [1] TASK_STATUS_RUNNING [], mysteryTask [2] TASK_STATUS_COMPLETE [],
          sampleTask [3] TASK_STATUS_FAILED []]
        (sampleTask [4] TASK_STATUS_PENDING [[1], [2], [3]]) =
        [sampleTask [1] TASK_STATUS_RUNNING []] ∧
      (CheckTaskDepends
        (sampleReader [sampleTask [1] TASK_STATUS_RUNNING [],
          mysteryTask [2] TASK_STATUS_COMPLETE [], sampleTask [3] TASK_STATUS_FAILED []])
        [sampleTask [1] TASK_STATUS_RUNNING [], mysteryTask [2] TASK_STATUS_COMPLETE [],
          sampleTask [3] TASK_STATUS_FAILED []]
        (sampleTask [4] TASK_STATUS_PENDING [[1], [2], [3]])).1 = TASK_DEPENDS_WAIT :=
  ⟨by decide, by decide,
    ((CheckTaskDepends_classification
      (sampleReader [sampleTask [1] TASK_STATUS_RUNNING [],
        mysteryTask [2] TASK_STATUS_COMPLETE [], sampleTask [3] TASK_STATUS_FAILED []])
      [sampleTask [1] TASK_STATUS_RUNNING [], mysteryTask [2] TASK_STATUS_COMPLETE [],
        sampleTask [3] TASK_STATUS_FAILED []]
      (sampleTask [4] TASK_STATUS_PENDING [[1], [2], [3]])).2.1 (by decide)).2.1
      (by unfold hasFatalDepend readDepends; decide)
      (by unfold hasWaitingDepend readDepends; decide)⟩

/-- C3 fails as stated: the only dependency of the task is stored with `Status = FAILED`,
but its type has no body decoder, so that its record does not decode; the loop of the
resolver ends before it and the resolver answers `CLEAR`, not `FAILED`. -/
theorem CheckTaskDepends_undecodable_failed_is_clear :
    (sampleTask [2] TASK_STATUS_PENDING [[1]]).Depends ≠ [] ∧
      (∃ d ∈ [mysteryTask [1] TASK_STATUS_FAILED []],
        d.Id ∈ (sampleTask [2] TASK_STATUS_PENDING [[1]]).Depends ∧
          d.Status = TASK_STATUS_FAILED) ∧
      (sampleReader [mysteryTask [1] TASK_STATUS_FAILED []]).decodes
        (mysteryTask [1] TASK_STATUS_FAILED []) = false ∧
      (CheckTaskDepends (sampleReader [mysteryTask [1] TASK_STATUS_FAILED []])
        [mysteryTask [1] TASK_STATUS_FAILED []]
        (sampleTask [2] TASK_STATUS_PENDING [[1]])).1 = TASK_DEPENDS_CLEAR ∧
      (CheckTaskDepends (sampleReader [mysteryTask [1] TASK_STATUS_FAILED []])
        [mysteryTask [1] TASK_STATUS_FAILED []]
        (sampleTask [2] TASK_STATUS_PENDING [[1]])).1 ≠ TASK_DEPENDS_FAILED := by
  decide

/-! ## The scheduler tick -/

theorem UpdateId_map_Id (c : Collection) (id : ObjectId) (doc : Task) (h : doc.Id = id) :
    (Collection.UpdateId c id doc).map Task.Id = c.map Task.Id := by
  induction c with
  | nil => rfl
  | cons d ds ih =>
    unfold Collection.UpdateId
    split_ifs with hd
    · simp [h, hd]
    · simp [ih]

theorem FindId_UpdateId_ne (c : Collection) (id id' : ObjectId) (doc : Task)
    (h : doc.Id = id) (hne : id' ≠ id) :
    Collection.FindId (Collection.UpdateId c id doc) id' = Collection.FindId c id' := by
  induction c with
  | nil => rfl
  | cons d ds ih =>
    unfold Collection.UpdateId
    split_ifs with hd
    · have h1 : ¬ doc.Id = id' := fun e => hne (by rw [← e, h])
      have h2 : ¬ d.Id = id' := fun e => hne (by rw [← e, hd])
      simp [Collection.FindId, List.find?_cons, h1, h2]
    · unfold Collection.FindId at ih ⊢
      simp only [List.find?_cons]
      rw [ih]

theorem FindId_UpdateId_self (c : Collection) (id : ObjectId) (doc : Task) (h : doc.Id = id)
    (hmem : id ∈ c.map Task.Id) :
    Collection.FindId (Collection.UpdateId c id doc) id = some doc := by
  induction c with
  | nil => simp at hmem
  | cons d ds ih =>
    unfold Collection.UpdateId
    split_ifs with hd
    · simp [Collection.FindId, List.find?_cons, h]
    · have hmem' : id ∈ ds.map Task.Id := by
        simp only [List.map_cons, List.mem_cons] at hmem
        rcases hmem with e | e
        · exact absurd e.symm hd
        · exact e
      have := ih hmem'
      unfold Collection.FindId at this ⊢
      simp only [List.find?_cons, hd, decide_False]
      exact this

theorem FindId_of_mem (c : Collection) (t : Task) (hnd : (c.map Task.Id).Nodup) (ht : t ∈ c) :
    Collection.FindId c t.Id = some t := by
  induction c with
  | nil => simp at ht
  | cons d ds ih =>
    simp only [List.map_cons, List.nodup_cons] at hnd
    simp only [List.mem_cons] at ht
    unfold Collection.FindId
    rcases ht with e | e
    · subst e
      simp [List.find?_cons]
    · have hne : ¬ d.Id = t.Id := fun h => hnd.1 (by rw [h]; exact List.mem_map_of_mem _ e)
      simp only [List.find?_cons, hne, decide_False]
      exact ih hnd.2 e

theorem mem_of_FindId (c : Collection) (id : ObjectId) (d : Task)
    (h : Collection.FindId c id = some d) : d ∈ c ∧ d.Id = id := by
  unfold Collection.FindId at h
  exact ⟨List.mem_of_find?_eq_some h, by simpa using List.find?_some h⟩

theorem FindIdIn_of_FindId (c : Collection) (id : ObjectId) (a : Task)
    (hnd : (c.map Task.Id).Nodup) (h : Collection.FindId c id = some a) :
    c.FindIdIn [id] = [a] := by
  induction c with
  | nil => cases h
  | cons d ds ih =>
    simp only [List.map_cons, List.nodup_cons] at hnd
    unfold Collection.FindId at h
    unfold Collection.FindIdIn
    by_cases hd : d.Id = id
    · simp only [List.find?_cons, hd, decide_True] at h
      have hda : d = a := Option.some.inj h
      have hrest : ds.filter (fun x => decide (x.Id ∈ [id])) = [] := by
        rw [List.filter_eq_nil_iff]
        intro x hx hxid
        simp only [List.mem_singleton, decide_eq_true_eq] at hxid
        exact hnd.1 (by rw [hd, ← hxid]; exact List.mem_map_of_mem _ hx)
      rw [List.filter_cons_of_pos (by simp [hd]), hrest, hda]
    · simp only [List.find?_cons, hd, decide_False] at h
      rw [List.filter_cons_of_neg (by simp [hd])]
      exact ih hnd.2 h

theorem CheckTaskDepends_range (rd : Reader) (c : Collection) (t : Task) :
    (CheckTaskDepends rd c t).1 = TASK_DEPENDS_NONE ∨
      (CheckTaskDepends rd c t).1 = TASK_DEPENDS_CLEAR ∨
      (CheckTaskDepends rd c t).1 = TASK_DEPENDS_FAILED ∨
      (CheckTaskDepends rd c t).1 = TASK_DEPENDS_WAIT := by
  unfold CheckTaskDepends
  dsimp only
  split_ifs <;> simp

theorem visit_tasks_map_Id (rd : Reader) (st : TickState) (t : Task) :
    (RunTasks.visit rd st t).tasks.map Task.Id = st.tasks.map Task.Id := by
  unfold RunTasks.visit
  dsimp only
  split_ifs
  · rfl
  · exact UpdateId_map_Id _ _ _ rfl
  · rfl

theorem visit_FindId_ne (rd : Reader) (st : TickState) (t : Task) (id : ObjectId)
    (hne : id ≠ t.Id) :
    Collection.FindId (RunTasks.visit rd st t).tasks id = Collection.FindId st.tasks id := by
  unfold RunTasks.visit
  dsimp only
  split_ifs
  · rfl
  · exact FindId_UpdateId_ne _ _ _ _ rfl hne
  · rfl

theorem visit_calls (rd : Reader) (st : TickState) (t : Task) :
    ∃ new, (RunTasks.visit rd st t).calls = st.calls ++ new ∧
      ∀ x, Event.sendWork x ∈ new → x = t ∧
        ((CheckTaskDepends rd st.tasks t).1 = TASK_DEPENDS_NONE ∨
          (CheckTaskDepends rd st.tasks t).1 = TASK_DEPENDS_CLEAR) := by
  have hc := CheckTaskDepends_calls rd st.tasks t
  unfold RunTasks.visit
  dsimp only
  split_ifs with h1 h2
  · refine ⟨(CheckTaskDepends rd st.tasks t).2 ++ [Event.sendWork t], by simp, ?_⟩
    intro x hx
    simp only [List.mem_append, List.mem_singleton, Event.sendWork.injEq] at hx
    rcases hx with hx | hx
    · exact absurd (hc _ hx) (by simp)
    · exact ⟨hx, h1⟩
  · refine ⟨(CheckTaskDepends rd st.tasks t).2 ++
      [Event.updateId t.Id { t with Status := TASK_STATUS_FAILED }], by simp, ?_⟩
    intro x hx
    simp only [List.mem_append, List.mem_singleton] at hx
    rcases hx with hx | hx
    · exact absurd (hc _ hx) (by simp)
    · exact absurd hx (by simp)
  · refine ⟨(CheckTaskDepends rd st.tasks t).2, by simp, ?_⟩
    intro x hx
    exact absurd (hc _ hx) (by simp)

theorem foldl_visit_tasks_map_Id (rd : Reader) (ts : List Task) (st : TickState) :
    (ts.foldl (RunTasks.visit rd) st).tasks.map Task.Id = st.tasks.map Task.Id := by
  induction ts generalizing st with
  | nil => rfl
  | cons t ts ih => rw [List.foldl_cons, ih, visit_tasks_map_Id]

theorem foldl_visit_FindId (rd : Reader) (ts : List Task) (st : TickState) (id : ObjectId)
    (hid : id ∉ ts.map Task.Id) :
    Collection.FindId (ts.foldl (RunTasks.visit rd) st).tasks id =
      Collection.FindId st.tasks id := by
  induction ts generalizing st with
  | nil => rfl
  | cons t ts ih =>
    simp only [List.map_cons, List.mem_cons, not_or] at hid
    rw [List.foldl_cons, ih _ hid.2, visit_FindId_ne _ _ _ _ hid.1]

theorem foldl_visit_calls (rd : Reader) (ts : List Task) (st : TickState) :
    ∃ new, (ts.foldl (RunTasks.visit rd) st).calls = st.calls ++ new ∧
      ∀ x, Event.sendWork x ∈ new → x ∈ ts := by
  induction ts generalizing st with
  | nil => exact ⟨[], by simp, by simp⟩
  | cons t ts ih =>
    obtain ⟨new1, h1, h1'⟩ := visit_calls rd st t
    obtain ⟨new2, h2, h2'⟩ := ih (RunTasks.visit rd st t)
    refine ⟨new1 ++ new2, by rw [List.foldl_cons, h2, h1, List.append_assoc], ?_⟩
    intro x hx
    rcases List.mem_append.1 hx with hx | hx
    · rw [(h1' x hx).1]; exact List.mem_cons_self _ _
    · exact List.mem_cons_of_mem _ (h2' x hx)

theorem mem_FindRunnable (c : Collection) (maxAttempts : Int) (now : Time) (t : Task) :
    t ∈ c.FindRunnable maxAttempts now ↔ t ∈ c ∧ isRunnable maxAttempts now t = true := by
  unfold Collection.FindRunnable
  rw [(List.perm_insertionSort _ _).mem_iff, List.mem_filter]

theorem FindRunnable_nodup (c : Collection) (maxAttempts : Int) (now : Time)
    (hid : (c.map Task.Id).Nodup) : ((c.FindRunnable maxAttempts now).map Task.Id).Nodup := by
  unfold Collection.FindRunnable
  rw [((List.perm_insertionSort _ _).map Task.Id).nodup_iff]
  exact hid.sublist ((List.filter_sublist _).map Task.Id)

theorem visited_nodup (rd : Reader) (hfaith : rd.faithful) (c : Collection)
    (maxAttempts : Int) (now : Time) (hid : (c.map Task.Id).Nodup) :
    ((Iter.Next rd Task.zero (c.FindRunnable maxAttempts now)).map Task.Id).Nodup := by
  rw [Iter_Next_map_Id rd hfaith]
  exact (FindRunnable_nodup c maxAttempts now hid).sublist
    ((List.takeWhile_sublist _).map Task.Id)

theorem visited_record (rd : Reader) (hfaith : rd.faithful) (c : Collection)
    (maxAttempts : Int) (now : Time) (t : Task)
    (h : t ∈ Iter.Next rd Task.zero (c.FindRunnable maxAttempts now)) :
    ∃ d ∈ c, isRunnable maxAttempts now d = true ∧ rd.decodes d = true ∧
      rd.decoded d = t ∧ d.Id = t.Id := by
  obtain ⟨d, hd, hdec, hdt⟩ := mem_Iter_Next rd _ _ t h
  have hr := (mem_FindRunnable c maxAttempts now d).1 hd
  exact ⟨d, hr.1, hr.2, hdec, hdt, by rw [← hdt, decoded_Id rd hfaith d hdec]⟩

/-- C4, as the code has it: in a tick over a store with distinct ids whose documents hold
the fields of their records, for every task `t` that the loop visits (the loop visits the
runnable records, decoded, up to the first one that does not decode; `pre` are the tasks
visited before `t`, so the resolver sees the store as the visits of `pre` left it): `t` is
dispatched, as its value, iff the resolver answers `NONE` or `CLEAR`; on `FAILED` the
stored record of `t` becomes `t` with `Status = FAILED` and no task with the id of `t` is
dispatched; on `WAIT` the visit leaves the store as it was, the stored record of `t` is
still the record that `t` was decoded from, and it is not dispatched. In particular, when
`t.Depends = [a.Id]` for a stored `a` with `Status = FAILED` that decodes, the tick stores
`t` as `FAILED` and does not dispatch it. -/
theorem RunTasks_decisions (rd : Reader) (maxAttempts : Int) (now : Time) (c : Collection)
    (hid : (c.map Task.Id).Nodup) (hfaith : rd.faithful) (pre post : List Task) (t : Task)
    (hvisited : visited rd maxAttempts now c = pre ++ t :: post) :
    (Event.sendWork t ∈ (RunTasks rd maxAttempts now c).calls ↔
      ((CheckTaskDepends rd (pre.foldl (RunTasks.visit rd) (RunTasks.start now c)).tasks t).1
          = TASK_DEPENDS_NONE ∨
        (CheckTaskDepends rd (pre.foldl (RunTasks.visit rd) (RunTasks.start now c)).tasks t).1
          = TASK_DEPENDS_CLEAR)) ∧
    ((CheckTaskDepends rd (pre.foldl (RunTasks.visit rd) (RunTasks.start now c)).tasks t).1
        = TASK_DEPENDS_FAILED →
      Collection.FindId (RunTasks rd maxAttempts now c).tasks t.Id
          = some { t with Status := TASK_STATUS_FAILED } ∧
        ∀ x, Event.sendWork x ∈ (RunTasks rd maxAttempts now c).calls → x.Id ≠ t.Id) ∧
    ((CheckTaskDepends rd (pre.foldl (RunTasks.visit rd) (RunTasks.start now c)).tasks t).1
        = TASK_DEPENDS_WAIT →
      (RunTasks.visit rd (pre.foldl (RunTasks.visit rd) (RunTasks.start now c)) t).tasks
          = (pre.foldl (RunTasks.visit rd) (RunTasks.start now c)).tasks ∧
        (∃ d, Collection.FindId c t.Id = some d ∧ rd.decoded d = t ∧
          Collection.FindId (RunTasks rd maxAttempts now c).tasks t.Id = some d) ∧
        ∀ x, Event.sendWork x ∈ (RunTasks rd maxAttempts now c).calls → x.Id ≠ t.Id) ∧
    (∀ a ∈ c, a.Status = TASK_STATUS_FAILED → rd.decodes a = true → t.Depends = [a.Id] →
      Collection.FindId (RunTasks rd maxAttempts now c).tasks t.Id
          = some { t with Status := TASK_STATUS_FAILED } ∧
        ∀ x, Event.sendWork x ∈ (RunTasks rd maxAttempts now c).calls → x.Id ≠ t.Id) := by
  have hvisit : Iter.Next rd Task.zero (c.FindRunnable maxAttempts now) =
      pre ++ t :: post := by
    rw [Iter_Next_eq]; exact hvisited
  have hnd := visited_nodup rd hfaith c maxAttempts now hid
  rw [hvisit] at hnd
  simp only [List.map_append, List.map_cons] at hnd
  have hpre : t.Id ∉ pre.map Task.Id := fun h =>
    (List.nodup_append.1 hnd).2.2 h (List.mem_cons_self _ _)
  have hpost : t.Id ∉ post.map Task.Id :=
    (List.nodup_cons.1 (List.nodup_append.1 hnd).2.1).1
  have hmem : ∀ x, x ∈ pre ++ t :: post →
      ∃ d ∈ c, isRunnable maxAttempts now d = true ∧ rd.decodes d = true ∧
        rd.decoded d = x ∧ d.Id = x.Id :=
    fun x hx => visited_record rd hfaith c maxAttempts now x (hvisit ▸ hx)
  obtain ⟨dt, hdtc, _, _, hdt, hdtId⟩ := hmem t (by simp)
  have htc : t.Id ∈ c.map Task.Id := hdtId ▸ List.mem_map_of_mem _ hdtc
  have hfinal : RunTasks rd maxAttempts now c =
      post.foldl (RunTasks.visit rd)
        (RunTasks.visit rd (pre.foldl (RunTasks.visit rd) (RunTasks.start now c)) t) := by
    unfold RunTasks
    rw [hvisit, List.foldl_append, List.foldl_cons]
  generalize hst : pre.foldl (RunTasks.visit rd) (RunTasks.start now c) = st at hfinal ⊢
  have hstId : st.tasks.map Task.Id = c.map Task.Id := by
    rw [← hst, foldl_visit_tasks_map_Id]; rfl
  have hstFind : ∀ id, id ∉ pre.map Task.Id →
      Collection.FindId st.tasks id = Collection.FindId c id := by
    intro id h; rw [← hst, foldl_visit_FindId _ _ _ _ h]; rfl
  have hfinFind : Collection.FindId (RunTasks rd maxAttempts now c).tasks t.Id =
      Collection.FindId (RunTasks.visit rd st t).tasks t.Id := by
    rw [hfinal, foldl_visit_FindId _ _ _ _ hpost]
  obtain ⟨new1, hc1, hs1⟩ := foldl_visit_calls rd pre (RunTasks.start now c)
  rw [hst] at hc1
  obtain ⟨new2, hc2, hs2⟩ := visit_calls rd st t
  obtain ⟨new3, hc3, hs3⟩ := foldl_visit_calls rd post (RunTasks.visit rd st t)
  rw [← hfinal, hc2, hc1] at hc3
  have hsend : ∀ x, Event.sendWork x ∈ (RunTasks rd maxAttempts now c).calls →
      (x ∈ pre ∨ x ∈ post) ∨ (x = t ∧
        ((CheckTaskDepends rd st.tasks t).1 = TASK_DEPENDS_NONE ∨
          (CheckTaskDepends rd st.tasks t).1 = TASK_DEPENDS_CLEAR)) := by
    intro x hx
    rw [hc3] at hx
    simp only [RunTasks.start, List.mem_append, List.mem_singleton] at hx
    rcases hx with ((hx | hx) | hx) | hx
    · exact absurd hx (by simp)
    · exact Or.inl (Or.inl (hs1 x hx))
    · exact Or.inr (hs2 x hx)
    · exact Or.inl (Or.inr (hs3 x hx))
  have hnosend : ¬ ((CheckTaskDepends rd st.tasks t).1 = TASK_DEPENDS_NONE ∨
      (CheckTaskDepends rd st.tasks t).1 = TASK_DEPENDS_CLEAR) →
      ∀ x, Event.sendWork x ∈ (RunTasks rd maxAttempts now c).calls → x.Id ≠ t.Id := by
    intro hno x hx hxid
    rcases hsend x hx with (h | h) | h
    · exact hpre (hxid ▸ List.mem_map_of_mem _ h)
    · exact hpost (hxid ▸ List.mem_map_of_mem _ h)
    · exact hno h.2
  have hfailed : (CheckTaskDepends rd st.tasks t).1 = TASK_DEPENDS_FAILED →
      Collection.FindId (RunTasks rd maxAttempts now c).tasks t.Id
          = some { t with Status := TASK_STATUS_FAILED } ∧
        ∀ x, Event.sendWork x ∈ (RunTasks rd maxAttempts now c).calls → x.Id ≠ t.Id := by
    intro hdep
    have hno : ¬ ((CheckTaskDepends rd st.tasks t).1 = TASK_DEPENDS_NONE ∨
        (CheckTaskDepends rd st.tasks t).1 = TASK_DEPENDS_CLEAR) := by
      rw [hdep]; decide
    refine ⟨?_, hnosend hno⟩
    rw [hfinFind]
    have hv : (RunTasks.visit rd st t).tasks =
        st.tasks.UpdateId t.Id { t with Status := TASK_STATUS_FAILED } := by
      unfold RunTasks.visit
      dsimp only
      rw [if_neg hno, if_pos hdep]
    rw [hv]
    exact FindId_UpdateId_self _ _ _ rfl (hstId ▸ htc)
  refine ⟨⟨?_, ?_⟩, hfailed, ?_, ?_⟩
  · intro hx
    rcases hsend t hx with (h | h) | h
    · exact absurd (List.mem_map_of_mem Task.Id h) hpre
    · exact absurd (List.mem_map_of_mem Task.Id h) hpost
    · exact h.2
  · intro hok
    rw [hfinal]
    obtain ⟨new, hnew, _⟩ := foldl_visit_calls rd post (RunTasks.visit rd st t)
    rw [hnew]
    apply List.mem_append_left
    unfold RunTasks.visit
    dsimp only
    rw [if_pos hok]
    simp
  · intro hdep
    have hno : ¬ ((CheckTaskDepends rd st.tasks t).1 = TASK_DEPENDS_NONE ∨
        (CheckTaskDepends rd st.tasks t).1 = TASK_DEPENDS_CLEAR) := by
      rw [hdep]; decide
    have hnf : ¬ (CheckTaskDepends rd st.tasks t).1 = TASK_DEPENDS_FAILED := by
      rw [hdep]; decide
    have hv : (RunTasks.visit rd st t).tasks = st.tasks := by
      unfold RunTasks.visit
      dsimp only
      rw [if_neg hno, if_neg hnf]
    have hrec : Collection.FindId c t.Id = some dt := by
      rw [← hdtId]; exact FindId_of_mem c dt hid hdtc
    refine ⟨hv, ⟨dt, hrec, hdt, ?_⟩, hnosend hno⟩
    rw [hfinFind, hv, hstFind _ hpre]
    exact hrec
  · intro a hac hafailed hadec hdeps
    apply hfailed
    have hapre : a.Id ∉ pre.map Task.Id := by
      intro h
      obtain ⟨x, hx, hxid⟩ := List.mem_map.1 h
      obtain ⟨d, hdc, hdr, _, _, hdId⟩ := hmem x (List.mem_append_left _ hx)
      have h1 := FindId_of_mem c d hid hdc
      have h2 := FindId_of_mem c a hid hac
      rw [hdId, hxid, h2] at h1
      have hxa : a = d := Option.some.inj h1
      rw [← hxa] at hdr
      simp [isRunnable, hafailed, TASK_STATUS_FAILED, TASK_STATUS_PENDING] at hdr
    have hfind : Collection.FindId st.tasks a.Id = some a := by
      rw [hstFind _ hapre]; exact FindId_of_mem c a hid hac
    have hne : t.Depends ≠ [] := by rw [hdeps]; simp
    have hread : readDepends rd st.tasks t = [rd.decoded a] := by
      unfold readDepends
      rw [hdeps, FindIdIn_of_FindId st.tasks a.Id a (hstId ▸ hid) hfind]
      simp [List.takeWhile_cons, hadec]
    exact CheckTaskDepends_fatal rd st.tasks t hne
      ⟨rd.decoded a, by rw [hread]; simp,
        Or.inl (by rw [decoded_Status rd hfaith a hadec]; exact hafailed)⟩

/-- C4 at the store of the dependency-failure scenario, where every record decodes: the
tick marks `B` as `FAILED` and dispatches no task with its id. -/
theorem RunTasks_decisions_witness :
    (failedDependStore.map Task.Id).Nodup ∧
      visited (sampleReader failedDependStore) 3 ⟨0⟩ failedDependStore =
        [] ++ sampleTask [2] TASK_STATUS_PENDING [[1]] :: [] ∧
      (sampleReader failedDependStore).decodes (sampleTask [1] TASK_STATUS_FAILED []) = true ∧
      Collection.FindId (RunTasks (sampleReader failedDependStore) 3 ⟨0⟩
          failedDependStore).tasks [2] =
        some (sampleTask [2] TASK_STATUS_FAILED [[1]]) ∧
      ∀ x, Event.sendWork x ∈
          (RunTasks (sampleReader failedDependStore) 3 ⟨0⟩ failedDependStore).calls →
        x.Id ≠ [2] :=
  ⟨by decide, by decide, by decide,
    (RunTasks_decisions (sampleReader failedDependStore) 3 ⟨0⟩ failedDependStore (by decide)
      (tableReader_faithful failedDependStore ["noop"]) [] []
      (sampleTask [2] TASK_STATUS_PENDING [[1]]) (by decide)).2.2.2
      (sampleTask [1] TASK_STATUS_FAILED []) (by decide) rfl (by decide) rfl⟩

/-- C4 fails as stated. In the first store `A` is `FAILED` but its type has no body
decoder, `B` is runnable and `B.Depends = [A.Id]`: the resolver does not read `A`, and the
tick dispatches `B` and leaves it `PENDING`. In the second store `A` is `FAILED` and
decodes, but a runnable record that does not decode sorts before `B`: the loop of the tick
ends there, and `B` is neither marked `FAILED` nor dispatched. -/
theorem RunTasks_undecodable_record_spoils_tick :
    ((RunTasks
        (sampleReader [mysteryTask [1] TASK_STATUS_FAILED [],
          sampleTask [2] TASK_STATUS_PENDING [[1]]]) 3 ⟨0⟩
        [mysteryTask [1] TASK_STATUS_FAILED [],
          sampleTask [2] TASK_STATUS_PENDING [[1]]]).calls =
        [Event.findRunnable ⟨0⟩, Event.findIdIn [[1]],
          Event.sendWork (sampleTask [2] TASK_STATUS_PENDING [[1]])] ∧
      Collection.FindId (RunTasks
        (sampleReader [mysteryTask [1] TASK_STATUS_FAILED [],
          sampleTask [2] TASK_STATUS_PENDING [[1]]]) 3 ⟨0⟩
        [mysteryTask [1] TASK_STATUS_FAILED [],
          sampleTask [2] TASK_STATUS_PENDING [[1]]]).tasks [2] =
        some (sampleTask [2] TASK_STATUS_PENDING [[1]])) ∧
    ((RunTasks
        (sampleReader [mysteryTask [0] TASK_STATUS_PENDING [],
          sampleTask [1] TASK_STATUS_FAILED [], sampleTask [2] TASK_STATUS_PENDING [[1]]])
        3 ⟨0⟩
        [mysteryTask [0] TASK_STATUS_PENDING [], sampleTask [1] TASK_STATUS_FAILED [],
          sampleTask [2] TASK_STATUS_PENDING [[1]]]).calls = [Event.findRunnable ⟨0⟩] ∧
      Collection.FindId (RunTasks
        (sampleReader [mysteryTask [0] TASK_STATUS_PENDING [],
          sampleTask [1] TASK_STATUS_FAILED [], sampleTask [2] TASK_STATUS_PENDING [[1]]])
        3 ⟨0⟩
        [mysteryTask [0] TASK_STATUS_PENDING [], sampleTask [1] TASK_STATUS_FAILED [],
          sampleTask [2] TASK_STATUS_PENDING [[1]]]).tasks [2] =
        some (sampleTask [2] TASK_STATUS_PENDING [[1]])) := by
  decide

/-- C5 at the dependency-failure scenario: the tick of `RunTasks` writes `B` with the
terminal status `FAILED` and with its `NextRunAt` still set. -/
theorem RunTasks_failed_keeps_NextRunAt :
    (RunTasks (sampleReader failedDependStore) 3 ⟨0⟩ failedDependStore).calls =
        [Event.findRunnable ⟨0⟩, Event.findIdIn [[1]],
          Event.updateId [2] (sampleTask [2] TASK_STATUS_FAILED [[1]])] ∧
      (sampleTask [2] TASK_STATUS_FAILED [[1]]).Status = TASK_STATUS_FAILED ∧
      (sampleTask [2] TASK_STATUS_FAILED [[1]]).NextRunAt = some ⟨0⟩ ∧
      Collection.FindId (RunTasks (sampleReader failedDependStore) 3 ⟨0⟩
          failedDependStore).tasks [2] =
        some (sampleTask [2] TASK_STATUS_FAILED [[1]]) := by
  decide

/-! ## The worker -/

theorem acquire_calls_lock {σ : Type} (svc : LockService σ) (locks : List ObjectId) (s : σ) :
    ∀ e ∈ (GetAllLocks.acquire svc locks s).2.2.2, e.isLockCall = true := by
  induction locks generalizing s with
  | nil => simp [GetAllLocks.acquire]
  | cons lockId rest ih =>
    unfold GetAllLocks.acquire
    dsimp only
    split_ifs with h
    · simp [Event.isLockCall]
    · intro e he
      simp only [List.mem_cons] at he
      rcases he with he | he
      · rw [he]; rfl
      · exact ih _ e he

theorem release_calls_lock {σ : Type} (svc : LockService σ) (obtained : List Bool)
    (locks : List ObjectId) (s : σ) :
    ∀ e ∈ (GetAllLocks.release svc obtained locks s).2, e.isLockCall = true := by
  induction obtained generalizing locks s with
  | nil => simp [GetAllLocks.release]
  | cons b obtained ih =>
    cases locks with
    | nil => cases b <;> simp [GetAllLocks.release]
    | cons lockId locks =>
      cases b
      · simpa [GetAllLocks.release] using ih locks s
      · intro e he
        simp only [GetAllLocks.release, List.mem_cons] at he
        rcases he with he | he
        · rw [he]; rfl
        · exact ih _ _ e he

theorem GetAllLocks_calls_lock {σ : Type} (svc : LockService σ) (t : Task) (s : σ) :
    ∀ e ∈ (t.GetAllLocks svc s).2.2, e.isLockCall = true := by
  unfold Task.GetAllLocks
  dsimp only
  split
  · intro e he
    rcases List.mem_append.1 he with he | he
    · exact acquire_calls_lock svc _ _ e he
    · exact release_calls_lock svc _ _ _ e he
  · exact acquire_calls_lock svc _ _

theorem ReleaseAllLocks_loop_calls_lock {σ : Type} (svc : LockService σ)
    (locks : List ObjectId) (s : σ) :
    ∀ e ∈ (ReleaseAllLocks.loop svc locks s).2.2, e.isLockCall = true := by
  induction locks generalizing s with
  | nil => simp [ReleaseAllLocks.loop]
  | cons lockId rest ih =>
    unfold ReleaseAllLocks.loop
    dsimp only
    split <;>
    · intro e he
      simp only [List.mem_cons] at he
      rcases he with he | he
      · rw [he]; rfl
      · exact ih _ e he

theorem ReleaseAllLocks_calls_lock {σ : Type} (svc : LockService σ) (t : Task) (s : σ) :
    ∀ e ∈ (t.ReleaseAllLocks svc s).2.2, e.isLockCall = true :=
  ReleaseAllLocks_loop_calls_lock svc t.Locks s

theorem persisted_of_lock_calls (calls : List Event) (h : ∀ e ∈ calls, e.isLockCall = true) :
    persisted calls = [] := by
  unfold persisted
  rw [List.filterMap_eq_nil_iff]
  intro e he
  have hl := h e he
  cases e <;> first | rfl | exact absurd hl Bool.false_ne_true

theorem fatalHandlerCalls_of_lock_calls (calls : List Event)
    (h : ∀ e ∈ calls, e.isLockCall = true) : fatalHandlerCalls calls = 0 := by
  unfold fatalHandlerCalls
  rw [List.length_eq_zero, List.filter_eq_nil_iff]
  intro e he
  have hl := h e he
  cases e <;> first | exact Bool.false_ne_true | exact absurd hl Bool.false_ne_true

theorem persisted_append (a b : List Event) : persisted (a ++ b) = persisted a ++ persisted b := by
  simp [persisted, List.filterMap_append]

theorem fatalHandlerCalls_append (a b : List Event) :
    fatalHandlerCalls (a ++ b) = fatalHandlerCalls a + fatalHandlerCalls b := by
  simp [fatalHandlerCalls, List.filter_append]

theorem handle_calls {σ : Type} (env : Env σ) (x : Task) :
    persisted (Worker.handle env x).2 = [] ∧ fatalHandlerCalls (Worker.handle env x).2 = 0 := by
  unfold Worker.handle
  split <;> simp [persisted, fatalHandlerCalls]

theorem settle_calls {σ : Type} (env : Env σ) (x : Task) (taskError : Option String)
    (fatal : Bool) (settled : Task × List Event)
    (h : Worker.settle env x taskError fatal = some settled) : persisted settled.2 = [] := by
  unfold Worker.settle at h
  split at h
  · cases h; rfl
  · split_ifs at h
    · dsimp only at h
      split at h <;> (cases h; rfl)
    · split at h
      · cases h
      · cases h; rfl

/-- The summary of a call of `Worker` that got its locks and whose outcome was settled. -/
theorem Worker_of_settled {σ : Type} (env : Env σ) (startedAt finishedAt : Time) (w : World σ)
    (t : Task) (hpending : t.Status = TASK_STATUS_PENDING)
    (hlocks : (t.GetAllLocks env.lock w.locks).1 = none) (settled : Task × List Event)
    (hsettle : Worker.settle env
      (Worker.record finishedAt (TaskHistoryRecord.zero.Start startedAt)
        (Worker.handle env (Worker.started startedAt t)).1)
      (Worker.handle env (Worker.started startedAt t)).1.workerError
      (Worker.handle env (Worker.started startedAt t)).1.fatal = some settled) :
    (Worker env startedAt finishedAt w t).task = settled.1 ∧
      (Worker env startedAt finishedAt w t).returned = WorkerReturn.retNil ∧
      persisted (Worker env startedAt finishedAt w t).calls = [settled.1] ∧
      fatalHandlerCalls (Worker env startedAt finishedAt w t).calls =
        fatalHandlerCalls settled.2 := by
  have hg := GetAllLocks_calls_lock env.lock t w.locks
  have hh := handle_calls env (Worker.started startedAt t)
  have hs := settle_calls env _ _ _ settled hsettle
  have hr := ReleaseAllLocks_calls_lock env.lock settled.1 (t.GetAllLocks env.lock w.locks).2.1
  unfold Worker
  rw [if_neg (not_not.2 hpending)]
  dsimp only
  simp only [hlocks]
  unfold Worker.started at hsettle hh
  simp only [MongoTask.SaveStatus, TaskHistoryRecord.Start] at hsettle ⊢
  rw [hsettle]
  simp only [MongoTask.Save, persisted_append, fatalHandlerCalls_append,
    persisted_of_lock_calls _ hg, persisted_of_lock_calls _ hr,
    fatalHandlerCalls_of_lock_calls _ hg, fatalHandlerCalls_of_lock_calls _ hr, hh.1, hh.2, hs]
  simp [persisted, fatalHandlerCalls]

theorem Worker_of_not_pending {σ : Type} (env : Env σ) (startedAt finishedAt : Time)
    (w : World σ) (t : Task) (h : t.Status ≠ TASK_STATUS_PENDING) :
    Worker env startedAt finishedAt w t = ⟨w, t, WorkerReturn.retFalse, []⟩ := by
  unfold Worker
  rw [if_pos h]

theorem Worker_of_locks_failed {σ : Type} (env : Env σ) (startedAt finishedAt : Time)
    (w : World σ) (t : Task) (hpending : t.Status = TASK_STATUS_PENDING) (err : String)
    (hlocks : (t.GetAllLocks env.lock w.locks).1 = some err) :
    (Worker env startedAt finishedAt w t).task = t ∧
      (Worker env startedAt finishedAt w t).returned = WorkerReturn.retFalse ∧
      (Worker env startedAt finishedAt w t).world.tasks = w.tasks ∧
      (Worker env startedAt finishedAt w t).calls = (t.GetAllLocks env.lock w.locks).2.2 := by
  unfold Worker
  rw [if_neg (not_not.2 hpending)]
  dsimp only
  simp only [hlocks]
  simp

/-- The summary of a call of `Worker` that got its locks and then dereferenced a nil
`LastRunAt`. -/
theorem Worker_of_nil_dereference {σ : Type} (env : Env σ) (startedAt finishedAt : Time)
    (w : World σ) (t : Task) (hpending : t.Status = TASK_STATUS_PENDING)
    (hlocks : (t.GetAllLocks env.lock w.locks).1 = none)
    (hsettle : Worker.settle env
      (Worker.record finishedAt (TaskHistoryRecord.zero.Start startedAt)
        (Worker.handle env (Worker.started startedAt t)).1)
      (Worker.handle env (Worker.started startedAt t)).1.workerError
      (Worker.handle env (Worker.started startedAt t)).1.fatal = none) :
    (Worker env startedAt finishedAt w t).task =
        Worker.record finishedAt (TaskHistoryRecord.zero.Start startedAt)
          (Worker.handle env (Worker.started startedAt t)).1 ∧
      (Worker env startedAt finishedAt w t).returned = WorkerReturn.nilDereference ∧
      persisted (Worker env startedAt finishedAt w t).calls = [] ∧
      fatalHandlerCalls (Worker env startedAt finishedAt w t).calls = 0 := by
  have hg := GetAllLocks_calls_lock env.lock t w.locks
  have hh := handle_calls env (Worker.started startedAt t)
  unfold Worker
  rw [if_neg (not_not.2 hpending)]
  dsimp only
  simp only [hlocks]
  unfold Worker.started at hsettle hh
  simp only [MongoTask.SaveStatus, TaskHistoryRecord.Start] at hsettle ⊢
  rw [hsettle]
  simp only [persisted_append, fatalHandlerCalls_append,
    persisted_of_lock_calls _ hg, fatalHandlerCalls_of_lock_calls _ hg, hh.1, hh.2]
  simp [persisted, fatalHandlerCalls, Worker.started, TaskHistoryRecord.Start]

theorem handle_history {σ : Type} (env : Env σ) (hframe : env.keepsHistory) (x : Task) :
    (Worker.handle env x).1.task.Attempts = x.Attempts ∧
      (Worker.handle env x).1.task.Log = x.Log := by
  unfold Worker.handle
  split
  · next f hf => exact hframe.1 _ f hf x
  · exact ⟨rfl, rfl⟩

theorem settle_history {σ : Type} (env : Env σ) (hframe : env.keepsHistory) (x : Task)
    (taskError : Option String) (fatal : Bool) (settled : Task × List Event)
    (h : Worker.settle env x taskError fatal = some settled) :
    settled.1.Attempts = x.Attempts ∧ settled.1.Log = x.Log := by
  unfold Worker.settle at h
  split at h
  · cases h; exact ⟨rfl, rfl⟩
  · split_ifs at h
    · dsimp only at h
      split at h
      · next g hg => cases h; exact hframe.2 _ g hg _ _
      · cases h; exact ⟨rfl, rfl⟩
    · split at h
      · cases h
      · cases h; exact ⟨rfl, rfl⟩

theorem record_history (finishedAt : Time) (logEntry : TaskHistoryRecord) (h : HandlerResult)
    (n : Nat) (ha : h.task.Attempts = n) (hl : h.task.Log.length = n)
    (hn : n < 9223372036854775807) :
    (Worker.record finishedAt logEntry h).Attempts = n + 1 ∧
      (Worker.record finishedAt logEntry h).Log.length = n + 1 := by
  unfold Worker.record
  simp only [List.length_append, List.length_singleton, hl, ha, and_true]
  exact wrapInt64_of_range _ (by omega) (by omega)

/-- The effect of one call of `Worker` on the history of a task, when the handlers keep
`Attempts` and `Log`. -/
theorem Worker_history {σ : Type} (env : Env σ) (hframe : env.keepsHistory)
    (startedAt finishedAt : Time) (w : World σ) (t : Task)
    (hinv : t.Attempts = t.Log.length) (hlen : t.Log.length < 9223372036854775807) :
    ((Worker env startedAt finishedAt w t).returned = WorkerReturn.retFalse ∧
        (Worker env startedAt finishedAt w t).task = t ∧
        persisted (Worker env startedAt finishedAt w t).calls = []) ∨
      ((Worker env startedAt finishedAt w t).returned ≠ WorkerReturn.retFalse ∧
        (Worker env startedAt finishedAt w t).task.Attempts = t.Attempts + 1 ∧
        (Worker env startedAt finishedAt w t).task.Log.length = t.Log.length + 1 ∧
        ∀ doc ∈ persisted (Worker env startedAt finishedAt w t).calls,
          doc = (Worker env startedAt finishedAt w t).task) := by
  by_cases hpending : t.Status = TASK_STATUS_PENDING
  swap
  · rw [Worker_of_not_pending env startedAt finishedAt w t hpending]
    exact Or.inl ⟨rfl, rfl, rfl⟩
  cases hlocks : (t.GetAllLocks env.lock w.locks).1 with
  | some err =>
    obtain ⟨h1, h2, _, h4⟩ := Worker_of_locks_failed env startedAt finishedAt w t hpending err hlocks
    exact Or.inl ⟨h2, h1, by
      rw [h4]; exact persisted_of_lock_calls _ (GetAllLocks_calls_lock env.lock t w.locks)⟩
  | none =>
    right
    have hh := handle_history env hframe (Worker.started startedAt t)
    have hrec := record_history finishedAt (TaskHistoryRecord.zero.Start startedAt)
      (Worker.handle env (Worker.started startedAt t)).1 t.Log.length
      (by rw [hh.1]; exact hinv) (by rw [hh.2]; rfl) hlen
    cases hsettle : Worker.settle env
      (Worker.record finishedAt (TaskHistoryRecord.zero.Start startedAt)
        (Worker.handle env (Worker.started startedAt t)).1)
      (Worker.handle env (Worker.started startedAt t)).1.workerError
      (Worker.handle env (Worker.started startedAt t)).1.fatal with
    | none =>
      obtain ⟨h1, h2, h3, _⟩ :=
        Worker_of_nil_dereference env startedAt finishedAt w t hpending hlocks hsettle
      rw [h1, h2, h3, hinv]
      exact ⟨by decide, hrec.1, hrec.2, by simp⟩
    | some settled =>
      obtain ⟨h1, h2, h3, _⟩ :=
        Worker_of_settled env startedAt finishedAt w t hpending hlocks settled hsettle
      have hs := settle_history env hframe _ _ _ settled hsettle
      rw [h1, h2, h3, hs.1, hs.2, hinv]
      exact ⟨by decide, hrec.1, hrec.2, by simp⟩

/-- C6: for a task whose status is not `PENDING`, `Worker` returns `false` at once: the
task (so its `Status`, `Attempts` and `Log`) is as it was, the collection and the lock
service are as they were, and no call was made: no write, no lock, no handler. -/
theorem Worker_not_pending {σ : Type} (env : Env σ) (startedAt finishedAt : Time)
    (w : World σ) (t : Task) (h : t.Status ≠ TASK_STATUS_PENDING) :
    (Worker env startedAt finishedAt w t).task = t ∧
      (Worker env startedAt finishedAt w t).world = w ∧
      (Worker env startedAt finishedAt w t).calls = [] ∧
      (Worker env startedAt finishedAt w t).returned = WorkerReturn.retFalse := by
  rw [Worker_of_not_pending env startedAt finishedAt w t h]
  exact ⟨rfl, rfl, rfl, rfl⟩

/-- C6 at a `COMPLETE` task with a lock and a registered handler. -/
theorem Worker_not_pending_witness :
    (Worker (sampleEnv 3 (some fun t => ⟨t, none, false⟩) none) ⟨1⟩ ⟨2⟩
        ⟨[sampleTask [1] TASK_STATUS_COMPLETE []], ()⟩
        { sampleTask [1] TASK_STATUS_COMPLETE [] with Locks := [[9]] }).calls = [] :=
  (Worker_not_pending (sampleEnv 3 (some fun t => ⟨t, none, false⟩) none) ⟨1⟩ ⟨2⟩
    ⟨[sampleTask [1] TASK_STATUS_COMPLETE []], ()⟩
    { sampleTask [1] TASK_STATUS_COMPLETE [] with Locks := [[9]] } (by decide)).2.2.1

theorem workerCycles_history {σ : Type} (env : Env σ) (hframe : env.keepsHistory)
    (cycles : List (Time × Time × World σ)) (t : Task)
    (hinv : t.Attempts = t.Log.length)
    (hlen : t.Log.length + cycles.length < 9223372036854775807) :
    (workerCycles env cycles t).Attempts = (workerCycles env cycles t).Log.length ∧
      t.Attempts ≤ (workerCycles env cycles t).Attempts := by
  induction cycles generalizing t with
  | nil => exact ⟨hinv, le_refl _⟩
  | cons cycle rest ih =>
    simp only [List.length_cons] at hlen
    unfold workerCycles
    rcases Worker_history env hframe cycle.1 cycle.2.1 cycle.2.2 t hinv (by omega) with
      ⟨_, h, _⟩ | ⟨_, ha, hl, _⟩
    · rw [h]
      exact ih t hinv (by omega)
    · have := ih (Worker env cycle.1 cycle.2.1 cycle.2.2 t).task
        (by rw [ha, hl, hinv]; push_cast; rfl) (by omega)
      exact ⟨this.1, by omega⟩

/-- C7, as the code has it: when the registered handlers hand the task back with
`Attempts` and `Log` as they got them, then for every task with `Attempts = len(Log)`
(a length below the largest `int`) the task that `Worker` holds when it ends, which is the
only task it upserts, has `Attempts = len(Log)` and at least the `Attempts` it had; a call
that runs to its end raises both by exactly one. Hence after any number of calls of
`Worker` on a freshly created task, `Attempts = len(Log)`. -/
theorem Worker_attempts_log_invariant {σ : Type} (env : Env σ) (hframe : env.keepsHistory) :
    (∀ (startedAt finishedAt : Time) (w : World σ) (t : Task),
      t.Attempts = t.Log.length → t.Log.length < 9223372036854775807 →
        (Worker env startedAt finishedAt w t).task.Attempts =
            (Worker env startedAt finishedAt w t).task.Log.length ∧
          t.Attempts ≤ (Worker env startedAt finishedAt w t).task.Attempts ∧
          (∀ doc ∈ persisted (Worker env startedAt finishedAt w t).calls,
            doc = (Worker env startedAt finishedAt w t).task) ∧
          ((Worker env startedAt finishedAt w t).returned = WorkerReturn.retNil →
            (Worker env startedAt finishedAt w t).task.Attempts = t.Attempts + 1 ∧
              (Worker env startedAt finishedAt w t).task.Log.length = t.Log.length + 1)) ∧
      (∀ (cycles : List (Time × Time × World σ)) (newId client : ObjectId) (now nowPtr : Time)
          (taskType body : String), cycles.length < 9223372036854775807 →
        (workerCycles env cycles (NewTask newId now nowPtr client taskType body)).Attempts =
          (workerCycles env cycles (NewTask newId now nowPtr client taskType body)).Log.length) := by
  constructor
  · intro startedAt finishedAt w t hinv hlen
    rcases Worker_history env hframe startedAt finishedAt w t hinv hlen with
      ⟨hr, h, hp⟩ | ⟨_, ha, hl, hp⟩
    · rw [h, hp, hr]
      exact ⟨hinv, le_refl _, by simp, by simp⟩
    · refine ⟨by rw [ha, hl, hinv]; push_cast; rfl, by omega, hp, fun _ => ⟨ha, hl⟩⟩
  · intro cycles newId client now nowPtr taskType body hlen
    exact (workerCycles_history env hframe cycles _ (by simp [NewTask])
      (by simpa [NewTask] using hlen)).1

theorem sampleEnv_keepsHistory (maxAttempts : Int) (f : TaskHandlerF) (g : TaskFatalHandlerF)
    (hf : ∀ t, (f t).task.Attempts = t.Attempts ∧ (f t).task.Log = t.Log)
    (hg : ∀ t e, (g t e).task.Attempts = t.Attempts ∧ (g t e).task.Log = t.Log) :
    (sampleEnv maxAttempts (some f) (some g)).keepsHistory := by
  constructor
  · intro ty f' h
    simp only [sampleEnv] at h
    split_ifs at h
    cases h
    exact hf
  · intro ty g' h
    simp only [sampleEnv] at h
    split_ifs at h
    cases h
    exact hg

/-- C7 at a fresh task whose handler fails transiently: after the call `Attempts` and the
length of `Log` are both 1. -/
theorem Worker_attempts_log_invariant_witness :
    (sampleEnv 3 (some fun t => ⟨t, some "boom", false⟩) (some fun t _ => ⟨t, none⟩)).keepsHistory ∧
      (Worker (sampleEnv 3 (some fun t => ⟨t, some "boom", false⟩) (some fun t _ => ⟨t, none⟩))
          ⟨1⟩ ⟨2⟩ ⟨[], ()⟩ (sampleTask [1] TASK_STATUS_PENDING [])).task.Attempts =
        (Worker (sampleEnv 3 (some fun t => ⟨t, some "boom", false⟩) (some fun t _ => ⟨t, none⟩))
          ⟨1⟩ ⟨2⟩ ⟨[], ()⟩ (sampleTask [1] TASK_STATUS_PENDING [])).task.Log.length :=
  ⟨sampleEnv_keepsHistory 3 _ _ (fun _ => ⟨rfl, rfl⟩) (fun _ _ => ⟨rfl, rfl⟩),
    ((Worker_attempts_log_invariant
      (sampleEnv 3 (some fun t => ⟨t, some "boom", false⟩) (some fun t _ => ⟨t, none⟩))
      (sampleEnv_keepsHistory 3 _ _ (fun _ => ⟨rfl, rfl⟩) (fun _ _ => ⟨rfl, rfl⟩))).1
      ⟨1⟩ ⟨2⟩ ⟨[], ()⟩ (sampleTask [1] TASK_STATUS_PENDING []) (by decide) (by decide)).1⟩

/-- C7 fails as stated: a handler that writes `Attempts = 5` into the task it is given and
returns no error leaves, from a fresh task with `Attempts = len(Log) = 0`, an upserted
task with `Attempts = 6` and one log entry. -/
theorem Worker_attempts_log_broken_by_handler :
    (sampleTask [1] TASK_STATUS_PENDING []).Attempts =
        (sampleTask [1] TASK_STATUS_PENDING []).Log.length ∧
      (persisted (Worker (sampleEnv 3 (some fun t => ⟨{ t with Attempts := 5 }, none, false⟩) none)
          ⟨1⟩ ⟨2⟩ ⟨[], ()⟩ (sampleTask [1] TASK_STATUS_PENDING [])).calls).map
        (fun doc => (doc.Attempts, doc.Log.length)) = [(6, 1)] := by
  decide

theorem handle_of_registered {σ : Type} (env : Env σ) (startedAt : Time) (t : Task)
    (taskHandler : TaskHandlerF) (hreg : env.taskHandlerMap t.TaskType = some taskHandler) :
    (Worker.handle env (Worker.started startedAt t)).1 =
      taskHandler (Worker.started startedAt t) := by
  unfold Worker.handle
  have : (Worker.started startedAt t).TaskType = t.TaskType := rfl
  rw [this, hreg]

theorem handle_of_unknown {σ : Type} (env : Env σ) (x : Task)
    (hreg : env.taskHandlerMap x.TaskType = none) :
    Worker.handle env x =
      (⟨x, some ("Failed to run task " ++ x.render ++ ": unknown task type."), true⟩, []) := by
  unfold Worker.handle
  rw [hreg]

theorem record_Log (finishedAt startedAt : Time) (h : HandlerResult) :
    (Worker.record finishedAt (TaskHistoryRecord.zero.Start startedAt) h).Log =
      h.task.Log ++ [⟨startedAt, finishedAt, h.workerError⟩] := by
  unfold Worker.record TaskHistoryRecord.Finish TaskHistoryRecord.Start TaskHistoryRecord.zero
  cases h.workerError <;> rfl

/-- C8, as the code has it: for a `PENDING` task whose locks are all acquired and whose
registered handler returns a nil error (whatever its fatal flag), `Worker` upserts exactly
one task, the one it holds when it returns; that task has `Status = COMPLETE`,
`NextRunAt = null` and a last log entry with the two clock readings and no error, and no
fatal handler is called. When the handler hands the task back with `Attempts` as it got
them and `Attempts` is an `int` below the largest, `Attempts` is the old `Attempts` plus
one; when it hands `LastRunAt` back as it got it, `LastRunAt` is the `StartedAt` of the
new entry; when it hands `Log` back as it got it, `Log` is the old `Log` followed by the
new entry. -/
theorem Worker_success {σ : Type} (env : Env σ) (startedAt finishedAt : Time) (w : World σ)
    (t : Task) (taskHandler : TaskHandlerF) (hpending : t.Status = TASK_STATUS_PENDING)
    (hlocks : (t.GetAllLocks env.lock w.locks).1 = none)
    (hreg : env.taskHandlerMap t.TaskType = some taskHandler)
    (hnil : (taskHandler (Worker.started startedAt t)).workerError = none) :
    ∃ doc, persisted (Worker env startedAt finishedAt w t).calls = [doc] ∧
      (Worker env startedAt finishedAt w t).task = doc ∧
      (Worker env startedAt finishedAt w t).returned = WorkerReturn.retNil ∧
      doc.Status = TASK_STATUS_COMPLETE ∧ doc.NextRunAt = none ∧
      fatalHandlerCalls (Worker env startedAt finishedAt w t).calls = 0 ∧
      doc.Log.getLast? = some ⟨startedAt, finishedAt, none⟩ ∧
      ((taskHandler (Worker.started startedAt t)).task.Attempts = t.Attempts →
        -9223372036854775808 ≤ t.Attempts → t.Attempts < 9223372036854775807 →
        doc.Attempts = t.Attempts + 1) ∧
      ((taskHandler (Worker.started startedAt t)).task.LastRunAt =
          (Worker.started startedAt t).LastRunAt →
        doc.LastRunAt = some startedAt) ∧
      ((taskHandler (Worker.started startedAt t)).task.Log = t.Log →
        doc.Log = t.Log ++ [⟨startedAt, finishedAt, none⟩]) := by
  have hh := handle_of_registered env startedAt t taskHandler hreg
  have hsettle : Worker.settle env
      (Worker.record finishedAt (TaskHistoryRecord.zero.Start startedAt)
        (Worker.handle env (Worker.started startedAt t)).1)
      (Worker.handle env (Worker.started startedAt t)).1.workerError
      (Worker.handle env (Worker.started startedAt t)).1.fatal =
      some ({ Worker.record finishedAt (TaskHistoryRecord.zero.Start startedAt)
                (taskHandler (Worker.started startedAt t)) with
              Status := TASK_STATUS_COMPLETE, NextRunAt := none }, []) := by
    rw [hh, hnil]; rfl
  obtain ⟨h1, h2, h3, h4⟩ :=
    Worker_of_settled env startedAt finishedAt w t hpending hlocks _ hsettle
  have hlog := record_Log finishedAt startedAt (taskHandler (Worker.started startedAt t))
  rw [hnil] at hlog
  refine ⟨_, h3, h1, h2, rfl, rfl, by rw [h4]; rfl, ?_, ?_, ?_, ?_⟩
  · show (Worker.record _ _ _).Log.getLast? = _
    rw [hlog, List.getLast?_append]
    rfl
  · intro ha hlo hhi
    show wrapInt64 (_ + 1) = _
    rw [ha]
    exact wrapInt64_of_range _ (by omega) (by omega)
  · intro hl
    show (taskHandler (Worker.started startedAt t)).task.LastRunAt = _
    rw [hl]; rfl
  · intro hl
    show (Worker.record _ _ _).Log = _
    rw [hlog, hl]

/-- C8 at a fresh task with one lock and a handler that succeeds. -/
theorem Worker_success_witness :
    ∃ doc, persisted (Worker (sampleEnv 3 (some fun t => ⟨t, none, false⟩) none) ⟨1⟩ ⟨2⟩
          ⟨[], ()⟩ { sampleTask [1] TASK_STATUS_PENDING [] with Locks := [[9]] }).calls = [doc] ∧
      doc.Status = TASK_STATUS_COMPLETE ∧ doc.NextRunAt = none ∧ doc.Attempts = 1 := by
  obtain ⟨doc, h1, _, _, h4, h5, _, _, h8, _, _⟩ :=
    Worker_success (sampleEnv 3 (some fun t => ⟨t, none, false⟩) none) ⟨1⟩ ⟨2⟩ ⟨[], ()⟩
      { sampleTask [1] TASK_STATUS_PENDING [] with Locks := [[9]] } (fun t => ⟨t, none, false⟩)
      (by decide) (by decide) rfl rfl
  exact ⟨doc, h1, h4, h5, h8 rfl (by decide) (by decide)⟩

/-- C8 fails as stated, twice over: with a handler that writes `Attempts = 5` into the
task and returns a nil error, the upserted task of a fresh task has `Attempts = 6`, not 1;
and from `Attempts = 2^63 - 1` the increment of the 64-bit `int` gives `-2^63`. -/
theorem Worker_success_attempts_not_old_plus_one :
    (persisted (Worker (sampleEnv 3 (some fun t => ⟨{ t with Attempts := 5 }, none, false⟩) none)
          ⟨1⟩ ⟨2⟩ ⟨[], ()⟩ (sampleTask [1] TASK_STATUS_PENDING [])).calls).map
        (fun doc => (doc.Status, doc.Attempts)) = [(TASK_STATUS_COMPLETE, 6)] ∧
      (sampleTask [1] TASK_STATUS_PENDING []).Attempts + 1 ≠ 6 ∧
      (persisted (Worker (sampleEnv 3 (some fun t => ⟨t, none, false⟩) none) ⟨1⟩ ⟨2⟩ ⟨[], ()⟩
          { sampleTask [1] TASK_STATUS_PENDING [] with Attempts := 9223372036854775807 }).calls).map
        (fun doc => (doc.Status, doc.Attempts)) =
          [(TASK_STATUS_COMPLETE, -9223372036854775808)] := by
  decide

theorem settle_of_permanent {σ : Type} (env : Env σ) (x : Task) (err : String) (fatal : Bool)
    (hperm : fatal = true ∨ env.maxAttempts ≤ x.Attempts) :
    Worker.settle env x (some err) fatal =
      match env.taskFatalHandlerMap x.TaskType with
      | some taskFatalHandler =>
        some ((taskFatalHandler
            { x with Status := TASK_STATUS_FAILED, NextRunAt := none } err).task,
          [Event.taskFatalHandler x.TaskType
            { x with Status := TASK_STATUS_FAILED, NextRunAt := none } err])
      | none => some ({ x with Status := TASK_STATUS_FAILED, NextRunAt := none }, []) := by
  unfold Worker.settle
  have : fatal = true ∨ x.Attempts ≥ env.maxAttempts := hperm
  simp only [this, if_true]

theorem settle_of_transient {σ : Type} (env : Env σ) (x : Task) (err : String) (fatal : Bool)
    (htrans : ¬ (fatal = true ∨ env.maxAttempts ≤ x.Attempts)) :
    Worker.settle env x (some err) fatal =
      match x.LastRunAt with
      | none => none
      | some lastRunAt =>
        some ({ x with Status := TASK_STATUS_PENDING,
                       NextRunAt := some (NextRunTime lastRunAt x.Attempts) }, []) := by
  unfold Worker.settle
  have : ¬ (fatal = true ∨ x.Attempts ≥ env.maxAttempts) := htrans
  simp only [this, if_false]

/-- C9, as the code has it: in a call of `Worker` on a `PENDING` task that got its locks,
with fatal handlers that hand the task back with `Status`, `NextRunAt` and `Log` as they
got them: a missing handler counts as an error with `fatal = true`; a task with
`Status = FAILED` is upserted iff the attempt produced an error and (`fatal` or the
incremented `Attempts >= maxAttempts`); in that case exactly one task is upserted, with
`Status = FAILED`, `NextRunAt = null` and a last log entry that records the error, and the
fatal handler registered for the type of the task (as the handler left it) is called
exactly once if there is one; in every other case no fatal handler is called. -/
theorem Worker_permanent_failure {σ : Type} (env : Env σ) (startedAt finishedAt : Time)
    (w : World σ) (t : Task) (hpending : t.Status = TASK_STATUS_PENDING)
    (hlocks : (t.GetAllLocks env.lock w.locks).1 = none)
    (hframe : ∀ ty g, env.taskFatalHandlerMap ty = some g → ∀ x e,
      (g x e).task.Status = x.Status ∧ (g x e).task.NextRunAt = x.NextRunAt ∧
        (g x e).task.Log = x.Log) :
    (env.taskHandlerMap t.TaskType = none →
      (Worker.handle env (Worker.started startedAt t)).1.workerError ≠ none ∧
        (Worker.handle env (Worker.started startedAt t)).1.fatal = true) ∧
    ((∃ doc ∈ persisted (Worker env startedAt finishedAt w t).calls,
        doc.Status = TASK_STATUS_FAILED) ↔
      ((Worker.handle env (Worker.started startedAt t)).1.workerError ≠ none ∧
        ((Worker.handle env (Worker.started startedAt t)).1.fatal = true ∨
          env.maxAttempts ≤
            wrapInt64 ((Worker.handle env (Worker.started startedAt t)).1.task.Attempts + 1)))) ∧
    (∀ err, (Worker.handle env (Worker.started startedAt t)).1.workerError = some err →
      ((Worker.handle env (Worker.started startedAt t)).1.fatal = true ∨
          env.maxAttempts ≤
            wrapInt64 ((Worker.handle env (Worker.started startedAt t)).1.task.Attempts + 1)) →
      ∃ doc, persisted (Worker env startedAt finishedAt w t).calls = [doc] ∧
        (Worker env startedAt finishedAt w t).task = doc ∧
        doc.Status = TASK_STATUS_FAILED ∧ doc.NextRunAt = none ∧
        doc.Log.getLast? = some ⟨startedAt, finishedAt, some err⟩ ∧
        fatalHandlerCalls (Worker env startedAt finishedAt w t).calls =
          if (env.taskFatalHandlerMap
              (Worker.handle env (Worker.started startedAt t)).1.task.TaskType).isSome
          then 1 else 0) ∧
    (¬ ((Worker.handle env (Worker.started startedAt t)).1.workerError ≠ none ∧
        ((Worker.handle env (Worker.started startedAt t)).1.fatal = true ∨
          env.maxAttempts ≤
            wrapInt64 ((Worker.handle env (Worker.started startedAt t)).1.task.Attempts + 1))) →
      fatalHandlerCalls (Worker env startedAt finishedAt w t).calls = 0) := by
  generalize hH : (Worker.handle env (Worker.started startedAt t)).1 = H
  have hlog := record_Log finishedAt startedAt H
  have hatt : (Worker.record finishedAt (TaskHistoryRecord.zero.Start startedAt) H).Attempts =
      wrapInt64 (H.task.Attempts + 1) := rfl
  have htype : (Worker.record finishedAt (TaskHistoryRecord.zero.Start startedAt) H).TaskType =
      H.task.TaskType := rfl
  -- the permanent outcome
  have hperm : ∀ err, H.workerError = some err →
      (H.fatal = true ∨ env.maxAttempts ≤ wrapInt64 (H.task.Attempts + 1)) →
      ∃ doc, persisted (Worker env startedAt finishedAt w t).calls = [doc] ∧
        (Worker env startedAt finishedAt w t).task = doc ∧
        doc.Status = TASK_STATUS_FAILED ∧ doc.NextRunAt = none ∧
        doc.Log.getLast? = some ⟨startedAt, finishedAt, some err⟩ ∧
        fatalHandlerCalls (Worker env startedAt finishedAt w t).calls =
          if (env.taskFatalHandlerMap H.task.TaskType).isSome then 1 else 0 := by
    intro err herr hp
    have hs := settle_of_permanent env
      (Worker.record finishedAt (TaskHistoryRecord.zero.Start startedAt) H) err H.fatal
      (by rw [hatt]; exact hp)
    rw [herr] at hlog
    have hlast : (Worker.record finishedAt (TaskHistoryRecord.zero.Start startedAt)
        H).Log.getLast? = some ⟨startedAt, finishedAt, some err⟩ := by
      rw [hlog, List.getLast?_append]
      rfl
    cases hg : env.taskFatalHandlerMap
        (Worker.record finishedAt (TaskHistoryRecord.zero.Start startedAt) H).TaskType with
    | some g =>
      rw [hg] at hs
      have hg2 : env.taskFatalHandlerMap H.task.TaskType = some g := hg
      obtain ⟨h1, _, h3, h4⟩ := Worker_of_settled env startedAt finishedAt w t hpending hlocks _
        (by rw [hH, herr]; exact hs)
      obtain ⟨f1, f2, f3⟩ := hframe _ g hg
        { Worker.record finishedAt (TaskHistoryRecord.zero.Start startedAt) H with
          Status := TASK_STATUS_FAILED, NextRunAt := none } err
      exact ⟨_, h3, h1, f1, f2, (congrArg List.getLast? f3).trans hlast,
        by rw [h4, hg2]; rfl⟩
    | none =>
      rw [hg] at hs
      have hg2 : env.taskFatalHandlerMap H.task.TaskType = none := hg
      obtain ⟨h1, _, h3, h4⟩ := Worker_of_settled env startedAt finishedAt w t hpending hlocks _
        (by rw [hH, herr]; exact hs)
      exact ⟨_, h3, h1, rfl, rfl, hlast, by rw [h4, hg2]; rfl⟩
  -- the other outcomes
  have hother : ¬ (H.workerError ≠ none ∧
      (H.fatal = true ∨ env.maxAttempts ≤ wrapInt64 (H.task.Attempts + 1))) →
      fatalHandlerCalls (Worker env startedAt finishedAt w t).calls = 0 ∧
        ∀ doc ∈ persisted (Worker env startedAt finishedAt w t).calls,
          doc.Status ≠ TASK_STATUS_FAILED := by
    intro hno
    cases herr : H.workerError with
    | none =>
      obtain ⟨_, _, h3, h4⟩ := Worker_of_settled env startedAt finishedAt w t hpending hlocks
        ({ Worker.record finishedAt (TaskHistoryRecord.zero.Start startedAt) H with
            Status := TASK_STATUS_COMPLETE, NextRunAt := none }, [])
        (by rw [hH, herr]; rfl)
      rw [h3, h4]
      exact ⟨rfl, by simp [TASK_STATUS_COMPLETE, TASK_STATUS_FAILED]⟩
    | some err =>
      have htrans : ¬ (H.fatal = true ∨ env.maxAttempts ≤
          (Worker.record finishedAt (TaskHistoryRecord.zero.Start startedAt) H).Attempts) := by
        rw [hatt]
        intro hp
        exact hno ⟨by rw [herr]; simp, hp⟩
      have hs := settle_of_transient env _ err H.fatal htrans
      cases hlast : (Worker.record finishedAt (TaskHistoryRecord.zero.Start startedAt)
          H).LastRunAt with
      | none =>
        rw [hlast] at hs
        obtain ⟨_, _, h3, h4⟩ := Worker_of_nil_dereference env startedAt finishedAt w t
          hpending hlocks (by rw [hH, herr]; exact hs)
        rw [h3, h4]
        exact ⟨rfl, by simp⟩
      | some lastRunAt =>
        rw [hlast] at hs
        obtain ⟨_, _, h3, h4⟩ := Worker_of_settled env startedAt finishedAt w t hpending
          hlocks _ (by rw [hH, herr]; exact hs)
        rw [h3, h4]
        exact ⟨rfl, by simp [TASK_STATUS_PENDING, TASK_STATUS_FAILED]⟩
  refine ⟨?_, ⟨?_, ?_⟩, hperm, fun hno => (hother hno).1⟩
  · intro hnone
    have hu := handle_of_unknown env (Worker.started startedAt t) hnone
    rw [hu] at hH
    rw [← hH]
    exact ⟨by simp, rfl⟩
  · rintro ⟨doc, hdoc, hst⟩
    by_contra hno
    exact (hother hno).2 doc hdoc hst
  · rintro ⟨herr, hp⟩
    obtain ⟨err, herr'⟩ := Option.ne_none_iff_exists'.1 herr
    obtain ⟨doc, h1, _, h3, _⟩ := hperm err herr' hp
    exact ⟨doc, by rw [h1]; simp, h3⟩

theorem sampleEnv_fatalHandler (maxAttempts : Int) (f : Option TaskHandlerF)
    (g g' : TaskFatalHandlerF) (ty : String)
    (h : (sampleEnv maxAttempts f (some g)).taskFatalHandlerMap ty = some g') : g' = g := by
  simp only [sampleEnv] at h
  split_ifs at h
  cases h
  rfl

/-- C9 at a fresh task whose handler fails with `fatal = true` and whose type has a fatal
handler: one task is upserted, `FAILED` with `NextRunAt = null`, and the fatal handler is
called once. -/
theorem Worker_permanent_failure_witness :
    ∃ doc,
      persisted (Worker (sampleEnv 3 (some fun t => ⟨t, some "boom", true⟩)
        (some fun t _ => ⟨t, some "post mortem"⟩)) ⟨1⟩ ⟨2⟩ ⟨[], ()⟩
        (sampleTask [1] TASK_STATUS_PENDING [])).calls = [doc] ∧
      doc.Status = TASK_STATUS_FAILED ∧ doc.NextRunAt = none ∧
      fatalHandlerCalls (Worker (sampleEnv 3 (some fun t => ⟨t, some "boom", true⟩)
        (some fun t _ => ⟨t, some "post mortem"⟩)) ⟨1⟩ ⟨2⟩ ⟨[], ()⟩
        (sampleTask [1] TASK_STATUS_PENDING [])).calls = 1 := by
  obtain ⟨doc, h1, _, h3, h4, _, h6⟩ :=
    (Worker_permanent_failure (sampleEnv 3 (some fun t => ⟨t, some "boom", true⟩)
      (some fun t _ => ⟨t, some "post mortem"⟩)) ⟨1⟩ ⟨2⟩ ⟨[], ()⟩
      (sampleTask [1] TASK_STATUS_PENDING []) (by decide) (by decide)
      (fun ty g hg x e => by
        rw [sampleEnv_fatalHandler _ _ _ g ty hg]
        exact ⟨rfl, rfl, rfl⟩)).2.2.1 "boom" rfl (Or.inl rfl)
  exact ⟨doc, h1, h3, h4, h6⟩

/-- C9 fails as stated: the handler returns an error with `fatal = true`, and the fatal
handler writes `Status = PENDING` into the task it is given; the task that is upserted is
`PENDING`, not `FAILED`. -/
theorem Worker_permanent_failure_status_rewritten :
    (Worker.handle (sampleEnv 3 (some fun t => ⟨t, some "boom", true⟩)
        (some fun t _ => ⟨{ t with Status := TASK_STATUS_PENDING }, none⟩))
        (Worker.started ⟨1⟩ (sampleTask [1] TASK_STATUS_PENDING []))).1.workerError
        = some "boom" ∧
      (Worker.handle (sampleEnv 3 (some fun t => ⟨t, some "boom", true⟩)
        (some fun t _ => ⟨{ t with Status := TASK_STATUS_PENDING }, none⟩))
        (Worker.started ⟨1⟩ (sampleTask [1] TASK_STATUS_PENDING []))).1.fatal = true ∧
      (persisted (Worker (sampleEnv 3 (some fun t => ⟨t, some "boom", true⟩)
        (some fun t _ => ⟨{ t with Status := TASK_STATUS_PENDING }, none⟩)) ⟨1⟩ ⟨2⟩ ⟨[], ()⟩
        (sampleTask [1] TASK_STATUS_PENDING [])).calls).map Task.Status
        = [TASK_STATUS_PENDING] := by
  decide

/-- C10, as the code has it: in a call of `Worker` on a `PENDING` task that got its locks,
whose handler returns a non-nil error with `fatal = false` and hands the task back with
`LastRunAt` as it got it (the start of this attempt), and with the incremented
`Attempts < maxAttempts`: the one task that is upserted has `Status = PENDING`,
`LastRunAt` the `StartedAt` of the attempt and `NextRunAt = NextRunTime(LastRunAt,
Attempts)` for its incremented `Attempts`. When the task came with `Attempts = 0` and the
handler hands `Attempts` back as it got them, this is `Attempts = 1` and `NextRunAt`
four minutes after the start. -/
theorem Worker_transient_failure {σ : Type} (env : Env σ) (startedAt finishedAt : Time)
    (w : World σ) (t : Task) (taskHandler : TaskHandlerF) (err : String)
    (hpending : t.Status = TASK_STATUS_PENDING)
    (hlocks : (t.GetAllLocks env.lock w.locks).1 = none)
    (hreg : env.taskHandlerMap t.TaskType = some taskHandler)
    (herr : (taskHandler (Worker.started startedAt t)).workerError = some err)
    (hfatal : (taskHandler (Worker.started startedAt t)).fatal = false)
    (hless : wrapInt64 ((taskHandler (Worker.started startedAt t)).task.Attempts + 1) <
      env.maxAttempts)
    (hlast : (taskHandler (Worker.started startedAt t)).task.LastRunAt =
      (Worker.started startedAt t).LastRunAt) :
    ∃ doc, persisted (Worker env startedAt finishedAt w t).calls = [doc] ∧
      (Worker env startedAt finishedAt w t).task = doc ∧
      doc.Status = TASK_STATUS_PENDING ∧
      doc.LastRunAt = some startedAt ∧
      doc.Log.getLast? = some ⟨startedAt, finishedAt, some err⟩ ∧
      doc.Attempts = wrapInt64 ((taskHandler (Worker.started startedAt t)).task.Attempts + 1) ∧
      doc.NextRunAt = some (NextRunTime startedAt doc.Attempts) ∧
      fatalHandlerCalls (Worker env startedAt finishedAt w t).calls = 0 ∧
      (t.Attempts = 0 →
        (taskHandler (Worker.started startedAt t)).task.Attempts = t.Attempts →
        doc.Attempts = 1 ∧ doc.NextRunAt = some (startedAt.Add (4 * Minute))) := by
  have hh := handle_of_registered env startedAt t taskHandler hreg
  have hlog := record_Log finishedAt startedAt (taskHandler (Worker.started startedAt t))
  rw [herr] at hlog
  have hlast' : (Worker.record finishedAt (TaskHistoryRecord.zero.Start startedAt)
      (taskHandler (Worker.started startedAt t))).LastRunAt = some startedAt := hlast
  have htrans : ¬ ((taskHandler (Worker.started startedAt t)).fatal = true ∨ env.maxAttempts ≤
      (Worker.record finishedAt (TaskHistoryRecord.zero.Start startedAt)
        (taskHandler (Worker.started startedAt t))).Attempts) := by
    rw [hfatal]
    rintro (h | h)
    · exact absurd h (by decide)
    · exact absurd hless (not_lt.2 h)
  have hs := settle_of_transient env _ err _ htrans
  rw [hlast'] at hs
  obtain ⟨h1, _, h3, h4⟩ := Worker_of_settled env startedAt finishedAt w t hpending hlocks _
    (by rw [hh, herr]; exact hs)
  refine ⟨_, h3, h1, rfl, rfl, ?_, rfl, rfl, by rw [h4]; rfl, ?_⟩
  · show (Worker.record _ _ _).Log.getLast? = _
    rw [hlog, List.getLast?_append]
    rfl
  · intro h0 hkeep
    have h1 : (Worker.record finishedAt (TaskHistoryRecord.zero.Start startedAt)
        (taskHandler (Worker.started startedAt t))).Attempts = 1 := by
      show wrapInt64 (_ + 1) = 1
      rw [hkeep, h0]
      decide
    refine ⟨h1, ?_⟩
    show some (NextRunTime startedAt _) = _
    rw [h1]
    have := NextRunTime_exact_upto_26 startedAt 1 (by decide)
    simp only [Nat.cast_one] at this
    rw [this]
    norm_num

/-- C10 at a fresh task started at instant 7 whose handler fails transiently, with
`maxAttempts = 3`: the upserted task is `PENDING` with `Attempts = 1` and `NextRunAt` four
minutes after instant 7. -/
theorem Worker_transient_failure_witness :
    ∃ doc,
      persisted (Worker (sampleEnv 3 (some fun t => ⟨t, some "boom", false⟩) none) ⟨7⟩ ⟨9⟩
        ⟨[], ()⟩ (sampleTask [1] TASK_STATUS_PENDING [])).calls = [doc] ∧
      doc.Status = TASK_STATUS_PENDING ∧ doc.Attempts = 1 ∧
      doc.NextRunAt = some ⟨7 + 4 * 60000000000⟩ := by
  obtain ⟨doc, h1, _, h3, _, _, _, _, _, h9⟩ :=
    Worker_transient_failure (sampleEnv 3 (some fun t => ⟨t, some "boom", false⟩) none) ⟨7⟩ ⟨9⟩
      ⟨[], ()⟩ (sampleTask [1] TASK_STATUS_PENDING []) (fun t => ⟨t, some "boom", false⟩) "boom"
      (by decide) (by decide) rfl rfl rfl (by decide) rfl
  exact ⟨doc, h1, h3, (h9 rfl rfl).1, (h9 rfl rfl).2⟩

/-- C10 fails as stated: the attempt starts at instant 7, the handler writes
`LastRunAt = 100` into the task and fails transiently; the upserted `NextRunAt` is four
minutes after instant 100, not after the `StartedAt` of the log entry. -/
theorem Worker_transient_failure_LastRunAt_rewritten :
    (persisted (Worker (sampleEnv 3
        (some fun t => ⟨{ t with LastRunAt := some ⟨100⟩ }, some "boom", false⟩) none) ⟨7⟩ ⟨9⟩
        ⟨[], ()⟩ (sampleTask [1] TASK_STATUS_PENDING [])).calls).map
        (fun doc => (doc.Status, doc.Attempts, doc.Log.map TaskHistoryRecord.StartedAt,
          doc.NextRunAt)) =
        [(TASK_STATUS_PENDING, 1, [⟨7⟩], some (NextRunTime ⟨100⟩ 1))] ∧
      NextRunTime ⟨100⟩ 1 ≠ NextRunTime ⟨7⟩ 1 := by
  decide

/-! ## The range of the backoff -/

theorem NextRunTime_eq_Add_backoffDelay (lastRun : Time) (attempts : Int) :
    NextRunTime lastRun attempts = lastRun.Add (backoffDelay attempts) := rfl

theorem backoffDelay_of_shift_out (attempts : Int) (h63 : 63 ≤ attempts)
    (hint : attempts ≤ 9223372036854775807) :
    shiftLeftOne (wrapUint64 (wrapUint64 attempts + 1)) = 0 ∧ backoffDelay attempts = 0 := by
  have h1 : wrapUint64 attempts = attempts.toNat := by
    unfold wrapUint64; congr 1; omega
  have h2 : wrapUint64 ((wrapUint64 attempts : Nat) + 1 : Int) = attempts.toNat + 1 := by
    rw [h1]; unfold wrapUint64; omega
  have h3 : shiftLeftOne (wrapUint64 (wrapUint64 attempts + 1)) = 0 := by
    rw [h2]; unfold shiftLeftOne; rw [if_pos (by omega)]
  refine ⟨h3, ?_⟩
  unfold backoffDelay
  rw [h3]
  decide

/-- C20: with `time.Duration` a signed 64-bit count of nanoseconds, for every attempt
count from 0 to 26 the delay `time.Minute * (1 << (attempts+1))` is exactly
`2^(attempts+1) * 60 * 10^9`, is positive and grows strictly with the attempt count, so
`NextRunTime` is strictly after the last run; at 27 the product exceeds `2^63 - 1` and the
delay is not the product (it is negative); and for every `int` attempt count from 63 on the
shift yields 0, the delay is 0 and the next run is the last run itself, not after it. -/
theorem backoffDelay_overflow_free_range :
    (∀ k : Nat, k ≤ 26 →
      backoffDelay k = 2 ^ (k + 1) * 60 * 10 ^ 9 ∧ 0 < backoffDelay k ∧
        (k < 26 → backoffDelay k < backoffDelay (k + 1 : Nat)) ∧
        ∀ lastRun : Time, lastRun.ns < (NextRunTime lastRun k).ns) ∧
      ((2 : Int) ^ (27 + 1) * 60 * 10 ^ 9 > 2 ^ 63 - 1 ∧
        backoffDelay 27 ≠ 2 ^ (27 + 1) * 60 * 10 ^ 9 ∧ backoffDelay 27 < 0) ∧
      (∀ attempts : Int, 63 ≤ attempts → attempts ≤ 9223372036854775807 →
        shiftLeftOne (wrapUint64 (wrapUint64 attempts + 1)) = 0 ∧
          ∀ lastRun : Time, NextRunTime lastRun attempts = lastRun ∧
            ¬ lastRun.ns < (NextRunTime lastRun attempts).ns) := by
  refine ⟨?_, by decide, ?_⟩
  · have hall : ∀ k : Nat, k < 27 →
        backoffDelay k = 2 ^ (k + 1) * 60 * 10 ^ 9 ∧ 0 < backoffDelay k ∧
          (k < 26 → backoffDelay k < backoffDelay (k + 1 : Nat)) := by
      decide
    intro k hk
    obtain ⟨h1, h2, h3⟩ := hall k (by omega)
    refine ⟨h1, h2, h3, fun lastRun => ?_⟩
    rw [NextRunTime_eq_Add_backoffDelay]
    show lastRun.ns < lastRun.ns + backoffDelay k
    omega
  · intro attempts h63 hint
    obtain ⟨h1, h2⟩ := backoffDelay_of_shift_out attempts h63 hint
    refine ⟨h1, fun lastRun => ?_⟩
    rw [NextRunTime_eq_Add_backoffDelay, h2]
    have : lastRun.Add 0 = lastRun := by
      cases lastRun; simp [Time.Add]
    rw [this]
    exact ⟨rfl, lt_irrefl _⟩

/-! ## Locks -/

/-- C12: for a `PENDING` task for which `GetAllLocks` fails, `Worker` returns `false` with
the collection as it was, having made calls on the lock service only (no
`SetStatus(RUNNING)`, no upsert, no handler), and the task it holds is the task it was
given: `Status` still `PENDING`, and `Attempts`, `Log`, `LastRunAt` and `NextRunAt`
unchanged. -/
theorem Worker_lock_failure_aborts {σ : Type} (env : Env σ) (startedAt finishedAt : Time)
    (w : World σ) (t : Task) (hpending : t.Status = TASK_STATUS_PENDING)
    (hlocks : (t.GetAllLocks env.lock w.locks).1 ≠ none) :
    (Worker env startedAt finishedAt w t).returned = WorkerReturn.retFalse ∧
      (Worker env startedAt finishedAt w t).world.tasks = w.tasks ∧
      (∀ e ∈ (Worker env startedAt finishedAt w t).calls, e.isLockCall = true) ∧
      persisted (Worker env startedAt finishedAt w t).calls = [] ∧
      (Worker env startedAt finishedAt w t).task = t ∧
      (Worker env startedAt finishedAt w t).task.Status = TASK_STATUS_PENDING ∧
      (Worker env startedAt finishedAt w t).task.Attempts = t.Attempts ∧
      (Worker env startedAt finishedAt w t).task.Log = t.Log ∧
      (Worker env startedAt finishedAt w t).task.LastRunAt = t.LastRunAt ∧
      (Worker env startedAt finishedAt w t).task.NextRunAt = t.NextRunAt := by
  obtain ⟨err, herr⟩ := Option.ne_none_iff_exists'.1 hlocks
  obtain ⟨h1, h2, h3, h4⟩ :=
    Worker_of_locks_failed env startedAt finishedAt w t hpending err herr
  have hl := GetAllLocks_calls_lock env.lock t w.locks
  rw [h1, h4]
  exact ⟨h2, h3, hl, persisted_of_lock_calls _ hl, rfl, hpending, rfl, rfl, rfl, rfl⟩

/-- C12 at a task whose only lock is busy. -/
theorem Worker_lock_failure_aborts_witness :
    (Worker (sampleEnvLocks ["09"] [] 3 (some fun t => ⟨t, none, false⟩) none) ⟨1⟩ ⟨2⟩
        ⟨[], []⟩ { sampleTask [1] TASK_STATUS_PENDING [] with Locks := [[9]] }).calls =
        [Event.getLock "09" false] ∧
      (Worker (sampleEnvLocks ["09"] [] 3 (some fun t => ⟨t, none, false⟩) none) ⟨1⟩ ⟨2⟩
        ⟨[], []⟩ { sampleTask [1] TASK_STATUS_PENDING [] with Locks := [[9]] }).task =
        { sampleTask [1] TASK_STATUS_PENDING [] with Locks := [[9]] } :=
  ⟨by decide,
    (Worker_lock_failure_aborts (sampleEnvLocks ["09"] [] 3 (some fun t => ⟨t, none, false⟩) none)
      ⟨1⟩ ⟨2⟩ ⟨[], []⟩ { sampleTask [1] TASK_STATUS_PENDING [] with Locks := [[9]] }
      (by decide) (by decide)).2.2.2.2.1⟩

theorem acquire_none {σ : Type} (svc : LockService σ) (locks : List ObjectId) (s : σ)
    (h : (GetAllLocks.acquire svc locks s).2.1 = none) :
    (GetAllLocks.acquire svc locks s).2.2.2 =
      locks.map fun lockId => Event.getLock (Hex lockId) true := by
  induction locks generalizing s with
  | nil => rfl
  | cons lockId rest ih =>
    unfold GetAllLocks.acquire at h ⊢
    dsimp only at h ⊢
    by_cases hok : (svc.GetLock (Hex lockId) lockTimeout s).1 = false
    · rw [if_pos hok] at h
      cases h
    · rw [if_neg hok] at h ⊢
      rw [List.map_cons, ih _ h]

theorem acquire_some {σ : Type} (svc : LockService σ) (locks : List ObjectId) (s : σ)
    (err : String) (h : (GetAllLocks.acquire svc locks s).2.1 = some err) :
    ∃ pre lockId post, locks = pre ++ lockId :: post ∧
      (GetAllLocks.acquire svc locks s).1 =
        List.replicate pre.length true ++ List.replicate (post.length + 1) false ∧
      (GetAllLocks.acquire svc locks s).2.2.2 =
        (pre.map fun l => Event.getLock (Hex l) true) ++ [Event.getLock (Hex lockId) false] ∧
      err = "Failed to obtain MongoDB lock " ++ Hex lockId ++ "." := by
  induction locks generalizing s with
  | nil => cases h
  | cons lockId rest ih =>
    unfold GetAllLocks.acquire at h ⊢
    dsimp only at h ⊢
    by_cases hok : (svc.GetLock (Hex lockId) lockTimeout s).1 = false
    · rw [if_pos hok] at h ⊢
      refine ⟨[], lockId, rest, rfl, ?_, rfl, ?_⟩
      · simp [List.replicate_succ]
      · exact (Option.some.inj h).symm
    · rw [if_neg hok] at h ⊢
      obtain ⟨pre, l, post, h1, h2, h3, h4⟩ := ih _ h
      refine ⟨lockId :: pre, l, post, by rw [h1]; rfl, ?_, ?_, h4⟩
      · rw [h2]; simp [List.replicate_succ]
      · rw [h3]; rfl

theorem release_obtained {σ : Type} (svc : LockService σ) (pre : List ObjectId)
    (rest : List ObjectId) (s : σ) :
    ∃ answers : List (Option String), answers.length = pre.length ∧
      (GetAllLocks.release svc
        (List.replicate pre.length true ++ List.replicate rest.length false)
        (pre ++ rest) s).2 = releaseCalls pre answers := by
  induction pre generalizing s with
  | nil =>
    refine ⟨[], rfl, ?_⟩
    simp only [List.length_nil, List.replicate_zero, List.nil_append]
    induction rest with
    | nil => simp [GetAllLocks.release, releaseCalls]
    | cons r rest ih =>
      simp only [List.length_cons, List.replicate_succ, GetAllLocks.release]
      exact ih
  | cons p pre ih =>
    obtain ⟨answers, hlen, hcalls⟩ := ih (svc.ReleaseLock (Hex p) s).2
    refine ⟨(svc.ReleaseLock (Hex p) s).1 :: answers, by simp [hlen], ?_⟩
    show (GetAllLocks.release svc
        (true :: (List.replicate pre.length true ++ List.replicate rest.length false))
        (p :: (pre ++ rest)) s).2 = _
    simp only [GetAllLocks.release]
    rw [hcalls]
    simp [releaseCalls]

theorem GetAllLocks_calls_of_none {σ : Type} (svc : LockService σ) (t : Task) (s : σ)
    (h : (t.GetAllLocks svc s).1 = none) :
    (t.GetAllLocks svc s).2.2 = t.Locks.map fun l => Event.getLock (Hex l) true := by
  unfold Task.GetAllLocks at h ⊢
  dsimp only at h ⊢
  split at h
  · cases h
  · next ha => simp only [acquire_none svc t.Locks s ha]

theorem GetAllLocks_calls_of_some {σ : Type} (svc : LockService σ) (t : Task) (s : σ)
    (err : String) (h : (t.GetAllLocks svc s).1 = some err) :
    ∃ pre lockId post answers, t.Locks = pre ++ lockId :: post ∧
      answers.length = pre.length ∧
      (t.GetAllLocks svc s).2.2 =
        (pre.map fun l => Event.getLock (Hex l) true) ++
          [Event.getLock (Hex lockId) false] ++ releaseCalls pre answers ∧
      err = "Failed to obtain MongoDB lock " ++ Hex lockId ++ "." := by
  unfold Task.GetAllLocks at h ⊢
  dsimp only at h ⊢
  split at h
  · next e ha =>
    have he : e = err := Option.some.inj h
    subst he
    obtain ⟨pre, l, post, h1, h2, h3, h4⟩ := acquire_some svc t.Locks s e ha
    obtain ⟨answers, hlen, hcalls⟩ :=
      release_obtained svc pre (l :: post) (GetAllLocks.acquire svc t.Locks s).2.2.1
    refine ⟨pre, l, post, answers, h1, hlen, ?_, h4⟩
    rw [List.length_cons, ← h1] at hcalls
    simp only [ha]
    rw [h3, h2, hcalls]
  · cases h

theorem ReleaseAllLocks_loop_spec {σ : Type} (svc : LockService σ) (locks : List ObjectId)
    (s : σ) :
    ∃ answers : List (Option String), answers.length = locks.length ∧
      (ReleaseAllLocks.loop svc locks s).2.2 = releaseCalls locks answers ∧
      (ReleaseAllLocks.loop svc locks s).1.length =
        (answers.filter fun a => a.isSome).length ∧
      ((ReleaseAllLocks.loop svc locks s).1 = [] ↔ ∀ a ∈ answers, a = none) := by
  induction locks generalizing s with
  | nil => exact ⟨[], rfl, rfl, rfl, by simp [ReleaseAllLocks.loop]⟩
  | cons lockId rest ih =>
    obtain ⟨answers, h1, h2, h3, h4⟩ := ih (svc.ReleaseLock (Hex lockId) s).2
    refine ⟨(svc.ReleaseLock (Hex lockId) s).1 :: answers, by simp [h1], ?_⟩
    unfold ReleaseAllLocks.loop
    dsimp only
    cases hr : (svc.ReleaseLock (Hex lockId) s).1 with
    | none =>
      refine ⟨?_, ?_, ?_⟩
      · simp only [releaseCalls, List.zipWith_cons_cons]
        rw [← releaseCalls, ← h2]
      · simpa using h3
      · simpa using h4
    | some err =>
      refine ⟨?_, ?_, ?_⟩
      · simp only [releaseCalls, List.zipWith_cons_cons]
        rw [← releaseCalls, ← h2]
      · simpa using h3
      · simp

theorem getLockRun_length {σ : Type} (svc : LockService σ) (locks : List ObjectId) (s : σ) :
    (getLockRun svc locks s).1.length = locks.length := by
  induction locks generalizing s with
  | nil => rfl
  | cons l rest ih => simp [getLockRun, ih]

theorem releaseLockRun_length {σ : Type} (svc : LockService σ) (locks : List ObjectId)
    (s : σ) : (releaseLockRun svc locks s).1.length = locks.length := by
  induction locks generalizing s with
  | nil => rfl
  | cons l rest ih => simp [releaseLockRun, ih]

theorem acquire_granted {σ : Type} (svc : LockService σ) (locks : List ObjectId) (s : σ)
    (h : ∀ b ∈ (getLockRun svc locks s).1, b = true) :
    GetAllLocks.acquire svc locks s =
      (List.replicate locks.length true, none, (getLockRun svc locks s).2,
        locks.map fun l => Event.getLock (Hex l) true) := by
  induction locks generalizing s with
  | nil => rfl
  | cons l rest ih =>
    simp only [getLockRun, List.mem_cons, forall_eq_or_imp] at h
    unfold GetAllLocks.acquire
    dsimp only
    rw [if_neg (by rw [h.1]; decide), ih _ h.2]
    simp [getLockRun, List.replicate_succ]

theorem acquire_refused {σ : Type} (svc : LockService σ) (pre : List ObjectId)
    (lockId : ObjectId) (post : List ObjectId) (s : σ)
    (hpre : ∀ b ∈ (getLockRun svc pre s).1, b = true)
    (hl : (svc.GetLock (Hex lockId) lockTimeout (getLockRun svc pre s).2).1 = false) :
    GetAllLocks.acquire svc (pre ++ lockId :: post) s =
      (List.replicate pre.length true ++ List.replicate (post.length + 1) false,
        some ("Failed to obtain MongoDB lock " ++ Hex lockId ++ "."),
        (svc.GetLock (Hex lockId) lockTimeout (getLockRun svc pre s).2).2,
        (pre.map fun l => Event.getLock (Hex l) true) ++
          [Event.getLock (Hex lockId) false]) := by
  induction pre generalizing s with
  | nil =>
    simp only [getLockRun] at hl
    simp only [List.nil_append, getLockRun]
    unfold GetAllLocks.acquire
    dsimp only
    rw [if_pos hl]
    simp [List.replicate_succ]
  | cons p pre ih =>
    simp only [getLockRun, List.mem_cons, forall_eq_or_imp] at hpre
    simp only [getLockRun] at hl
    simp only [List.cons_append]
    unfold GetAllLocks.acquire
    dsimp only
    rw [if_neg (by rw [hpre.1]; decide), ih _ hpre.2 hl]
    simp [getLockRun, List.replicate_succ]

theorem first_refused {σ : Type} (svc : LockService σ) (locks : List ObjectId) (s : σ)
    (h : ¬ ∀ b ∈ (getLockRun svc locks s).1, b = true) :
    ∃ pre lockId post, locks = pre ++ lockId :: post ∧
      (∀ b ∈ (getLockRun svc pre s).1, b = true) ∧
      (svc.GetLock (Hex lockId) lockTimeout (getLockRun svc pre s).2).1 = false := by
  induction locks generalizing s with
  | nil => exact absurd (by simp [getLockRun]) h
  | cons l rest ih =>
    by_cases hl : (svc.GetLock (Hex l) lockTimeout s).1 = false
    · exact ⟨[], l, rest, rfl, by simp [getLockRun], hl⟩
    · have hrest : ¬ ∀ b ∈ (getLockRun svc rest (svc.GetLock (Hex l) lockTimeout s).2).1,
          b = true := by
        intro hall
        apply h
        simp only [getLockRun, List.mem_cons, forall_eq_or_imp]
        exact ⟨by simpa using hl, hall⟩
      obtain ⟨pre, x, post, h1, h2, h3⟩ := ih _ hrest
      refine ⟨l :: pre, x, post, by rw [h1]; rfl, ?_, ?_⟩
      · simp only [getLockRun, List.mem_cons, forall_eq_or_imp]
        exact ⟨by simpa using hl, h2⟩
      · simpa only [getLockRun] using h3

theorem release_run {σ : Type} (svc : LockService σ) (pre rest : List ObjectId) (s : σ) :
    GetAllLocks.release svc
        (List.replicate pre.length true ++ List.replicate rest.length false) (pre ++ rest) s =
      ((releaseLockRun svc pre s).2, releaseCalls pre (releaseLockRun svc pre s).1) := by
  induction pre generalizing s with
  | nil =>
    simp only [List.length_nil, List.replicate_zero, List.nil_append, releaseLockRun,
      releaseCalls, List.zipWith_nil_left]
    induction rest with
    | nil => simp [GetAllLocks.release]
    | cons r rest ih =>
      simp only [List.length_cons, List.replicate_succ, GetAllLocks.release]
      exact ih
  | cons p pre ih =>
    show GetAllLocks.release svc
        (true :: (List.replicate pre.length true ++ List.replicate rest.length false))
        (p :: (pre ++ rest)) s = _
    simp only [GetAllLocks.release]
    rw [ih]
    simp [releaseLockRun, releaseCalls]

theorem GetAllLocks_of_granted {σ : Type} (svc : LockService σ) (t : Task) (s : σ)
    (h : ∀ b ∈ (getLockRun svc t.Locks s).1, b = true) :
    t.GetAllLocks svc s =
      (none, (getLockRun svc t.Locks s).2,
        t.Locks.map fun l => Event.getLock (Hex l) true) := by
  unfold Task.GetAllLocks
  rw [acquire_granted svc t.Locks s h]

theorem GetAllLocks_of_refused {σ : Type} (svc : LockService σ) (t : Task) (s : σ)
    (pre : List ObjectId) (lockId : ObjectId) (post : List ObjectId)
    (hlocks : t.Locks = pre ++ lockId :: post)
    (hpre : ∀ b ∈ (getLockRun svc pre s).1, b = true)
    (hl : (svc.GetLock (Hex lockId) lockTimeout (getLockRun svc pre s).2).1 = false) :
    t.GetAllLocks svc s =
      (some ("Failed to obtain MongoDB lock " ++ Hex lockId ++ "."),
        (releaseLockRun svc pre
          (svc.GetLock (Hex lockId) lockTimeout (getLockRun svc pre s).2).2).2,
        (pre.map fun l => Event.getLock (Hex l) true) ++
          [Event.getLock (Hex lockId) false] ++
          releaseCalls pre (releaseLockRun svc pre
            (svc.GetLock (Hex lockId) lockTimeout (getLockRun svc pre s).2).2).1) := by
  unfold Task.GetAllLocks
  rw [hlocks, acquire_refused svc pre lockId post s hpre hl]
  dsimp only
  have hr := release_run svc pre (lockId :: post)
    (svc.GetLock (Hex lockId) lockTimeout (getLockRun svc pre s).2).2
  rw [List.length_cons] at hr
  rw [hr]

/-- C18: `GetAllLocks` calls `GetLock` on the locks of the task in list order, each call on
the lock service as the call before it left it. It returns nil iff every one of these calls
is answered `true`, and then it has called `GetLock` on every lock and nothing else. When
the lock service answers `true` for the locks of `pre` and `false` for the lock after them,
`GetAllLocks` returns the error that names the hex id of that lock, having called `GetLock`
on the locks of `pre` and on that lock, on no lock after it, and then `ReleaseLock` on
exactly the locks of `pre`, in list order; and whenever it returns an error there is such
a first lock that the service refused. -/
theorem GetAllLocks_in_order {σ : Type} (svc : LockService σ) (t : Task) (s : σ) :
    ((t.GetAllLocks svc s).1 = none ↔ ∀ b ∈ (getLockRun svc t.Locks s).1, b = true) ∧
    ((t.GetAllLocks svc s).1 = none →
      (t.GetAllLocks svc s).2.2 = (t.Locks.map fun l => Event.getLock (Hex l) true) ∧
      (t.GetAllLocks svc s).2.1 = (getLockRun svc t.Locks s).2) ∧
    (∀ pre lockId post, t.Locks = pre ++ lockId :: post →
      (∀ b ∈ (getLockRun svc pre s).1, b = true) →
      (svc.GetLock (Hex lockId) lockTimeout (getLockRun svc pre s).2).1 = false →
      (t.GetAllLocks svc s).1 = some ("Failed to obtain MongoDB lock " ++ Hex lockId ++ ".") ∧
      (t.GetAllLocks svc s).2.2 =
        (pre.map fun l => Event.getLock (Hex l) true) ++
          [Event.getLock (Hex lockId) false] ++
          releaseCalls pre (releaseLockRun svc pre
            (svc.GetLock (Hex lockId) lockTimeout (getLockRun svc pre s).2).2).1 ∧
      (t.GetAllLocks svc s).2.1 =
        (releaseLockRun svc pre
          (svc.GetLock (Hex lockId) lockTimeout (getLockRun svc pre s).2).2).2) ∧
    ((t.GetAllLocks svc s).1 ≠ none →
      ∃ pre lockId post, t.Locks = pre ++ lockId :: post ∧
        (∀ b ∈ (getLockRun svc pre s).1, b = true) ∧
        (svc.GetLock (Hex lockId) lockTimeout (getLockRun svc pre s).2).1 = false) := by
  have hiff : (t.GetAllLocks svc s).1 = none ↔
      ∀ b ∈ (getLockRun svc t.Locks s).1, b = true := by
    constructor
    · intro hnone
      by_contra hno
      obtain ⟨pre, l, post, h1, h2, h3⟩ := first_refused svc t.Locks s hno
      rw [GetAllLocks_of_refused svc t s pre l post h1 h2 h3] at hnone
      cases hnone
    · intro hall
      rw [GetAllLocks_of_granted svc t s hall]
  refine ⟨hiff, ?_, ?_, ?_⟩
  · intro hnone
    rw [GetAllLocks_of_granted svc t s (hiff.1 hnone)]
    exact ⟨rfl, rfl⟩
  · intro pre l post h1 h2 h3
    rw [GetAllLocks_of_refused svc t s pre l post h1 h2 h3]
    exact ⟨rfl, rfl, rfl⟩
  · intro hsome
    exact first_refused svc t.Locks s fun hall => hsome (hiff.2 hall)

/-- C18 at a task with the locks `01`, `02`, `03` over a lock service in which `02` is
busy: `GetLock` is called on `01` and `02`, not on `03`, then `ReleaseLock` on `01`, and the
error names `02`. -/
theorem GetAllLocks_in_order_witness :
    (Task.GetAllLocks (listLocks ["02"] [])
        { sampleTask [9] TASK_STATUS_PENDING [] with Locks := [[1], [2], [3]] } []).1 =
        some "Failed to obtain MongoDB lock 02." ∧
      (Task.GetAllLocks (listLocks ["02"] [])
        { sampleTask [9] TASK_STATUS_PENDING [] with Locks := [[1], [2], [3]] } []).2.2 =
        [Event.getLock "01" true, Event.getLock "02" false, Event.releaseLock "01" none] ∧
      (Task.GetAllLocks (listLocks ["02"] [])
        { sampleTask [9] TASK_STATUS_PENDING [] with Locks := [[1], [2], [3]] } []).2.1 = [] :=
  (GetAllLocks_in_order (listLocks ["02"] [])
    { sampleTask [9] TASK_STATUS_PENDING [] with Locks := [[1], [2], [3]] } []).2.2.1
    [[1]] [2] [[3]] rfl (by decide) (by decide)

theorem loop_run {σ : Type} (svc : LockService σ) (locks : List ObjectId) (s : σ) :
    ReleaseAllLocks.loop svc locks s =
      (failedReleases locks (releaseLockRun svc locks s).1, (releaseLockRun svc locks s).2,
        releaseCalls locks (releaseLockRun svc locks s).1) := by
  induction locks generalizing s with
  | nil => rfl
  | cons l rest ih =>
    unfold ReleaseAllLocks.loop
    dsimp only
    rw [ih]
    cases hr : (svc.ReleaseLock (Hex l) s).1 with
    | none => simp [releaseLockRun, hr, failedReleases, releaseCalls]
    | some err => simp [releaseLockRun, hr, failedReleases, releaseCalls]

theorem failedReleases_length (locks : List ObjectId) (answers : List (Option String))
    (h : answers.length = locks.length) :
    (failedReleases locks answers).length = (answers.filter fun a => a.isSome).length := by
  induction locks generalizing answers with
  | nil =>
    cases answers with
    | nil => rfl
    | cons a as => simp at h
  | cons l rest ih =>
    cases answers with
    | nil => simp at h
    | cons a as =>
      have h' : as.length = rest.length := by simpa using h
      cases a with
      | none => simpa [failedReleases] using ih as h'
      | some err => simpa [failedReleases] using ih as h'

theorem failedReleases_eq_nil (locks : List ObjectId) (answers : List (Option String))
    (h : answers.length = locks.length) :
    failedReleases locks answers = [] ↔ ∀ a ∈ answers, a = none := by
  induction locks generalizing answers with
  | nil =>
    cases answers with
    | nil => simp [failedReleases]
    | cons a as => simp at h
  | cons l rest ih =>
    cases answers with
    | nil => simp at h
    | cons a as =>
      have h' : as.length = rest.length := by simpa using h
      cases a with
      | none => simpa [failedReleases] using ih as h'
      | some err => simp [failedReleases]

/-- C14: `ReleaseAllLocks` calls `ReleaseLock` once for every lock of the task, in list
order, each call on the lock service as the call before it left it, whatever the earlier
calls answered, and leaves the lock service as the last call left it. It returns a non-nil
error iff the lock service answered at least one of these calls with an error, and the
error it returns has exactly one entry for each call that failed, in order, which names
the lock and carries the error of the lock service. -/
theorem ReleaseAllLocks_attempts_every_lock {σ : Type} (svc : LockService σ) (t : Task)
    (s : σ) :
    (releaseLockRun svc t.Locks s).1.length = t.Locks.length ∧
      (t.ReleaseAllLocks svc s).2.2 =
        releaseCalls t.Locks (releaseLockRun svc t.Locks s).1 ∧
      (t.ReleaseAllLocks svc s).2.1 = (releaseLockRun svc t.Locks s).2 ∧
      ((t.ReleaseAllLocks svc s).1 ≠ none ↔
        ∃ a ∈ (releaseLockRun svc t.Locks s).1, a ≠ none) ∧
      (∀ entries, (t.ReleaseAllLocks svc s).1 = some entries →
        entries = failedReleases t.Locks (releaseLockRun svc t.Locks s).1 ∧
        entries.length =
          ((releaseLockRun svc t.Locks s).1.filter fun a => a.isSome).length) ∧
      ((t.ReleaseAllLocks svc s).1 = none →
        ((releaseLockRun svc t.Locks s).1.filter fun a => a.isSome).length = 0) := by
  have hlen := releaseLockRun_length svc t.Locks s
  have hcount := failedReleases_length t.Locks (releaseLockRun svc t.Locks s).1 hlen
  have hnil := failedReleases_eq_nil t.Locks (releaseLockRun svc t.Locks s).1 hlen
  have hrun : t.ReleaseAllLocks svc s =
      (MultiError.Return (failedReleases t.Locks (releaseLockRun svc t.Locks s).1),
        (releaseLockRun svc t.Locks s).2,
        releaseCalls t.Locks (releaseLockRun svc t.Locks s).1) := by
    unfold Task.ReleaseAllLocks
    rw [loop_run]
  rw [hrun]
  refine ⟨hlen, rfl, rfl, ?_, ?_, ?_⟩
  · unfold MultiError.Return
    split_ifs with he
    · simp only [ne_eq, not_true_eq_false, false_iff, not_exists, not_and, not_not]
      exact hnil.1 he
    · simp only [ne_eq, reduceCtorEq, not_false_eq_true, true_iff]
      by_contra hno
      exact he (hnil.2 fun a ha => by_contra fun hne => hno ⟨a, ha, hne⟩)
  · intro entries he
    unfold MultiError.Return at he
    split_ifs at he with h0
    rw [← Option.some.inj he]
    exact ⟨rfl, hcount⟩
  · intro he
    unfold MultiError.Return at he
    split_ifs at he with h0
    · rw [← hcount, h0]; rfl

/-- C14 at a task with the locks `01`, `02`, `03` over a lock service in which the release
of `02` fails: `ReleaseLock` is still called on `03`, and the error has the one entry for
`02`. -/
theorem ReleaseAllLocks_attempts_every_lock_witness :
    (Task.ReleaseAllLocks (listLocks [] ["02"])
        { sampleTask [9] TASK_STATUS_PENDING [] with Locks := [[1], [2], [3]] }
        ["03", "02", "01"]).2.2 =
        [Event.releaseLock "01" none, Event.releaseLock "02" (some "cannot release"),
          Event.releaseLock "03" none] ∧
      (Task.ReleaseAllLocks (listLocks [] ["02"])
        { sampleTask [9] TASK_STATUS_PENDING [] with Locks := [[1], [2], [3]] }
        ["03", "02", "01"]).1 =
        some [("Failed to release MongoDB lock 02.", "cannot release")] ∧
      (Task.ReleaseAllLocks (listLocks [] ["02"])
        { sampleTask [9] TASK_STATUS_PENDING [] with Locks := [[1], [2], [3]] }
        ["03", "02", "01"]).2.1 = ["02"] :=
  have h := ReleaseAllLocks_attempts_every_lock (listLocks [] ["02"])
    { sampleTask [9] TASK_STATUS_PENDING [] with Locks := [[1], [2], [3]] }
    ["03", "02", "01"]
  ⟨h.2.1.trans (by decide), by decide, h.2.2.1.trans (by decide)⟩

theorem heldAfter_append (held : List String) (a b : List Event) :
    heldAfter held (a ++ b) = heldAfter (heldAfter held a) b := by
  simp [heldAfter, List.foldl_append]

theorem heldAfter_cons (held : List String) (e : Event) (rest : List Event) :
    heldAfter held (e :: rest) = heldAfter (heldStep held e) rest := rfl

theorem mem_heldAfter_getLocks (locks : List ObjectId) (held : List String) (n : String) :
    n ∈ heldAfter held (locks.map fun l => Event.getLock (Hex l) true) ↔
      n ∈ held ∨ n ∈ locks.map Hex := by
  induction locks generalizing held with
  | nil => simp [heldAfter]
  | cons l rest ih =>
    rw [List.map_cons, heldAfter_cons, ih]
    simp only [heldStep, List.map_cons, List.mem_cons]
    split_ifs with h
    · constructor
      · rintro (h1 | h1)
        · exact Or.inl h1
        · exact Or.inr (Or.inr h1)
      · rintro (h1 | h1 | h1)
        · exact Or.inl h1
        · exact Or.inl (h1 ▸ h)
        · exact Or.inr h1
    · simp only [List.mem_cons]
      tauto

theorem mem_heldAfter_releaseCalls (locks : List ObjectId) (answers : List (Option String))
    (hlen : answers.length = locks.length) (hall : ∀ a ∈ answers, a = none)
    (held : List String) (n : String) :
    n ∈ heldAfter held (releaseCalls locks answers) ↔ n ∈ held ∧ n ∉ locks.map Hex := by
  induction locks generalizing held answers with
  | nil => simp [heldAfter, releaseCalls]
  | cons l rest ih =>
    cases answers with
    | nil => simp at hlen
    | cons a answers =>
      have ha : a = none := hall a (List.mem_cons_self _ _)
      subst ha
      have := ih answers (by simpa using hlen)
        (fun x hx => hall x (List.mem_cons_of_mem _ hx)) (heldStep held
          (Event.releaseLock (Hex l) none))
      simp only [releaseCalls, List.zipWith_cons_cons] at this ⊢
      rw [heldAfter_cons, this]
      simp only [heldStep, List.mem_filter, List.map_cons, List.mem_cons, not_or,
        decide_eq_true_eq]
      tauto

theorem mem_releaseCalls (locks : List ObjectId) (answers : List (Option String))
    (hlen : answers.length = locks.length) (a : Option String) (ha : a ∈ answers) :
    ∃ name, Event.releaseLock name a ∈ releaseCalls locks answers := by
  induction locks generalizing answers with
  | nil =>
    cases answers with
    | nil => simp at ha
    | cons _ _ => simp at hlen
  | cons l rest ih =>
    cases answers with
    | nil => simp at ha
    | cons b answers =>
      simp only [releaseCalls, List.zipWith_cons_cons, List.mem_cons]
      rcases List.mem_cons.1 ha with h | h
      · exact ⟨Hex l, Or.inl (by rw [h])⟩
      · obtain ⟨name, hn⟩ := ih answers (by simpa using hlen) h
        exact ⟨name, Or.inr hn⟩

/-- The locks held after a failed `GetAllLocks` all of whose releases succeeded. -/
theorem mem_heldAfter_GetAllLocks_failed {σ : Type} (svc : LockService σ) (t : Task) (s : σ)
    (err : String) (h : (t.GetAllLocks svc s).1 = some err)
    (hrel : ∀ name answer, Event.releaseLock name answer ∈ (t.GetAllLocks svc s).2.2 →
      answer = none) (held : List String) (n : String) :
    n ∈ heldAfter held (t.GetAllLocks svc s).2.2 →
      n ∈ held ∧ ((∀ l ∈ t.Locks, Hex l ∉ held) → n ∉ t.Locks.map Hex) := by
  obtain ⟨pre, l, post, answers, h1, hlen, hcalls, _⟩ := GetAllLocks_calls_of_some svc t s err h
  have hall : ∀ a ∈ answers, a = none := by
    intro a ha
    obtain ⟨name, hn⟩ := mem_releaseCalls pre answers hlen a ha
    exact hrel name a (by rw [hcalls]; exact List.mem_append_right _ hn)
  rw [hcalls, heldAfter_append, heldAfter_append, mem_heldAfter_releaseCalls pre answers hlen hall]
  intro hn
  have h2 : n ∈ heldAfter held (pre.map fun l => Event.getLock (Hex l) true) := hn.1
  rw [mem_heldAfter_getLocks] at h2
  rcases h2 with h2 | h2
  · refine ⟨h2, fun hdis hmem => ?_⟩
    obtain ⟨x, hx, hxn⟩ := List.mem_map.1 hmem
    exact hdis x hx (hxn ▸ h2)
  · exact absurd h2 hn.2

/-- C13, as the code has it: if `GetAllLocks` returns nil, the caller holds every lock in
`t.Locks`; if some lock cannot be acquired and every `ReleaseLock` that `GetAllLocks` then
calls succeeds, the caller holds no lock that it did not hold before the call, so none of
`t.Locks` when it held none of them before. (`GetAllLocks` drops the error of
`ReleaseLock`: a lock whose release fails stays held.) -/
theorem GetAllLocks_all_or_nothing {σ : Type} (svc : LockService σ) (t : Task) (s : σ)
    (held : List String) :
    ((t.GetAllLocks svc s).1 = none →
      ∀ l ∈ t.Locks, Hex l ∈ heldAfter held (t.GetAllLocks svc s).2.2) ∧
    ((t.GetAllLocks svc s).1 ≠ none →
      (∀ name answer, Event.releaseLock name answer ∈ (t.GetAllLocks svc s).2.2 →
        answer = none) →
      (∀ name, name ∈ heldAfter held (t.GetAllLocks svc s).2.2 → name ∈ held) ∧
        ((∀ l ∈ t.Locks, Hex l ∉ held) →
          ∀ l ∈ t.Locks, Hex l ∉ heldAfter held (t.GetAllLocks svc s).2.2)) := by
  constructor
  · intro h l hl
    rw [GetAllLocks_calls_of_none svc t s h, mem_heldAfter_getLocks]
    exact Or.inr (List.mem_map_of_mem _ hl)
  · intro h hrel
    obtain ⟨err, herr⟩ := Option.ne_none_iff_exists'.1 h
    have hm := mem_heldAfter_GetAllLocks_failed svc t s err herr hrel held
    refine ⟨fun name hn => (hm name hn).1, fun hdis l hl hn => ?_⟩
    exact (hm (Hex l) hn).2 hdis (List.mem_map_of_mem _ hl)

/-- C13 at a task with the locks `01` and `02`, the second of which is busy, over a lock
service whose releases succeed: after `GetAllLocks` the caller holds neither. -/
theorem GetAllLocks_all_or_nothing_witness :
    (Task.GetAllLocks (listLocks ["02"] [])
        { sampleTask [3] TASK_STATUS_PENDING [] with Locks := [[1], [2]] } []).1 ≠ none ∧
      ∀ l ∈ [([1] : ObjectId), [2]],
        Hex l ∉ heldAfter [] (Task.GetAllLocks (listLocks ["02"] [])
          { sampleTask [3] TASK_STATUS_PENDING [] with Locks := [[1], [2]] } []).2.2 := by
  have hcalls : (Task.GetAllLocks (listLocks ["02"] [])
      { sampleTask [3] TASK_STATUS_PENDING [] with Locks := [[1], [2]] } []).2.2 =
      [Event.getLock "01" true, Event.getLock "02" false, Event.releaseLock "01" none] := by
    decide
  refine ⟨by decide,
    ((GetAllLocks_all_or_nothing (listLocks ["02"] [])
      { sampleTask [3] TASK_STATUS_PENDING [] with Locks := [[1], [2]] } [] []).2
      (by decide) ?_).2 (by decide)⟩
  intro name answer h
  rw [hcalls] at h
  simp only [List.mem_cons, List.mem_singleton, reduceCtorEq, Event.releaseLock.injEq,
    false_or, List.not_mem_nil, or_false] at h
  exact h.2

/-- C13 fails as stated: the lock `02` is busy and the release of the lock `01` fails;
`GetAllLocks` returns its error, and the lock `01`, which is in `t.Locks` and was obtained
during the call, is still held, in the lock service as on the caller's account. -/
theorem GetAllLocks_failed_release_keeps_lock :
    (Task.GetAllLocks (listLocks ["02"] ["01"])
        { sampleTask [3] TASK_STATUS_PENDING [] with Locks := [[1], [2]] } []) =
      (some "Failed to obtain MongoDB lock 02.", ["01"],
        [Event.getLock "01" true, Event.getLock "02" false,
          Event.releaseLock "01" (some "cannot release")]) ∧
      heldAfter [] (Task.GetAllLocks (listLocks ["02"] ["01"])
        { sampleTask [3] TASK_STATUS_PENDING [] with Locks := [[1], [2]] } []).2.2 = ["01"] ∧
      Hex [1] = "01" := by
  decide

/-! ## Creation and decoding -/

/-- C16, as the code has it: `NewTask` returns a task with the given `Client`, `Type` and
`Body`, `Status = PENDING`, `Attempts = 0`, empty `Depends`, `Locks` and `Log`, no
`RequestId`, no `LastRunAt`, `CreatedAt` the reading of `time.Now()` and a non-null
`NextRunAt`, the reading of the clock that `utils.NowPtr()` takes next; the task is
runnable at every instant from that reading on, for `maxAttempts >= 1`.
`NewDependentTask` returns such a task with the parent's `Client` and appends exactly its
id to the end of the parent's `Depends`, changing no other field of the parent. -/
theorem NewTask_fields (newId client : ObjectId) (now nowPtr : Time)
    (taskType body : String) :
    (NewTask newId now nowPtr client taskType body).Id = newId ∧
      (NewTask newId now nowPtr client taskType body).Client = client ∧
      (NewTask newId now nowPtr client taskType body).TaskType = taskType ∧
      (NewTask newId now nowPtr client taskType body).Body = body ∧
      (NewTask newId now nowPtr client taskType body).Status = TASK_STATUS_PENDING ∧
      (NewTask newId now nowPtr client taskType body).Attempts = 0 ∧
      (NewTask newId now nowPtr client taskType body).Depends = [] ∧
      (NewTask newId now nowPtr client taskType body).Locks = [] ∧
      (NewTask newId now nowPtr client taskType body).Log = [] ∧
      (NewTask newId now nowPtr client taskType body).RequestId = none ∧
      (NewTask newId now nowPtr client taskType body).LastRunAt = none ∧
      (NewTask newId now nowPtr client taskType body).CreatedAt = now ∧
      (NewTask newId now nowPtr client taskType body).NextRunAt = some nowPtr ∧
      (∀ (maxAttempts : Int) (later : Time), 1 ≤ maxAttempts → nowPtr.ns ≤ later.ns →
        isRunnable maxAttempts later (NewTask newId now nowPtr client taskType body) = true) ∧
      (∀ parent : Task,
        (parent.NewDependentTask newId now nowPtr taskType body).1 =
            NewTask newId now nowPtr parent.Client taskType body ∧
          (parent.NewDependentTask newId now nowPtr taskType body).2 =
            { parent with Depends := parent.Depends ++ [newId] }) := by
  refine ⟨rfl, rfl, rfl, rfl, rfl, rfl, rfl, rfl, rfl, rfl, rfl, rfl, rfl, ?_, ?_⟩
  · intro maxAttempts later hmax hlater
    have h0 : (0 : Int) < maxAttempts := by omega
    simp [isRunnable, NewTask, TASK_STATUS_PENDING, h0, hlater]
  · intro parent
    exact ⟨rfl, rfl⟩

/-- C16 fails as stated: when the clock reads 1 for `CreatedAt` and 2 in `utils.NowPtr()`,
the `NextRunAt` of the new task is not its creation time `CreatedAt`. -/
theorem NewTask_NextRunAt_not_CreatedAt :
    (NewTask [1] ⟨1⟩ ⟨2⟩ [0] "noop" "").CreatedAt = ⟨1⟩ ∧
      (NewTask [1] ⟨1⟩ ⟨2⟩ [0] "noop" "").NextRunAt = some ⟨2⟩ ∧
      (NewTask [1] ⟨1⟩ ⟨2⟩ [0] "noop" "").NextRunAt ≠
        some (NewTask [1] ⟨1⟩ ⟨2⟩ [0] "noop" "").CreatedAt := by
  decide

/-- C15: `SetBSON` fails with the error of an unknown task type iff the generic fields
decode and the `Type` of the record has no entry in the map of body decoders; it fails
with the error of the generic decode when that fails, and with the error of the body
decoder of the type when that fails; on every failure the target task is left as it was;
and when nothing fails, every field of the target is the decoded field as it is, except
`Body`, which is what the registered decoder returns for the raw body. -/
theorem SetBSON_decoding (codec : Codec) (t : Task) (raw : Raw) :
    ((∃ text, (t.SetBSON codec raw).1 = some (SetBSONError.unknownTaskType text)) ↔
      ∃ tt, codec.Unmarshal raw = Except.ok tt ∧
        codec.taskBodyUnmarshalMap tt.TaskType = none) ∧
    (∀ tt, codec.Unmarshal raw = Except.ok tt →
      codec.taskBodyUnmarshalMap tt.TaskType = none →
      (t.SetBSON codec raw).1 = some (SetBSONError.unknownTaskType
        ("Cannot unmarshal BSON data for Task: unknown task type '" ++ tt.TaskType ++ "'."))) ∧
    (∀ e, codec.Unmarshal raw = Except.error e →
      (t.SetBSON codec raw).1 = some (SetBSONError.unmarshal e)) ∧
    (∀ tt f e, codec.Unmarshal raw = Except.ok tt →
      codec.taskBodyUnmarshalMap tt.TaskType = some f → (f tt.Body).2 = some e →
      (t.SetBSON codec raw).1 = some (SetBSONError.body e)) ∧
    ((t.SetBSON codec raw).1 ≠ none → (t.SetBSON codec raw).2 = t) ∧
    (∀ tt f, codec.Unmarshal raw = Except.ok tt →
      codec.taskBodyUnmarshalMap tt.TaskType = some f → (f tt.Body).2 = none →
      t.SetBSON codec raw =
        (none,
          { Id := tt.Id, Client := tt.Client, RequestId := tt.RequestId,
            Depends := tt.Depends, Locks := tt.Locks, TaskType := tt.TaskType,
            Body := (f tt.Body).1, CreatedAt := tt.CreatedAt, Status := tt.Status,
            Attempts := tt.Attempts, LastRunAt := tt.LastRunAt, NextRunAt := tt.NextRunAt,
            Log := tt.Log })) ∧
    ((t.SetBSON codec raw).1 = none →
      ∃ tt f, codec.Unmarshal raw = Except.ok tt ∧
        codec.taskBodyUnmarshalMap tt.TaskType = some f ∧ (f tt.Body).2 = none) := by
  unfold Task.SetBSON
  cases hu : codec.Unmarshal raw with
  | error e => simp
  | ok tt =>
    cases hm : codec.taskBodyUnmarshalMap tt.TaskType with
    | none =>
      simp [hm]
      refine ⟨fun tt1 f1 e1 h1 h2 _ => ?_, fun tt1 f1 h1 h2 _ => ?_⟩ <;>
      · subst h1
        rw [hm] at h2
        cases h2
    | some f =>
      cases hb : (f tt.Body).2 with
      | none =>
        simp [hm, hb]
        refine ⟨fun tt1 f1 e1 h1 h2 h3 => ?_, fun tt1 f1 h1 h2 _ => ?_⟩
        · subst h1
          rw [hm] at h2
          cases h2
          rw [hb] at h3
          cases h3
        · subst h1
          rw [hm] at h2
          cases h2
          simp
      | some e =>
        simp [hm, hb]
        refine ⟨fun tt1 f1 e1 h1 h2 h3 => ?_, fun tt1 f1 h1 h2 h3 => ?_⟩
        · subst h1
          rw [hm] at h2
          cases h2
          rw [hb] at h3
          exact Option.some.inj h3
        · subst h1
          rw [hm] at h2
          cases h2
          rw [hb] at h3
          cases h3

/-! ## The calls of the worker, one by one -/

theorem Worker_calls_of_settled {σ : Type} (env : Env σ) (startedAt finishedAt : Time)
    (w : World σ) (t : Task) (hpending : t.Status = TASK_STATUS_PENDING)
    (hlocks : (t.GetAllLocks env.lock w.locks).1 = none) (settled : Task × List Event)
    (hsettle : Worker.settle env
      (Worker.record finishedAt (TaskHistoryRecord.zero.Start startedAt)
        (Worker.handle env (Worker.started startedAt t)).1)
      (Worker.handle env (Worker.started startedAt t)).1.workerError
      (Worker.handle env (Worker.started startedAt t)).1.fatal = some settled) :
    (Worker env startedAt finishedAt w t).calls =
      (t.GetAllLocks env.lock w.locks).2.2 ++ [Event.setStatus t.Id TASK_STATUS_RUNNING] ++
        (Worker.handle env (Worker.started startedAt t)).2 ++ settled.2 ++
        [Event.upsertId settled.1.Id settled.1] ++
        (settled.1.ReleaseAllLocks env.lock (t.GetAllLocks env.lock w.locks).2.1).2.2 := by
  unfold Worker
  rw [if_neg (not_not.2 hpending)]
  dsimp only
  simp only [hlocks]
  unfold Worker.started at hsettle ⊢
  simp only [MongoTask.SaveStatus, TaskHistoryRecord.Start] at hsettle ⊢
  rw [hsettle]
  rfl

theorem Worker_calls_of_nil_dereference {σ : Type} (env : Env σ)
    (startedAt finishedAt : Time) (w : World σ) (t : Task)
    (hpending : t.Status = TASK_STATUS_PENDING)
    (hlocks : (t.GetAllLocks env.lock w.locks).1 = none)
    (hsettle : Worker.settle env
      (Worker.record finishedAt (TaskHistoryRecord.zero.Start startedAt)
        (Worker.handle env (Worker.started startedAt t)).1)
      (Worker.handle env (Worker.started startedAt t)).1.workerError
      (Worker.handle env (Worker.started startedAt t)).1.fatal = none) :
    (Worker env startedAt finishedAt w t).calls =
      (t.GetAllLocks env.lock w.locks).2.2 ++ [Event.setStatus t.Id TASK_STATUS_RUNNING] ++
        (Worker.handle env (Worker.started startedAt t)).2 := by
  unfold Worker
  rw [if_neg (not_not.2 hpending)]
  dsimp only
  simp only [hlocks]
  unfold Worker.started at hsettle ⊢
  simp only [MongoTask.SaveStatus, TaskHistoryRecord.Start] at hsettle ⊢
  rw [hsettle]

theorem writtenStatuses_append (a b : List Event) :
    writtenStatuses (a ++ b) = writtenStatuses a ++ writtenStatuses b := by
  simp [writtenStatuses, List.filterMap_append]

theorem writtenStatuses_of_lock_calls (calls : List Event)
    (h : ∀ e ∈ calls, e.isLockCall = true) : writtenStatuses calls = [] := by
  unfold writtenStatuses
  rw [List.filterMap_eq_nil_iff]
  intro e he
  have hl := h e he
  cases e <;> first | rfl | exact absurd hl Bool.false_ne_true

theorem handle_writes {σ : Type} (env : Env σ) (x : Task) :
    writtenStatuses (Worker.handle env x).2 = [] := by
  unfold Worker.handle
  split <;> rfl

theorem settle_writes {σ : Type} (env : Env σ) (x : Task) (taskError : Option String)
    (fatal : Bool) (settled : Task × List Event)
    (h : Worker.settle env x taskError fatal = some settled) :
    writtenStatuses settled.2 = [] := by
  unfold Worker.settle at h
  split at h
  · cases h; rfl
  · split_ifs at h
    · dsimp only at h
      split at h <;> (cases h; rfl)
    · split at h
      · cases h
      · cases h; rfl

theorem settle_status {σ : Type} (env : Env σ)
    (hframe : ∀ ty g, env.taskFatalHandlerMap ty = some g →
      ∀ x e, (g x e).task.Status = x.Status)
    (x : Task) (taskError : Option String) (fatal : Bool) (settled : Task × List Event)
    (h : Worker.settle env x taskError fatal = some settled) :
    settled.1.Status = TASK_STATUS_COMPLETE ∨ settled.1.Status = TASK_STATUS_FAILED ∨
      settled.1.Status = TASK_STATUS_PENDING := by
  unfold Worker.settle at h
  split at h
  · cases h; exact Or.inl rfl
  · split_ifs at h
    · dsimp only at h
      split at h
      · next g hg => cases h; exact Or.inr (Or.inl (hframe _ g hg _ _))
      · cases h; exact Or.inr (Or.inl rfl)
    · split at h
      · cases h
      · cases h; exact Or.inr (Or.inr rfl)

/-- The statuses that one call of `Worker` writes: none, or `RUNNING` alone, or `RUNNING`
and then the status of the task it upserts. -/
theorem Worker_writes {σ : Type} (env : Env σ) (startedAt finishedAt : Time) (w : World σ)
    (t : Task) :
    ((Worker env startedAt finishedAt w t).returned ≠ WorkerReturn.retNil ∧
        (writtenStatuses (Worker env startedAt finishedAt w t).calls = [] ∨
          writtenStatuses (Worker env startedAt finishedAt w t).calls =
            [TASK_STATUS_RUNNING])) ∨
      ∃ settled, Worker.settle env
          (Worker.record finishedAt (TaskHistoryRecord.zero.Start startedAt)
            (Worker.handle env (Worker.started startedAt t)).1)
          (Worker.handle env (Worker.started startedAt t)).1.workerError
          (Worker.handle env (Worker.started startedAt t)).1.fatal = some settled ∧
        (Worker env startedAt finishedAt w t).returned = WorkerReturn.retNil ∧
        persisted (Worker env startedAt finishedAt w t).calls = [settled.1] ∧
        writtenStatuses (Worker env startedAt finishedAt w t).calls =
          [TASK_STATUS_RUNNING, settled.1.Status] := by
  by_cases hpending : t.Status = TASK_STATUS_PENDING
  swap
  · rw [Worker_of_not_pending env startedAt finishedAt w t hpending]
    exact Or.inl ⟨(by intro h; cases h), Or.inl rfl⟩
  have hg := GetAllLocks_calls_lock env.lock t w.locks
  cases hlocks : (t.GetAllLocks env.lock w.locks).1 with
  | some err =>
    obtain ⟨_, h2, _, h4⟩ :=
      Worker_of_locks_failed env startedAt finishedAt w t hpending err hlocks
    rw [h2, h4]
    exact Or.inl ⟨by decide, Or.inl (writtenStatuses_of_lock_calls _ hg)⟩
  | none =>
    cases hsettle : Worker.settle env
      (Worker.record finishedAt (TaskHistoryRecord.zero.Start startedAt)
        (Worker.handle env (Worker.started startedAt t)).1)
      (Worker.handle env (Worker.started startedAt t)).1.workerError
      (Worker.handle env (Worker.started startedAt t)).1.fatal with
    | none =>
      left
      obtain ⟨_, h2, _, _⟩ :=
        Worker_of_nil_dereference env startedAt finishedAt w t hpending hlocks hsettle
      rw [h2, Worker_calls_of_nil_dereference env startedAt finishedAt w t hpending hlocks
        hsettle]
      refine ⟨by decide, Or.inr ?_⟩
      simp only [writtenStatuses_append, writtenStatuses_of_lock_calls _ hg, handle_writes]
      rfl
    | some settled =>
      right
      obtain ⟨_, h2, h3, _⟩ :=
        Worker_of_settled env startedAt finishedAt w t hpending hlocks settled hsettle
      refine ⟨settled, rfl, h2, h3, ?_⟩
      rw [Worker_calls_of_settled env startedAt finishedAt w t hpending hlocks settled hsettle]
      simp only [writtenStatuses_append, writtenStatuses_of_lock_calls _ hg, handle_writes,
        settle_writes env _ _ _ settled hsettle,
        writtenStatuses_of_lock_calls _ (ReleaseAllLocks_calls_lock env.lock settled.1 _)]
      rfl

theorem visit_writes (rd : Reader) (st : TickState) (t : Task) :
    ∀ status ∈ writtenStatuses (RunTasks.visit rd st t).calls,
      status ∈ writtenStatuses st.calls ∨ status = TASK_STATUS_FAILED := by
  have hc : writtenStatuses (CheckTaskDepends rd st.tasks t).2 = [] := by
    unfold writtenStatuses
    rw [List.filterMap_eq_nil_iff]
    intro e he
    rw [CheckTaskDepends_calls rd st.tasks t e he]
    rfl
  unfold RunTasks.visit
  dsimp only
  split_ifs
  · intro status hs
    simp only [writtenStatuses_append, hc, List.append_nil] at hs
    rcases List.mem_append.1 hs with h | h
    · exact Or.inl h
    · simp [writtenStatuses, Event.writtenStatus] at h
  · intro status hs
    simp only [writtenStatuses_append, hc, List.append_nil] at hs
    rcases List.mem_append.1 hs with h | h
    · exact Or.inl h
    · simp only [writtenStatuses, List.filterMap_cons, Event.writtenStatus,
        List.filterMap_nil, List.mem_singleton] at h
      exact Or.inr h
  · intro status hs
    simp only [writtenStatuses_append, hc, List.append_nil] at hs
    exact Or.inl hs

theorem foldl_visit_writes (rd : Reader) (ts : List Task) (st : TickState) :
    ∀ status ∈ writtenStatuses (ts.foldl (RunTasks.visit rd) st).calls,
      status ∈ writtenStatuses st.calls ∨ status = TASK_STATUS_FAILED := by
  induction ts generalizing st with
  | nil => exact fun status hs => Or.inl hs
  | cons t ts ih =>
    intro status hs
    rcases ih (RunTasks.visit rd st t) status hs with h | h
    · exact visit_writes rd st t status h
    · exact Or.inr h

/-- C17, as the code has it: when the fatal handlers hand the task back with the `Status`
they were given, every status that `Worker` writes to the collection is `RUNNING`,
`COMPLETE`, `FAILED` or `PENDING`, and a call of `Worker` that runs to its end upserts one
task, whose status is `COMPLETE`, `FAILED` or `PENDING`; and every status that `RunTasks`
writes is `FAILED`, whatever the records decode to. So neither writes `CANCELLED` or
`PAUSED`. -/
theorem core_writes_no_cancelled_or_paused {σ : Type} (env : Env σ)
    (hframe : ∀ ty g, env.taskFatalHandlerMap ty = some g →
      ∀ x e, (g x e).task.Status = x.Status) :
    (∀ (startedAt finishedAt : Time) (w : World σ) (t : Task),
      (∀ status ∈ writtenStatuses (Worker env startedAt finishedAt w t).calls,
        status = TASK_STATUS_RUNNING ∨ status = TASK_STATUS_COMPLETE ∨
          status = TASK_STATUS_FAILED ∨ status = TASK_STATUS_PENDING) ∧
      ((Worker env startedAt finishedAt w t).returned = WorkerReturn.retNil →
        ∃ doc, persisted (Worker env startedAt finishedAt w t).calls = [doc] ∧
          (doc.Status = TASK_STATUS_COMPLETE ∨ doc.Status = TASK_STATUS_FAILED ∨
            doc.Status = TASK_STATUS_PENDING))) ∧
    (∀ (rd : Reader) (now : Time) (c : Collection),
      ∀ status ∈ writtenStatuses (RunTasks rd env.maxAttempts now c).calls,
        status = TASK_STATUS_FAILED) := by
  constructor
  · intro startedAt finishedAt w t
    rcases Worker_writes env startedAt finishedAt w t with ⟨hr, hw | hw⟩ | ⟨settled, hs, hr, hp, hw⟩
    · rw [hw]
      exact ⟨by simp, fun h => absurd h hr⟩
    · rw [hw]
      exact ⟨by simp, fun h => absurd h hr⟩
    · have hst := settle_status env hframe _ _ _ settled hs
      rw [hw, hp]
      refine ⟨?_, fun _ => ⟨settled.1, rfl, hst⟩⟩
      intro status hmem
      simp only [List.mem_cons, List.mem_singleton, List.not_mem_nil, or_false] at hmem
      rcases hmem with h | h
      · exact Or.inl h
      · rw [h]; exact Or.inr hst
  · intro rd now c status hs
    rcases foldl_visit_writes rd _ _ status hs with h | h
    · simp [RunTasks.start, writtenStatuses, Event.writtenStatus] at h
    · exact h

/-- C17 at an environment whose fatal handler leaves the task alone: the failed attempt
runs to its end and upserts one task, which is `FAILED`. -/
theorem core_writes_no_cancelled_or_paused_witness :
    (Worker (sampleEnv 3 (some fun t => ⟨t, some "boom", true⟩) (some fun t _ => ⟨t, none⟩))
        ⟨1⟩ ⟨2⟩ ⟨[], ()⟩ (sampleTask [1] TASK_STATUS_PENDING [])).returned =
        WorkerReturn.retNil ∧
      ∃ doc, persisted (Worker (sampleEnv 3 (some fun t => ⟨t, some "boom", true⟩)
          (some fun t _ => ⟨t, none⟩)) ⟨1⟩ ⟨2⟩ ⟨[], ()⟩
          (sampleTask [1] TASK_STATUS_PENDING [])).calls = [doc] ∧
        (doc.Status = TASK_STATUS_COMPLETE ∨ doc.Status = TASK_STATUS_FAILED ∨
          doc.Status = TASK_STATUS_PENDING) :=
  ⟨by decide,
    ((core_writes_no_cancelled_or_paused
      (sampleEnv 3 (some fun t => ⟨t, some "boom", true⟩) (some fun t _ => ⟨t, none⟩))
      (fun ty g hg x e => by rw [sampleEnv_fatalHandler _ _ _ g ty hg])).1
      ⟨1⟩ ⟨2⟩ ⟨[], ()⟩ (sampleTask [1] TASK_STATUS_PENDING [])).2 (by decide)⟩

/-- C17 fails as stated: the handler fails with `fatal = true` and the fatal handler
writes `Status = CANCELLED` into the task it is given; `Worker` runs to its end and the
task it upserts is `CANCELLED`. -/
theorem Worker_upserts_cancelled :
    (Worker (sampleEnv 3 (some fun t => ⟨t, some "boom", true⟩)
        (some fun t _ => ⟨{ t with Status := TASK_STATUS_CANCELLED }, none⟩)) ⟨1⟩ ⟨2⟩ ⟨[], ()⟩
        (sampleTask [1] TASK_STATUS_PENDING [])).returned = WorkerReturn.retNil ∧
      writtenStatuses (Worker (sampleEnv 3 (some fun t => ⟨t, some "boom", true⟩)
        (some fun t _ => ⟨{ t with Status := TASK_STATUS_CANCELLED }, none⟩)) ⟨1⟩ ⟨2⟩ ⟨[], ()⟩
        (sampleTask [1] TASK_STATUS_PENDING [])).calls =
        [TASK_STATUS_RUNNING, TASK_STATUS_CANCELLED] := by
  decide

/-! ## Exhaustion of the attempts -/

theorem Worker_retNil_inv {σ : Type} (env : Env σ) (startedAt finishedAt : Time)
    (w : World σ) (t : Task)
    (h : (Worker env startedAt finishedAt w t).returned = WorkerReturn.retNil) :
    t.Status = TASK_STATUS_PENDING ∧ (t.GetAllLocks env.lock w.locks).1 = none ∧
      ∃ settled, Worker.settle env
          (Worker.record finishedAt (TaskHistoryRecord.zero.Start startedAt)
            (Worker.handle env (Worker.started startedAt t)).1)
          (Worker.handle env (Worker.started startedAt t)).1.workerError
          (Worker.handle env (Worker.started startedAt t)).1.fatal = some settled ∧
        (Worker env startedAt finishedAt w t).task = settled.1 := by
  by_cases hpending : t.Status = TASK_STATUS_PENDING
  swap
  · rw [Worker_of_not_pending env startedAt finishedAt w t hpending] at h
    cases h
  cases hlocks : (t.GetAllLocks env.lock w.locks).1 with
  | some err =>
    rw [(Worker_of_locks_failed env startedAt finishedAt w t hpending err hlocks).2.1] at h
    cases h
  | none =>
    cases hsettle : Worker.settle env
      (Worker.record finishedAt (TaskHistoryRecord.zero.Start startedAt)
        (Worker.handle env (Worker.started startedAt t)).1)
      (Worker.handle env (Worker.started startedAt t)).1.workerError
      (Worker.handle env (Worker.started startedAt t)).1.fatal with
    | none =>
      rw [(Worker_of_nil_dereference env startedAt finishedAt w t hpending hlocks
        hsettle).2.1] at h
      cases h
    | some settled =>
      exact ⟨hpending, rfl, settled, rfl,
        (Worker_of_settled env startedAt finishedAt w t hpending hlocks settled hsettle).1⟩

/-- One call of `Worker` that runs to its end, on a `PENDING` task with `a` attempts whose
handler always fails without `fatal` and keeps `Attempts` and `Type`. -/
theorem Worker_failing_step {σ : Type} (env : Env σ) (taskHandler : TaskHandlerF)
    (hmaxint : env.maxAttempts ≤ 9223372036854775807)
    (halways : ∀ x, (taskHandler x).workerError ≠ none ∧ (taskHandler x).fatal = false)
    (hkeep : ∀ x, (taskHandler x).task.Attempts = x.Attempts ∧
      (taskHandler x).task.TaskType = x.TaskType)
    (hfatal : ∀ ty g, env.taskFatalHandlerMap ty = some g → ∀ x e,
      (g x e).task.Status = x.Status ∧ (g x e).task.Attempts = x.Attempts ∧
        (g x e).task.NextRunAt = x.NextRunAt)
    (startedAt finishedAt : Time) (w : World σ) (t : Task) (a : Nat)
    (hreg : env.taskHandlerMap t.TaskType = some taskHandler)
    (hatt : t.Attempts = a) (hlt : (a : Int) < env.maxAttempts)
    (hret : (Worker env startedAt finishedAt w t).returned = WorkerReturn.retNil) :
    (Worker env startedAt finishedAt w t).task.Attempts = (a + 1 : Nat) ∧
      ((a + 1 : Nat) < env.maxAttempts →
        (Worker env startedAt finishedAt w t).task.Status = TASK_STATUS_PENDING ∧
          (Worker env startedAt finishedAt w t).task.NextRunAt ≠ none ∧
          env.taskHandlerMap (Worker env startedAt finishedAt w t).task.TaskType =
            some taskHandler) ∧
      (env.maxAttempts ≤ (a + 1 : Nat) →
        (Worker env startedAt finishedAt w t).task.Status = TASK_STATUS_FAILED ∧
          (Worker env startedAt finishedAt w t).task.NextRunAt = none) := by
  obtain ⟨_, _, settled, hsettle, htask⟩ :=
    Worker_retNil_inv env startedAt finishedAt w t hret
  rw [htask]
  rw [handle_of_registered env startedAt t taskHandler hreg] at hsettle
  obtain ⟨err, herr⟩ := Option.ne_none_iff_exists'.1 (halways (Worker.started startedAt t)).1
  rw [herr, (halways (Worker.started startedAt t)).2] at hsettle
  have hrec : (Worker.record finishedAt (TaskHistoryRecord.zero.Start startedAt)
      (taskHandler (Worker.started startedAt t))).Attempts = (a + 1 : Nat) := by
    show wrapInt64 (_ + 1) = _
    rw [(hkeep (Worker.started startedAt t)).1]
    show wrapInt64 (t.Attempts + 1) = _
    rw [hatt, wrapInt64_of_range _ (by omega) (by omega)]
    push_cast
    rfl
  have htype : (Worker.record finishedAt (TaskHistoryRecord.zero.Start startedAt)
      (taskHandler (Worker.started startedAt t))).TaskType = t.TaskType :=
    (hkeep (Worker.started startedAt t)).2
  by_cases hperm : env.maxAttempts ≤ (a + 1 : Nat)
  · rw [settle_of_permanent env _ err false (Or.inr (by rw [hrec]; exact hperm))] at hsettle
    have hno : ¬ ((a + 1 : Nat) : Int) < env.maxAttempts := not_lt.2 hperm
    split at hsettle
    · next g hg =>
      cases hsettle
      obtain ⟨f1, f2, f3⟩ := hfatal _ g hg
        { Worker.record finishedAt (TaskHistoryRecord.zero.Start startedAt)
            (taskHandler (Worker.started startedAt t)) with
          Status := TASK_STATUS_FAILED, NextRunAt := none } err
      exact ⟨f2.trans hrec, fun h => absurd h hno, fun _ => ⟨f1, f3⟩⟩
    · cases hsettle
      exact ⟨hrec, fun h => absurd h hno, fun _ => ⟨rfl, rfl⟩⟩
  · rw [settle_of_transient env _ err false
      (by rw [hrec]; rintro (h | h); exact absurd h (by decide); exact hperm h)] at hsettle
    split at hsettle
    · cases hsettle
    · cases hsettle
      exact ⟨hrec, fun _ => ⟨rfl, by simp, by rw [← hreg]; exact congrArg _ htype⟩,
        fun h => absurd h hperm⟩

theorem workerCycles_exhaustion {σ : Type} (env : Env σ) (taskHandler : TaskHandlerF)
    (hmaxint : env.maxAttempts ≤ 9223372036854775807)
    (halways : ∀ x, (taskHandler x).workerError ≠ none ∧ (taskHandler x).fatal = false)
    (hkeep : ∀ x, (taskHandler x).task.Attempts = x.Attempts ∧
      (taskHandler x).task.TaskType = x.TaskType)
    (hfatal : ∀ ty g, env.taskFatalHandlerMap ty = some g → ∀ x e,
      (g x e).task.Status = x.Status ∧ (g x e).task.Attempts = x.Attempts ∧
        (g x e).task.NextRunAt = x.NextRunAt)
    (cycles : List (Time × Time × World σ)) (t : Task) (a : Nat)
    (hreg : env.taskHandlerMap t.TaskType = some taskHandler)
    (hpending : t.Status = TASK_STATUS_PENDING) (hatt : t.Attempts = a)
    (hlt : (a : Int) < env.maxAttempts) (hnext : t.NextRunAt ≠ none)
    (hdone : allCompleted env cycles t = true) :
    ((a + cycles.length : Nat) : Int) ≤ env.maxAttempts ∧
      (((a + cycles.length : Nat) : Int) < env.maxAttempts →
        (workerCycles env cycles t).Status = TASK_STATUS_PENDING ∧
          (workerCycles env cycles t).Attempts = (a + cycles.length : Nat) ∧
          (workerCycles env cycles t).NextRunAt ≠ none) ∧
      (((a + cycles.length : Nat) : Int) = env.maxAttempts →
        (workerCycles env cycles t).Status = TASK_STATUS_FAILED ∧
          (workerCycles env cycles t).Attempts = env.maxAttempts ∧
          (workerCycles env cycles t).NextRunAt = none) := by
  induction cycles generalizing t a with
  | nil =>
    simp only [List.length_nil, Nat.add_zero, workerCycles]
    exact ⟨le_of_lt hlt, fun _ => ⟨hpending, hatt, hnext⟩, fun h => absurd h (ne_of_lt hlt)⟩
  | cons cycle rest ih =>
    simp only [allCompleted, Bool.and_eq_true, decide_eq_true_eq] at hdone
    obtain ⟨hret, hrest⟩ := hdone
    obtain ⟨h1, h2, h3⟩ := Worker_failing_step env taskHandler hmaxint halways hkeep hfatal
      cycle.1 cycle.2.1 cycle.2.2 t a hreg hatt hlt hret
    have hlen : a + (cycle :: rest).length = (a + 1) + rest.length := by
      simp only [List.length_cons]; omega
    rw [hlen]
    unfold workerCycles
    by_cases hperm : env.maxAttempts ≤ (a + 1 : Nat)
    · obtain ⟨hs, hn⟩ := h3 hperm
      have hrestnil : rest = [] := by
        cases rest with
        | nil => rfl
        | cons c2 rest2 =>
          simp only [allCompleted, Bool.and_eq_true, decide_eq_true_eq] at hrest
          have hnp : (Worker env cycle.1 cycle.2.1 cycle.2.2 t).task.Status ≠
              TASK_STATUS_PENDING := by rw [hs]; decide
          rw [Worker_of_not_pending env c2.1 c2.2.1 c2.2.2 _ hnp] at hrest
          exact absurd hrest.1 (by intro h; cases h)
      subst hrestnil
      have heq : ((a + 1 : Nat) : Int) = env.maxAttempts := by
        have : ((a + 1 : Nat) : Int) ≤ env.maxAttempts := by push_cast; omega
        omega
      simp only [List.length_nil, Nat.add_zero, workerCycles]
      exact ⟨le_of_eq heq, fun h => absurd heq (ne_of_lt h), fun _ => ⟨hs, h1.trans heq, hn⟩⟩
    · obtain ⟨hs, hn, hreg2⟩ := h2 (not_le.1 hperm)
      exact ih (Worker env cycle.1 cycle.2.1 cycle.2.2 t).task (a + 1) hreg2 hs h1
        (not_le.1 hperm) hn hrest


/-- C11, as the code has it: let `maxAttempts >= 1` (an `int`), and let the handler
registered for the type of a task always return an error with `fatal = false` and hand
the task back with `Attempts` and `Type` as it got them, the fatal handlers handing it
back with `Status`, `Attempts` and `NextRunAt` as they got them. From a task that is
`PENDING` with `Attempts = 0` and a non-null `NextRunAt` (a freshly created one), after
`k` calls of `Worker` that all ran to their end, `k <= maxAttempts`; for `k < maxAttempts`
the task is `PENDING` with `Attempts = k` and a non-null `NextRunAt`; for
`k = maxAttempts` it is `FAILED` with `Attempts = maxAttempts` and `NextRunAt = null`, and
any further call of `Worker` returns at once, with the task, the world and no call. -/
theorem Worker_exhaustion {σ : Type} (env : Env σ) (taskHandler : TaskHandlerF)
    (hmax : 1 ≤ env.maxAttempts) (hmaxint : env.maxAttempts ≤ 9223372036854775807)
    (halways : ∀ x, (taskHandler x).workerError ≠ none ∧ (taskHandler x).fatal = false)
    (hkeep : ∀ x, (taskHandler x).task.Attempts = x.Attempts ∧
      (taskHandler x).task.TaskType = x.TaskType)
    (hfatal : ∀ ty g, env.taskFatalHandlerMap ty = some g → ∀ x e,
      (g x e).task.Status = x.Status ∧ (g x e).task.Attempts = x.Attempts ∧
        (g x e).task.NextRunAt = x.NextRunAt)
    (cycles : List (Time × Time × World σ)) (t : Task)
    (hreg : env.taskHandlerMap t.TaskType = some taskHandler)
    (hpending : t.Status = TASK_STATUS_PENDING) (hfresh : t.Attempts = 0)
    (hnext : t.NextRunAt ≠ none) (hdone : allCompleted env cycles t = true) :
    (cycles.length : Int) ≤ env.maxAttempts ∧
      ((cycles.length : Int) < env.maxAttempts →
        (workerCycles env cycles t).Status = TASK_STATUS_PENDING ∧
          (workerCycles env cycles t).Attempts = cycles.length ∧
          (workerCycles env cycles t).NextRunAt ≠ none) ∧
      ((cycles.length : Int) = env.maxAttempts →
        (workerCycles env cycles t).Status = TASK_STATUS_FAILED ∧
          (workerCycles env cycles t).Attempts = env.maxAttempts ∧
          (workerCycles env cycles t).NextRunAt = none ∧
          ∀ (startedAt finishedAt : Time) (w : World σ),
            Worker env startedAt finishedAt w (workerCycles env cycles t) =
              ⟨w, workerCycles env cycles t, WorkerReturn.retFalse, []⟩) := by
  have h := workerCycles_exhaustion env taskHandler hmaxint halways hkeep hfatal cycles t 0
    hreg hpending (by rw [hfresh]; rfl) (by omega) hnext hdone
  simp only [Nat.zero_add] at h
  refine ⟨h.1, h.2.1, fun hk => ?_⟩
  obtain ⟨hs, ha, hn⟩ := h.2.2 hk
  refine ⟨hs, ha, hn, fun startedAt finishedAt w => ?_⟩
  exact Worker_of_not_pending env startedAt finishedAt w _ (by rw [hs]; decide)

/-- C11 at `maxAttempts = 2`, a freshly created task and a handler that always fails
transiently: after two calls of `Worker` the task is `FAILED` with `Attempts = 2` and
`NextRunAt = null`. -/
theorem Worker_exhaustion_witness :
    (workerCycles (sampleEnv 2 (some fun t => ⟨t, some "boom", false⟩) none)
        [(⟨1⟩, ⟨2⟩, ⟨[], ()⟩), (⟨300000000000⟩, ⟨300000000001⟩, ⟨[], ()⟩)]
        (NewTask [1] ⟨0⟩ ⟨0⟩ [0] "noop" "")).Status = TASK_STATUS_FAILED ∧
      (workerCycles (sampleEnv 2 (some fun t => ⟨t, some "boom", false⟩) none)
        [(⟨1⟩, ⟨2⟩, ⟨[], ()⟩), (⟨300000000000⟩, ⟨300000000001⟩, ⟨[], ()⟩)]
        (NewTask [1] ⟨0⟩ ⟨0⟩ [0] "noop" "")).Attempts = 2 ∧
      (workerCycles (sampleEnv 2 (some fun t => ⟨t, some "boom", false⟩) none)
        [(⟨1⟩, ⟨2⟩, ⟨[], ()⟩), (⟨300000000000⟩, ⟨300000000001⟩, ⟨[], ()⟩)]
        (NewTask [1] ⟨0⟩ ⟨0⟩ [0] "noop" "")).NextRunAt = none := by
  obtain ⟨h1, h2, h3, _⟩ :=
    (Worker_exhaustion (sampleEnv 2 (some fun t => ⟨t, some "boom", false⟩) none)
      (fun t => ⟨t, some "boom", false⟩) (by decide) (by decide)
      (fun _ => ⟨by simp, rfl⟩) (fun _ => ⟨rfl, rfl⟩)
      (fun ty g hg => by simp [sampleEnv] at hg)
      [(⟨1⟩, ⟨2⟩, ⟨[], ()⟩), (⟨300000000000⟩, ⟨300000000001⟩, ⟨[], ()⟩)]
      (NewTask [1] ⟨0⟩ ⟨0⟩ [0] "noop" "") rfl rfl rfl (by decide) (by decide)).2.2 rfl
  exact ⟨h1, h2, h3⟩

/-- C11 fails as stated: with `maxAttempts = 2`, a handler that always returns an error
with `fatal = false` and writes `Attempts = 0` into the task it is given leaves the task,
after two calls of `Worker` that ran to their end, `PENDING` with `Attempts = 1`. -/
theorem Worker_exhaustion_reset_by_handler :
    allCompleted (sampleEnv 2 (some fun t => ⟨{ t with Attempts := 0 }, some "boom", false⟩)
        none) [(⟨1⟩, ⟨2⟩, ⟨[], ()⟩), (⟨300000000000⟩, ⟨300000000001⟩, ⟨[], ()⟩)]
        (NewTask [1] ⟨0⟩ ⟨0⟩ [0] "noop" "") = true ∧
      (workerCycles (sampleEnv 2
        (some fun t => ⟨{ t with Attempts := 0 }, some "boom", false⟩) none)
        [(⟨1⟩, ⟨2⟩, ⟨[], ()⟩), (⟨300000000000⟩, ⟨300000000001⟩, ⟨[], ()⟩)]
        (NewTask [1] ⟨0⟩ ⟨0⟩ [0] "noop" "")).Status = TASK_STATUS_PENDING ∧
      (workerCycles (sampleEnv 2
        (some fun t => ⟨{ t with Attempts := 0 }, some "boom", false⟩) none)
        [(⟨1⟩, ⟨2⟩, ⟨[], ()⟩), (⟨300000000000⟩, ⟨300000000001⟩, ⟨[], ()⟩)]
        (NewTask [1] ⟨0⟩ ⟨0⟩ [0] "noop" "")).Attempts = 1 := by
  decide

/-! ## The locks of a call of the worker -/

theorem heldAfter_of_not_lock (held : List String) (calls : List Event)
    (h : ∀ e ∈ calls, e.isLockCall = false) : heldAfter held calls = held := by
  induction calls generalizing held with
  | nil => rfl
  | cons e rest ih =>
    have he := h e (List.mem_cons_self _ _)
    rw [heldAfter_cons, ih _ fun x hx => h x (List.mem_cons_of_mem _ hx)]
    cases e <;> first | rfl | exact absurd he (by intro h; cases h)

theorem handle_calls_not_lock {σ : Type} (env : Env σ) (x : Task) :
    ∀ e ∈ (Worker.handle env x).2, e.isLockCall = false := by
  unfold Worker.handle
  split
  · intro e he
    rw [List.mem_singleton.1 he]
    rfl
  · intro e he
    cases he

theorem settle_calls_not_lock {σ : Type} (env : Env σ) (x : Task)
    (taskError : Option String) (fatal : Bool) (settled : Task × List Event)
    (h : Worker.settle env x taskError fatal = some settled) :
    ∀ e ∈ settled.2, e.isLockCall = false := by
  unfold Worker.settle at h
  split at h
  · cases h; intro e he; cases he
  · split_ifs at h
    · dsimp only at h
      split at h
      · cases h
        intro e he
        rw [List.mem_singleton.1 he]
        rfl
      · cases h; intro e he; cases he
    · split at h
      · cases h
      · cases h; intro e he; cases he

theorem handle_Locks {σ : Type} (env : Env σ)
    (hH : ∀ ty f, env.taskHandlerMap ty = some f →
      ∀ x, (f x).task.Locks = x.Locks ∧ (f x).task.LastRunAt = x.LastRunAt) (x : Task) :
    (Worker.handle env x).1.task.Locks = x.Locks ∧
      (Worker.handle env x).1.task.LastRunAt = x.LastRunAt := by
  unfold Worker.handle
  split
  · next f hf => exact hH _ f hf x
  · exact ⟨rfl, rfl⟩

theorem settle_Locks {σ : Type} (env : Env σ)
    (hF : ∀ ty g, env.taskFatalHandlerMap ty = some g → ∀ x e, (g x e).task.Locks = x.Locks)
    (x : Task) (taskError : Option String) (fatal : Bool) (settled : Task × List Event)
    (h : Worker.settle env x taskError fatal = some settled) : settled.1.Locks = x.Locks := by
  unfold Worker.settle at h
  split at h
  · cases h; rfl
  · split_ifs at h
    · dsimp only at h
      split at h
      · next g hg => cases h; exact hF _ g hg _ _
      · cases h; rfl
    · split at h
      · cases h
      · cases h; rfl

theorem settle_ne_none {σ : Type} (env : Env σ) (x : Task) (taskError : Option String)
    (fatal : Bool) (hlast : x.LastRunAt ≠ none) : Worker.settle env x taskError fatal ≠ none := by
  unfold Worker.settle
  split
  · simp
  · split_ifs
    · dsimp only
      split <;> simp
    · split
      · next h => exact absurd h hlast
      · simp

theorem mem_heldAfter_GetAllLocks_failed_iff {σ : Type} (svc : LockService σ) (t : Task)
    (s : σ) (err : String) (h : (t.GetAllLocks svc s).1 = some err)
    (hrel : ∀ name answer, Event.releaseLock name answer ∈ (t.GetAllLocks svc s).2.2 →
      answer = none) (held : List String) (hfree : ∀ l ∈ t.Locks, Hex l ∉ held)
    (n : String) : n ∈ heldAfter held (t.GetAllLocks svc s).2.2 ↔ n ∈ held := by
  refine ⟨fun hn => (mem_heldAfter_GetAllLocks_failed svc t s err h hrel held n hn).1, ?_⟩
  intro hn
  obtain ⟨pre, l, post, answers, h1, hlen, hcalls, _⟩ := GetAllLocks_calls_of_some svc t s err h
  have hall : ∀ a ∈ answers, a = none := by
    intro a ha
    obtain ⟨name, hname⟩ := mem_releaseCalls pre answers hlen a ha
    exact hrel name a (by rw [hcalls]; exact List.mem_append_right _ hname)
  rw [hcalls, heldAfter_append, heldAfter_append, mem_heldAfter_releaseCalls pre answers hlen hall]
  constructor
  · show n ∈ heldAfter held (pre.map fun l => Event.getLock (Hex l) true)
    exact (mem_heldAfter_getLocks pre held n).2 (Or.inl hn)
  · intro hmem
    obtain ⟨x, hx, hxn⟩ := List.mem_map.1 hmem
    exact hfree x (by rw [h1]; exact List.mem_append_left _ hx) (hxn ▸ hn)

/-- C19, as the code has it: let the handlers hand the task back with `Locks` and
`LastRunAt` as they got them and the fatal handlers with `Locks` as they got them; let
every `ReleaseLock` that the call makes succeed, and let the worker hold none of the
locks of the task before the call. Then after `Worker` returns the worker holds exactly
the locks it held before, on every path; the call does not end in a panic; and when it
runs to its end its calls are: calls without any release and without any upsert, then
the one upsert, then the releases of the locks of the task, in list order. -/
theorem Worker_no_lock_leak {σ : Type} (env : Env σ)
    (hH : ∀ ty f, env.taskHandlerMap ty = some f →
      ∀ x, (f x).task.Locks = x.Locks ∧ (f x).task.LastRunAt = x.LastRunAt)
    (hF : ∀ ty g, env.taskFatalHandlerMap ty = some g → ∀ x e, (g x e).task.Locks = x.Locks)
    (startedAt finishedAt : Time) (w : World σ) (t : Task) (held : List String)
    (hrel : ∀ name answer,
      Event.releaseLock name answer ∈ (Worker env startedAt finishedAt w t).calls →
        answer = none)
    (hfree : ∀ l ∈ t.Locks, Hex l ∉ held) :
    (∀ name, name ∈ heldAfter held (Worker env startedAt finishedAt w t).calls ↔
      name ∈ held) ∧
    (Worker env startedAt finishedAt w t).returned ≠ WorkerReturn.nilDereference ∧
    ((Worker env startedAt finishedAt w t).returned = WorkerReturn.retNil →
      ∃ before doc answers,
        (Worker env startedAt finishedAt w t).calls =
          before ++ [Event.upsertId doc.Id doc] ++ releaseCalls t.Locks answers ∧
        answers.length = t.Locks.length ∧ persisted before = [] ∧
        ∀ name answer, Event.releaseLock name answer ∉ before) := by
  by_cases hpending : t.Status = TASK_STATUS_PENDING
  swap
  · rw [Worker_of_not_pending env startedAt finishedAt w t hpending]
    exact ⟨fun name => Iff.rfl, (by intro h; cases h), (by intro h; cases h)⟩
  cases hlocks : (t.GetAllLocks env.lock w.locks).1 with
  | some err =>
    obtain ⟨_, h2, _, h4⟩ :=
      Worker_of_locks_failed env startedAt finishedAt w t hpending err hlocks
    rw [h4] at hrel
    rw [h2, h4]
    exact ⟨mem_heldAfter_GetAllLocks_failed_iff env.lock t w.locks err hlocks hrel held hfree,
      (by intro h; cases h), (by intro h; cases h)⟩
  | none =>
    have hhl := handle_Locks env hH (Worker.started startedAt t)
    have hlast : (Worker.record finishedAt (TaskHistoryRecord.zero.Start startedAt)
        (Worker.handle env (Worker.started startedAt t)).1).LastRunAt ≠ none := by
      show (Worker.handle env (Worker.started startedAt t)).1.task.LastRunAt ≠ none
      rw [hhl.2]
      exact Option.some_ne_none _
    cases hsettle : Worker.settle env
      (Worker.record finishedAt (TaskHistoryRecord.zero.Start startedAt)
        (Worker.handle env (Worker.started startedAt t)).1)
      (Worker.handle env (Worker.started startedAt t)).1.workerError
      (Worker.handle env (Worker.started startedAt t)).1.fatal with
    | none => exact absurd hsettle (settle_ne_none env _ _ _ hlast)
    | some settled =>
      obtain ⟨_, hret, hpers, _⟩ :=
        Worker_of_settled env startedAt finishedAt w t hpending hlocks settled hsettle
      have hcalls :=
        Worker_calls_of_settled env startedAt finishedAt w t hpending hlocks settled hsettle
      have hsl : settled.1.Locks = t.Locks := by
        rw [settle_Locks env hF _ _ _ settled hsettle]
        exact hhl.1
      obtain ⟨answers, hlen, hrc, _, _⟩ := ReleaseAllLocks_loop_spec env.lock settled.1.Locks
        (t.GetAllLocks env.lock w.locks).2.1
      have hrc2 : (settled.1.ReleaseAllLocks env.lock
          (t.GetAllLocks env.lock w.locks).2.1).2.2 = releaseCalls t.Locks answers := by
        rw [← hsl]; exact hrc
      rw [hsl] at hlen
      rw [hrc2, GetAllLocks_calls_of_none env.lock t w.locks hlocks] at hcalls
      have hall : ∀ a ∈ answers, a = none := by
        intro a ha
        obtain ⟨name, hname⟩ := mem_releaseCalls t.Locks answers hlen a ha
        exact hrel name a (by rw [hcalls]; exact List.mem_append_right _ hname)
      have hnl1 := handle_calls_not_lock env (Worker.started startedAt t)
      have hnl2 := settle_calls_not_lock env _ _ _ settled hsettle
      refine ⟨fun name => ?_, (by rw [hret]; intro h; cases h), fun _ => ?_⟩
      · rw [hcalls]
        simp only [heldAfter_append]
        rw [mem_heldAfter_releaseCalls t.Locks answers hlen hall,
          heldAfter_of_not_lock _ [Event.upsertId settled.1.Id settled.1]
            (fun e he => by rw [List.mem_singleton.1 he]; rfl),
          heldAfter_of_not_lock _ settled.2 hnl2,
          heldAfter_of_not_lock _ (Worker.handle env (Worker.started startedAt t)).2 hnl1,
          heldAfter_of_not_lock _ [Event.setStatus t.Id TASK_STATUS_RUNNING]
            (fun e he => by rw [List.mem_singleton.1 he]; rfl),
          mem_heldAfter_getLocks]
        constructor
        · rintro ⟨h1 | h1, h2⟩
          · exact h1
          · exact absurd h1 h2
        · intro h1
          refine ⟨Or.inl h1, fun hmem => ?_⟩
          obtain ⟨x, hx, hxn⟩ := List.mem_map.1 hmem
          exact hfree x hx (hxn ▸ h1)
      · refine ⟨_, settled.1, answers, hcalls, hlen, ?_, ?_⟩
        · simp only [persisted_append, (handle_calls env (Worker.started startedAt t)).1,
            settle_calls env _ _ _ settled hsettle]
          rw [persisted_of_lock_calls _ (fun e he => by
            obtain ⟨l, _, hl⟩ := List.mem_map.1 he
            rw [← hl]; rfl)]
          rfl
        · intro name answer hmem
          simp only [List.mem_append, List.mem_map, List.mem_singleton, reduceCtorEq,
            and_false, exists_false, or_false, false_or] at hmem
          rcases hmem with hmem | hmem
          · exact absurd (hnl1 _ hmem) (by intro h; cases h)
          · exact absurd (hnl2 _ hmem) (by intro h; cases h)

/-- C19 at a task with the lock `09` over a lock service in which every lock is free and
every release succeeds, with a handler that leaves the task alone: after the call the
worker holds no lock. -/
theorem Worker_no_lock_leak_witness :
    (∀ l ∈ ({ sampleTask [1] TASK_STATUS_PENDING [] with Locks := [[9]] } : Task).Locks,
        Hex l ∉ ([] : List String)) ∧
      ∀ name, name ∈ heldAfter []
          (Worker (sampleEnvLocks [] [] 3 (some fun t => ⟨t, none, false⟩) none) ⟨1⟩ ⟨2⟩
            ⟨[], []⟩ { sampleTask [1] TASK_STATUS_PENDING [] with Locks := [[9]] }).calls ↔
        name ∈ ([] : List String) := by
  refine ⟨by decide, ?_⟩
  have hcalls : (Worker (sampleEnvLocks [] [] 3 (some fun t => ⟨t, none, false⟩) none) ⟨1⟩ ⟨2⟩
      ⟨[], []⟩ { sampleTask [1] TASK_STATUS_PENDING [] with Locks := [[9]] }).calls.filter
        (fun e => e.isLockCall) = [Event.getLock "09" true, Event.releaseLock "09" none] := by
    decide
  refine (Worker_no_lock_leak (sampleEnvLocks [] [] 3 (some fun t => ⟨t, none, false⟩) none)
    (fun ty f hf x => ?_) (fun ty g hg => ?_) ⟨1⟩ ⟨2⟩ ⟨[], []⟩
    { sampleTask [1] TASK_STATUS_PENDING [] with Locks := [[9]] } [] ?_ (by decide)).1
  · simp only [sampleEnvLocks] at hf
    split_ifs at hf
    cases hf
    exact ⟨rfl, rfl⟩
  · simp [sampleEnvLocks] at hg
  · intro name answer hmem
    have h2 : Event.releaseLock name answer ∈
        [Event.getLock "09" true, Event.releaseLock "09" none] := by
      rw [← hcalls]
      exact List.mem_filter.2 ⟨hmem, rfl⟩
    simp only [List.mem_cons, List.mem_singleton, reduceCtorEq, Event.releaseLock.injEq,
      false_or, List.not_mem_nil, or_false] at h2
    exact h2.2

/-- C19 fails as stated, in three ways, each over a lock service whose releases succeed.
A handler that empties `Locks` in the task it is given: `Worker` runs to its end and the
lock `09` that it obtained is still held. A handler that sets `LastRunAt` to nil and fails
transiently: `Worker` ends in the nil dereference, before the release, and `09` is still
held. A worker that holds `09` before the call and is granted it again: after the call it
does not hold it any more. -/
theorem Worker_lock_leaks :
    ((Worker (sampleEnvLocks [] [] 3 (some fun t => ⟨{ t with Locks := [] }, none, false⟩) none)
          ⟨1⟩ ⟨2⟩ ⟨[], []⟩
          { sampleTask [1] TASK_STATUS_PENDING [] with Locks := [[9]] }).returned =
        WorkerReturn.retNil ∧
      (Worker (sampleEnvLocks [] [] 3 (some fun t => ⟨{ t with Locks := [] }, none, false⟩) none)
          ⟨1⟩ ⟨2⟩ ⟨[], []⟩
          { sampleTask [1] TASK_STATUS_PENDING [] with Locks := [[9]] }).world.locks = ["09"] ∧
      heldAfter [] (Worker (sampleEnvLocks [] [] 3
          (some fun t => ⟨{ t with Locks := [] }, none, false⟩) none) ⟨1⟩ ⟨2⟩ ⟨[], []⟩
          { sampleTask [1] TASK_STATUS_PENDING [] with Locks := [[9]] }).calls = ["09"]) ∧
    ((Worker (sampleEnvLocks [] [] 3
          (some fun t => ⟨{ t with LastRunAt := none }, some "boom", false⟩) none)
          ⟨1⟩ ⟨2⟩ ⟨[], []⟩
          { sampleTask [1] TASK_STATUS_PENDING [] with Locks := [[9]] }).returned =
        WorkerReturn.nilDereference ∧
      heldAfter [] (Worker (sampleEnvLocks [] [] 3
          (some fun t => ⟨{ t with LastRunAt := none }, some "boom", false⟩) none)
          ⟨1⟩ ⟨2⟩ ⟨[], []⟩
          { sampleTask [1] TASK_STATUS_PENDING [] with Locks := [[9]] }).calls = ["09"]) ∧
    ((Worker (sampleEnvLocks [] [] 3 (some fun t => ⟨t, none, false⟩) none)
          ⟨1⟩ ⟨2⟩ ⟨[], ["09"]⟩
          { sampleTask [1] TASK_STATUS_PENDING [] with Locks := [[9]] }).world.locks = [] ∧
      heldAfter ["09"] (Worker (sampleEnvLocks [] [] 3 (some fun t => ⟨t, none, false⟩) none)
          ⟨1⟩ ⟨2⟩ ⟨[], ["09"]⟩
          { sampleTask [1] TASK_STATUS_PENDING [] with Locks := [[9]] }).calls = []) := by
  decide

end Maelstrom
